import Mathlib

/-!
# risc0 zkVM host side: receipts, prover, streams, method ids, memory map, evaluator

A shallow embedding of

* `risc0/zkvm/sdk/cpp/host/receipt.cpp` (`Receipt::verify`, `Prover::Impl`,
  `Prover::writeInput`, `Prover::run`, `CheckedStreamReader`),
* `risc0/zkvm/prove/method_id.h` and `method_id.cpp` (`MethodId`),
* `risc0/zkvm/platform/memory.h` (the memory map),
* `risc0/zkvm/sdk/rust/circuit/cxx/step_verify.cpp` (`step_verify`),

followed by the properties proved about them.

Conventions.  Bytes and 32-bit words are `Fin 256` and `Fin 2^32`; every word
the code builds is reduced modulo `2^32` explicitly.  `size_t` is 64 bit and
its subtraction wraps around at `2^64`; sums of buffer offsets stay far below
`2^64` and are not reduced, except `cursor + len` in `read_buffer`, whose
`len` is an argument: it wraps around at `2^64`.  Memory is little-endian, so a buffer of words
viewed through `memcmp` is the concatenation of the four bytes of every word,
low byte first.  The proof system (`risc0::verify`, `prove`), `shaHash`, the
ELF loader, the code-root pipeline and the evaluator host bridge live outside
these sources and are parameters; the field `Fp` and the helper `align` are
modelled from the specification, and `specSameAddrFlag` is the flag of column
149 in the words of the specification, to be compared with `sameAddrFlag`.
-/

namespace risc0

deriving instance DecidableEq for Except

/-! ## Bytes and words -/

/-- A `uint8_t`. -/
abbrev Byte := Fin 256

/-- A `uint32_t`. -/
abbrev Word := Fin 4294967296

/-- The four bytes of a 32-bit word as they lie in (little-endian) memory. -/
def wordBytes (w : Word) : List Byte :=
  [⟨w.val % 256, Nat.mod_lt _ (by decide)⟩,
   ⟨w.val / 256 % 256, Nat.mod_lt _ (by decide)⟩,
   ⟨w.val / 65536 % 256, Nat.mod_lt _ (by decide)⟩,
   ⟨w.val / 16777216 % 256, Nat.mod_lt _ (by decide)⟩]

/-- A buffer of words (`BufferU32::data()`, or the words of a `ShaDigest`)
viewed as a byte stream. -/
def bufferBytes (ws : List Word) : List Byte :=
  ws.flatMap wordBytes

/-- The 32-bit word whose memory image is the four given bytes. -/
def bytesToWord (b0 b1 b2 b3 : Byte) : Word :=
  ⟨(b0.val + 256 * b1.val + 65536 * b2.val + 16777216 * b3.val) % 4294967296,
    Nat.mod_lt _ (by decide)⟩

/-- Reinterpret a byte buffer as 32-bit words (what `memcpy` into an array of
words does); trailing bytes that do not fill a word are not part of any word. -/
def bytesToWords : List Byte → List Word
  | b0 :: b1 :: b2 :: b3 :: rest => bytesToWord b0 b1 b2 b3 :: bytesToWords rest
  | _ => []

/-! ## Digests and method ids -/

/-- A `ShaDigest`: eight 32-bit words, `sizeof(ShaDigest) = 32`. -/
structure ShaDigest where
  words : List Word
  size_eq : words.length = 8
deriving DecidableEq

/-- The object representation of a digest, the 32 bytes `memcmp` looks at. -/
def ShaDigest.bytes (d : ShaDigest) : List Byte :=
  bufferBytes d.words

/-- The value `ShaDigest::zero()`. -/
def ShaDigest.zero : ShaDigest :=
  ⟨[0, 0, 0, 0, 0, 0, 0, 0], rfl⟩

/-- A `MethodDigest`: the array of per-level digests. -/
abbrev MethodDigest := List ShaDigest

/-- Group words eight at a time into digests. -/
def wordsToDigests : List Word → List ShaDigest
  | w0 :: w1 :: w2 :: w3 :: w4 :: w5 :: w6 :: w7 :: rest =>
      ⟨[w0, w1, w2, w3, w4, w5, w6, w7], rfl⟩ :: wordsToDigests rest
  | _ => []

/-- The class `MethodId` of method_id.h: its one data member is the raw byte
array `methodId`. -/
structure MethodId where
  methodId : List Byte
deriving DecidableEq

/-- The function `MethodId::asDigest` (method_id.h): `memcpy` of the raw bytes
into a `MethodDigest`. -/
def MethodId.asDigest (m : MethodId) : MethodDigest :=
  wordsToDigests (bytesToWords m.methodId)

/-! ## Receipt::verify -/

/-- The proof-system verifier: `getRiscVVerifyCircuit(digest)` followed by
`risc0::verify(circuit, seal.data(), seal.size())`.  It is `true` when the
call returns and `false` when it throws. -/
abbrev ZkVerify := MethodDigest → List Word → Bool

/-- The hash `shaHash(data, size)` of sha256_cpu.h. -/
abbrev ShaHash := List Byte → ShaDigest

/-- The exceptions `Receipt::verify` ends with. -/
inductive VerifyError where
  /-- Thrown inside `risc0::verify` (line 34). -/
  | proofRejected
  /-- Line 39: "Receipt::verify> journal size (n) does not match receipt seal (w)". -/
  | journalSizeMismatch (journalSize : Nat) (sealWord : Nat)
  /-- Lines 44 and 48: "Receipt journal/seal root mismatch". -/
  | rootMismatch
deriving DecidableEq, Repr

/-- A `Receipt`: the journal bytes and the seal words. -/
structure Receipt where
  journal : List Byte
  /-- The member `seal` (a reserved word here, hence the longer name). -/
  sealWords : List Word
deriving DecidableEq

/-- The function `Receipt::verify` (receipt.cpp lines 32-51).

The result is `some (.ok ())` when the function returns, `some (.error e)`
when it throws, and `none` when it reads `seal[8]` from a seal of fewer than
nine words, which `std::vector::operator[]` leaves undefined. -/
def Receipt.verify (zkVerify : ZkVerify) (shaHash : ShaHash) (r : Receipt)
    (methodId : MethodId) : Option (Except VerifyError Unit) :=
  if zkVerify methodId.asDigest r.sealWords = false then
    some (.error .proofRejected)
  else
    match r.sealWords[8]? with
    | none => none
    | some seal8 =>
      if r.journal.length ≠ seal8.val then
        some (.error (.journalSizeMismatch r.journal.length seal8.val))
      else if r.journal.length > 32 then
        let digest := shaHash r.journal
        if digest.bytes ≠ (bufferBytes r.sealWords).take 32 then
          some (.error .rootMismatch)
        else
          some (.ok ())
      else
        if r.journal.take r.journal.length
            ≠ (bufferBytes r.sealWords).take r.journal.length then
          some (.error .rootMismatch)
        else
          some (.ok ())

/-! ## Prover -/

/-- Start of the Input region, `kMemInputStart` (memory.h). -/
def kMemInputStart : Nat := 0x01e00000

/-- Length of the Input region, `kMemInputLen` (memory.h, `k1MB`). -/
def kMemInputLen : Nat := 0x00100000

/-- End of the Input region, `kMemInputEnd = start + len` (memory.h). -/
def kMemInputEnd : Nat := kMemInputStart + kMemInputLen

/-- The data members of `Prover::Impl` that the modelled functions touch. -/
structure Prover where
  elfContents : List Byte
  methodId : MethodId
  outputBuffer : List Byte
  commitBuffer : List Byte
  /-- The vector `inputStream.vec` of the `VectorStreamWriter`. -/
  inputStream : List Word
deriving DecidableEq

/-- The constructor `Prover::Prover(elfContents, methodId)`: all buffers empty. -/
def Prover.new (elfContents : List Byte) (methodId : MethodId) : Prover :=
  ⟨elfContents, methodId, [], [], []⟩

/-- The statement `word |= *ptr_u8++ << shift` on a `uint32_t word`. -/
def orShift (word : Word) (b : Byte) (shift : Nat) : Word :=
  ⟨(word.val ||| (b.val <<< shift)) % 4294967296, Nat.mod_lt _ (by decide)⟩

/-- The tail loop of `Prover::writeInput` (lines 187-189):
`for (i = 0; i < size; i++) word |= *ptr_u8++ << (8 * i)`, started at index
`i` with the bytes still to read. -/
def tailLoop (word : Word) (i : Nat) : List Byte → Word
  | [] => word
  | b :: rest => tailLoop (orShift word b (8 * i)) (i + 1) rest

/-- The body of `Prover::writeInput` (lines 173-192) on the input stream: the
`while (size >= 4)` loop takes four bytes per round, then a non-empty rest of
fewer than four bytes is packed by the tail loop. -/
def writeInputLoop : List Word → List Byte → List Word
  | stream, b0 :: b1 :: b2 :: b3 :: rest =>
      let word := orShift (orShift (orShift (orShift 0 b0 0) b1 8) b2 16) b3 24
      writeInputLoop (stream ++ [word]) rest
  | stream, tail =>
      if tail.length ≠ 0 then stream ++ [tailLoop 0 0 tail] else stream

/-- The function `Prover::writeInput(ptr, size)`, the `size` bytes at `ptr`
given as a list. -/
def Prover.writeInput (p : Prover) (bytes : List Byte) : Prover :=
  { p with inputStream := writeInputLoop p.inputStream bytes }

/-- The handler `Prover::Impl::onWrite` (lines 78-81). -/
def Prover.onWrite (p : Prover) (buf : List Byte) : Prover :=
  { p with outputBuffer := p.outputBuffer ++ buf }

/-- The handler `Prover::Impl::onCommit` (lines 83-86). -/
def Prover.onCommit (p : Prover) (buf : List Byte) : Prover :=
  { p with commitBuffer := p.commitBuffer ++ buf }

/-- The loop of `Prover::Impl::onInit` (lines 67-75) from address `addr` on:
the stores `mem.store(addr, word)` it performs, or `none` when it throws
"Out of memory: inputs".  `addr` is a `uint32_t`, so `addr += 4` wraps at
`2^32`. -/
def onInitLoop (addr : Nat) : List Word → Option (List (Nat × Word))
  | [] => some []
  | word :: rest =>
      if addr > kMemInputEnd then none
      else (onInitLoop (if addr + 4 < 4294967296 then addr + 4 else addr + 4 - 4294967296)
        rest).map ((addr, word) :: ·)

/-- The handler `Prover::Impl::onInit` (lines 65-76). -/
def Prover.onInit (p : Prover) : Option (List (Nat × Word)) :=
  onInitLoop kMemInputStart p.inputStream

/-- A callback that `prove` makes into the `IoHandler` while it runs. -/
inductive IoEvent where
  | init
  | write (buf : List Byte)
  | commit (buf : List Byte)
deriving DecidableEq

/-- What one call `prove(*circuit)` does as seen from `Prover::run`: the
handler callbacks it makes, in order, and then the seal it returns or the
exception it throws. -/
structure ProveRun where
  events : List IoEvent
  result : Except String (List Word)

/-- The prover of the proof system, `getRiscVProveCircuit` followed by
`prove`: it sees the ELF and, through the handler, the prover state. -/
abbrev Prove := Prover → ProveRun

/-- The exceptions `Prover::run` ends with. -/
inductive RunError where
  /-- The handler `onInit` threw "Out of memory: inputs". -/
  | outOfMemoryInputs
  /-- An exception thrown inside `prove`. -/
  | proveFailed (what : String)
  /-- An exception thrown by the self-verification on line 205. -/
  | verifyFailed (e : VerifyError)
deriving DecidableEq

/-- Deliver the callbacks of a run to the handler, stopping at an `onInit`
that throws. -/
def Prover.deliver : Prover → List IoEvent → Prover × Bool
  | p, [] => (p, true)
  | p, .init :: rest =>
      match p.onInit with
      | none => (p, false)
      | some _ => Prover.deliver p rest
  | p, .write buf :: rest => Prover.deliver (p.onWrite buf) rest
  | p, .commit buf :: rest => Prover.deliver (p.onCommit buf) rest

/-- The function `Prover::run` (lines 195-207): the prover state after the
call, and the receipt returned (`some (.ok r)`), the exception thrown, or
`none` when the self-verification reads outside the seal. -/
def Prover.run (zkVerify : ZkVerify) (shaHash : ShaHash) (prove : Prove) (p : Prover) :
    Prover × Option (Except RunError Receipt) :=
  let pr := prove p
  match p.deliver pr.events with
  | (p1, false) => (p1, some (.error .outOfMemoryInputs))
  | (p1, true) =>
    match pr.result with
    | .error what => (p1, some (.error (.proveFailed what)))
    | .ok sealed =>
      let receipt : Receipt := ⟨p1.commitBuffer, sealed⟩
      match receipt.verify zkVerify shaHash p1.methodId with
      | none => (p1, none)
      | some (.error e) => (p1, some (.error (.verifyFailed e)))
      | some (.ok ()) => (p1, some (.ok receipt))

/-- The concatenation, in order, of the chunks that a list of callbacks
delivers to `onCommit`. -/
def commitChunks : List IoEvent → List Byte
  | [] => []
  | .commit buf :: rest => buf ++ commitChunks rest
  | _ :: rest => commitChunks rest

/-! ## The field Fp -/

/-- Modelled from the spec: the header fp.h is not among the sources.  The
modulus of the field, p = 2013265921 = 15 * 2^27 + 1. -/
def Fp.P : Nat := 2013265921

/-- Modelled from the spec: the class `Fp` of fp.h, a 32-bit integer kept as
its canonical representative in `[0, p)`. -/
structure Fp where
  val : Nat
  isLt : val < Fp.P
deriving DecidableEq

/-- Modelled from the spec: the constructor `Fp(uint32_t)` of fp.h. -/
def Fp.ofNat (n : Nat) : Fp :=
  ⟨n % Fp.P, Nat.mod_lt _ (by decide)⟩

/-- Modelled from the spec: `Fp::asUInt32()`, the canonical representative. -/
def Fp.asUInt32 (a : Fp) : Nat :=
  a.val

/-- Modelled from the spec: addition of fp.h, modulo p. -/
def Fp.add (a b : Fp) : Fp :=
  Fp.ofNat (a.val + b.val)

/-- Modelled from the spec: subtraction of fp.h, modulo p: the difference of
the representatives, with p added when it would be negative. -/
def Fp.sub (a b : Fp) : Fp :=
  if b.val ≤ a.val then Fp.ofNat (a.val - b.val) else Fp.ofNat (a.val + Fp.P - b.val)

/-- Modelled from the spec: multiplication of fp.h, modulo p. -/
def Fp.mul (a b : Fp) : Fp :=
  Fp.ofNat (a.val * b.val)

instance : Add Fp := ⟨Fp.add⟩

instance : Sub Fp := ⟨Fp.sub⟩

instance : Mul Fp := ⟨Fp.mul⟩

instance (n : Nat) : OfNat Fp n := ⟨Fp.ofNat n⟩

instance : Inhabited Fp := ⟨Fp.ofNat 0⟩

/-! ## The evaluator step_verify -/

/-- The three arg-banks `Fp** args`: `args b i` is the cell `args[b][i]`.  The
banks are distinct buffers, and a bank holds all its columns, so the index
`col * steps + row` is computed without wrap-around. -/
abbrev Args := Nat → Nat → Fp

/-- The assignment `args[bank][idx] = v`. -/
def Args.set (args : Args) (bank idx : Nat) (v : Fp) : Args :=
  fun b i => if b = bank ∧ i = idx then v else args b i

/-- The `size_t` value `steps - 1` (64 bit, `steps < 2^64`): zero wraps
around to `2^64 - 1`. -/
def maskOf (steps : Nat) : Nat :=
  if steps = 0 then 2 ^ 64 - 1 else steps - 1

/-- The row index `(cycle - k) & mask` on `size_t` (64 bit, `cycle < 2^64`
and `k < 2^64`): the subtraction wraps around modulo `2^64`. -/
def rowBack (cycle k mask : Nat) : Nat :=
  (if k ≤ cycle then cycle - k else cycle + 2 ^ 64 - k) &&& mask

/-- One call of the host bridge
`host(ctx, name, extra, host_args.data(), in_len, host_outs.data(), out_len)`:
the name, the extra string, the `in_len` inputs and the number of outputs. -/
structure HostCall where
  name : String
  extra : String
  inArgs : List Fp
  outLen : Nat
deriving DecidableEq

/-- The host bridge: the values it writes to `host_outs` for a call.  A slot
it does not write keeps the default `Fp()`, zero. -/
abbrev HostBridge := HostCall → List Fp

/-- The places at which `step_verify` throws. -/
inductive EqzSite where
  | memCheckCpp41
  | memCheckCpp43
  | memCheckCpp44
  | memCheckCpp46
  | memCheckCpp48
  | memCheckH28
deriving DecidableEq, Repr

/-- The message of the `std::runtime_error` thrown at a site. -/
def EqzSite.what : EqzSite → String
  | .memCheckCpp41 => "eqz failed at: external/risc0/risc0/zkvm/circuit/mem_check.cpp:41"
  | .memCheckCpp43 => "eqz failed at: external/risc0/risc0/zkvm/circuit/mem_check.cpp:43"
  | .memCheckCpp44 => "eqz failed at: external/risc0/risc0/zkvm/circuit/mem_check.cpp:44"
  | .memCheckCpp46 => "eqz failed at: external/risc0/risc0/zkvm/circuit/mem_check.cpp:46"
  | .memCheckCpp48 => "eqz failed at: external/risc0/risc0/zkvm/circuit/mem_check.cpp:48"
  | .memCheckH28 => "eqz failed at: external/risc0/risc0/zkvm/circuit/mem_check.h:28"

/-- The decomposition block of step_verify.cpp, lines 88-135 on `x52`; lines
178-225 are the same text on `x125` with the names `x126 .. x159`.  Twelve
times: take the low two bits of the value, store them in the next of the
columns 150..161 at row `cycle`, subtract them and multiply by `x3`. -/
def limbBlock (steps cycle : Nat) (x52 : Fp) (args : Args) : Args :=
  let x1 : Fp := 3
  let x3 : Fp := 1509949441
  let x53 := Fp.ofNat (x52.asUInt32 &&& x1.asUInt32)
  let args := args.set 2 (150 * steps + cycle) x53
  let x54 := x52 - x53
  let x55 := x54 * x3
  let x56 := Fp.ofNat (x55.asUInt32 &&& x1.asUInt32)
  let args := args.set 2 (151 * steps + cycle) x56
  let x57 := x55 - x56
  let x58 := x57 * x3
  let x59 := Fp.ofNat (x58.asUInt32 &&& x1.asUInt32)
  let args := args.set 2 (152 * steps + cycle) x59
  let x60 := x58 - x59
  let x61 := x60 * x3
  let x62 := Fp.ofNat (x61.asUInt32 &&& x1.asUInt32)
  let args := args.set 2 (153 * steps + cycle) x62
  let x63 := x61 - x62
  let x64 := x63 * x3
  let x65 := Fp.ofNat (x64.asUInt32 &&& x1.asUInt32)
  let args := args.set 2 (154 * steps + cycle) x65
  let x66 := x64 - x65
  let x67 := x66 * x3
  let x68 := Fp.ofNat (x67.asUInt32 &&& x1.asUInt32)
  let args := args.set 2 (155 * steps + cycle) x68
  let x69 := x67 - x68
  let x70 := x69 * x3
  let x71 := Fp.ofNat (x70.asUInt32 &&& x1.asUInt32)
  let args := args.set 2 (156 * steps + cycle) x71
  let x72 := x70 - x71
  let x73 := x72 * x3
  let x74 := Fp.ofNat (x73.asUInt32 &&& x1.asUInt32)
  let args := args.set 2 (157 * steps + cycle) x74
  let x75 := x73 - x74
  let x76 := x75 * x3
  let x77 := Fp.ofNat (x76.asUInt32 &&& x1.asUInt32)
  let args := args.set 2 (158 * steps + cycle) x77
  let x78 := x76 - x77
  let x79 := x78 * x3
  let x80 := Fp.ofNat (x79.asUInt32 &&& x1.asUInt32)
  let args := args.set 2 (159 * steps + cycle) x80
  let x81 := x79 - x80
  let x82 := x81 * x3
  let x83 := Fp.ofNat (x82.asUInt32 &&& x1.asUInt32)
  let args := args.set 2 (160 * steps + cycle) x83
  let x84 := x82 - x83
  let x85 := x84 * x3
  let x86 := Fp.ofNat (x85.asUInt32 &&& x1.asUInt32)
  let args := args.set 2 (161 * steps + cycle) x86
  args

/-- The recomposition of step_verify.cpp, lines 136-169, with result `x120`;
lines 226-259 are the same text with the names `x160 .. x193`.  It reads the
columns 150..161 back at row `(cycle - 0) & mask`. -/
def recompose (steps cycle : Nat) (args : Args) : Fp :=
  let mask := maskOf steps
  let x2 : Fp := 4
  let x4 : Fp := 16
  let x5 : Fp := 64
  let x6 : Fp := 256
  let x7 : Fp := 1024
  let x8 : Fp := 4096
  let x9 : Fp := 16384
  let x10 : Fp := 65536
  let x11 : Fp := 262144
  let x12 : Fp := 1048576
  let x13 : Fp := 4194304
  let x87 := args 2 (150 * steps + rowBack cycle 0 mask)
  let x88 := args 2 (151 * steps + rowBack cycle 0 mask)
  let x89 := x88 * x2
  let x90 := x87 + x89
  let x91 := args 2 (152 * steps + rowBack cycle 0 mask)
  let x92 := x91 * x4
  let x93 := x90 + x92
  let x94 := args 2 (153 * steps + rowBack cycle 0 mask)
  let x95 := x94 * x5
  let x96 := x93 + x95
  let x97 := args 2 (154 * steps + rowBack cycle 0 mask)
  let x98 := x97 * x6
  let x99 := x96 + x98
  let x100 := args 2 (155 * steps + rowBack cycle 0 mask)
  let x101 := x100 * x7
  let x102 := x99 + x101
  let x103 := args 2 (156 * steps + rowBack cycle 0 mask)
  let x104 := x103 * x8
  let x105 := x102 + x104
  let x106 := args 2 (157 * steps + rowBack cycle 0 mask)
  let x107 := x106 * x9
  let x108 := x105 + x107
  let x109 := args 2 (158 * steps + rowBack cycle 0 mask)
  let x110 := x109 * x10
  let x111 := x108 + x110
  let x112 := args 2 (159 * steps + rowBack cycle 0 mask)
  let x113 := x112 * x11
  let x114 := x111 + x113
  let x115 := args 2 (160 * steps + rowBack cycle 0 mask)
  let x116 := x115 * x12
  let x117 := x114 + x116
  let x118 := args 2 (161 * steps + rowBack cycle 0 mask)
  let x119 := x118 * x13
  let x120 := x117 + x119
  x120

/-- The expression `x198 = x196 * (x196 - x15)` of line 267. -/
def oneBitPoly (x196 : Fp) : Fp :=
  let x15 : Fp := 1
  let x197 := x196 - x15
  let x198 := x196 * x197
  x198

/-- The expression `x205` of lines 270-275, repeated for each of the columns
150..161 up to line 363. -/
def twoBitPoly (x199 : Fp) : Fp :=
  let x0 : Fp := 2
  let x1 : Fp := 3
  let x15 : Fp := 1
  let x200 := x199 - x15
  let x201 := x199 * x200
  let x202 := x199 - x0
  let x203 := x201 * x202
  let x204 := x199 - x1
  let x205 := x203 * x204
  x205

/-- The checks of step_verify.cpp, lines 265-364: the site of the first one
that throws, if any. -/
def booleanity (steps cycle : Nat) (args : Args) : Option EqzSite :=
  let mask := maskOf steps
  let x196 := args 2 (149 * steps + rowBack cycle 0 mask)
  if oneBitPoly x196 ≠ 0 then some .memCheckH28
  else let x199 := args 2 (150 * steps + rowBack cycle 0 mask)
  if twoBitPoly x199 ≠ 0 then some .memCheckH28
  else let x206 := args 2 (151 * steps + rowBack cycle 0 mask)
  if twoBitPoly x206 ≠ 0 then some .memCheckH28
  else let x213 := args 2 (152 * steps + rowBack cycle 0 mask)
  if twoBitPoly x213 ≠ 0 then some .memCheckH28
  else let x220 := args 2 (153 * steps + rowBack cycle 0 mask)
  if twoBitPoly x220 ≠ 0 then some .memCheckH28
  else let x227 := args 2 (154 * steps + rowBack cycle 0 mask)
  if twoBitPoly x227 ≠ 0 then some .memCheckH28
  else let x234 := args 2 (155 * steps + rowBack cycle 0 mask)
  if twoBitPoly x234 ≠ 0 then some .memCheckH28
  else let x241 := args 2 (156 * steps + rowBack cycle 0 mask)
  if twoBitPoly x241 ≠ 0 then some .memCheckH28
  else let x248 := args 2 (157 * steps + rowBack cycle 0 mask)
  if twoBitPoly x248 ≠ 0 then some .memCheckH28
  else let x255 := args 2 (158 * steps + rowBack cycle 0 mask)
  if twoBitPoly x255 ≠ 0 then some .memCheckH28
  else let x262 := args 2 (159 * steps + rowBack cycle 0 mask)
  if twoBitPoly x262 ≠ 0 then some .memCheckH28
  else let x269 := args 2 (160 * steps + rowBack cycle 0 mask)
  if twoBitPoly x269 ≠ 0 then some .memCheckH28
  else let x276 := args 2 (161 * steps + rowBack cycle 0 mask)
  if twoBitPoly x276 ≠ 0 then some .memCheckH28
  else none

/-- The flag `x38` of step_verify.cpp, lines 62-65, from the address `x33` of
the row and the address `x34` of the preceding row. -/
def sameAddrFlag (x33 x34 : Fp) : Fp :=
  let x15 : Fp := 1
  let x35 := x33 - x34
  let x36 : Fp := if x35 = 0 then 1 else 0
  let x37 := x15 - x36
  let x38 := x15 - x37
  x38

/-- The read check of step_verify.cpp, lines 72-83: the site at which it
throws, if it does. -/
def readCheck (steps cycle : Nat) (args : Args) : Option EqzSite :=
  let mask := maskOf steps
  let x15 : Fp := 1
  let x41 := args 2 (147 * steps + rowBack cycle 0 mask)
  let x42 := x15 - x41
  if x42 ≠ 0 then
    let x43 := args 2 (145 * steps + rowBack cycle 0 mask)
    let x44 := args 2 (145 * steps + rowBack cycle 1 mask)
    let x45 := x43 - x44
    if x45 ≠ 0 then some .memCheckCpp43
    else
      let x46 := args 2 (146 * steps + rowBack cycle 0 mask)
      let x47 := args 2 (146 * steps + rowBack cycle 1 mask)
      let x48 := x46 - x47
      if x48 ≠ 0 then some .memCheckCpp44 else none
  else none

/-- The body of `if (x39 != 0)`, step_verify.cpp lines 70-172: the arg-banks
when the block is left and the site at which it throws, if it does. -/
def sameAddrBranch (steps cycle : Nat) (x33 x34 : Fp) (args : Args) :
    Args × Option EqzSite :=
  let mask := maskOf steps
  let x14 : Fp := 2013265801
  let x15 : Fp := 1
  let x40 := x33 - x34
  if x40 ≠ 0 then (args, some .memCheckCpp41)
  else
    match readCheck steps cycle args with
    | some e => (args, some e)
    | none =>
      let x49 := args 2 (148 * steps + rowBack cycle 0 mask)
      let x50 := args 2 (148 * steps + rowBack cycle 1 mask)
      let x51 := x49 - x50
      let x52 := x51 - x15
      let args := limbBlock steps cycle x52 args
      let x120 := recompose steps cycle args
      let x121 := x52 - x120
      let x122 := x121 * x14
      if x122 ≠ 0 then (args, some .memCheckCpp46) else (args, none)

/-- The body of `if (x123 != 0)`, step_verify.cpp lines 176-262: the
arg-banks when the block is left and the site at which it throws, if it does. -/
def diffAddrBranch (steps cycle : Nat) (x33 x34 : Fp) (args : Args) :
    Args × Option EqzSite :=
  let x14 : Fp := 2013265801
  let x15 : Fp := 1
  let x124 := x33 - x34
  let x125 := x124 - x15
  let args := limbBlock steps cycle x125 args
  let x193 := recompose steps cycle args
  let x194 := x125 - x193
  let x195 := x194 * x14
  if x195 ≠ 0 then (args, some .memCheckCpp48) else (args, none)

/-- The body of `if (x16 != 0)`, step_verify.cpp lines 59-263: the arg-banks
when the block is left and the site at which it throws, if it does. -/
def memActiveBlock (steps cycle : Nat) (args : Args) : Args × Option EqzSite :=
  let mask := maskOf steps
  let x15 : Fp := 1
  let x33 := args 2 (144 * steps + rowBack cycle 0 mask)
  let x34 := args 2 (144 * steps + rowBack cycle 1 mask)
  let x38 := sameAddrFlag x33 x34
  let args := args.set 2 (149 * steps + cycle) x38
  let x39 := args 2 (149 * steps + rowBack cycle 0 mask)
  let first : Args × Option EqzSite :=
    if x39 ≠ 0 then sameAddrBranch steps cycle x33 x34 args else (args, none)
  match first with
  | (args, some e) => (args, some e)
  | (args, none) =>
    let x123 := x15 - x39
    if x123 ≠ 0 then diffAddrBranch steps cycle x33 x34 args else (args, none)

/-- What a call of `step_verify` leaves behind: the arg-banks, the host-bridge
calls it made, and the value returned or the site at which it threw. -/
structure StepResult where
  args : Args
  hostCalls : List HostCall
  outcome : Except EqzSite Fp

/-- The gate `x27` of step_verify.cpp, lines 33-43: the sum of the code
columns 1..6 at row `(cycle - 0) & mask`, added in the order of the source. -/
def gateSum (steps cycle : Nat) (args : Args) : Fp :=
  let mask := maskOf steps
  let x17 := args 0 (3 * steps + rowBack cycle 0 mask)
  let x18 := args 0 (4 * steps + rowBack cycle 0 mask)
  let x19 := args 0 (5 * steps + rowBack cycle 0 mask)
  let x20 := args 0 (6 * steps + rowBack cycle 0 mask)
  let x21 := args 0 (1 * steps + rowBack cycle 0 mask)
  let x22 := args 0 (2 * steps + rowBack cycle 0 mask)
  let x23 := x21 + x22
  let x24 := x23 + x17
  let x25 := x24 + x18
  let x26 := x25 + x19
  let x27 := x26 + x20
  x27

/-- The memory-active flag `x16` of line 32: code column 0 at row
`(cycle - 0) & mask`. -/
def memActiveFlag (steps cycle : Nat) (args : Args) : Fp :=
  let mask := maskOf steps
  let x16 := args 0 (0 * steps + rowBack cycle 0 mask)
  x16

/-- The host-bridge call of line 46: the name "memCheck", the extra string
empty, no inputs, five outputs. -/
def memCheckCall : HostCall :=
  ⟨"memCheck", "", [], 5⟩

/-- The arg-banks after lines 46-56: the five outputs of `memCheck` stored in
the columns 148, 144, 147, 145, 146 at row `cycle`. -/
def afterHost (host : HostBridge) (steps cycle : Nat) (args : Args) : Args :=
  let host_outs := host memCheckCall
  let x28 := host_outs.getD 0 0
  let x29 := host_outs.getD 1 0
  let x30 := host_outs.getD 2 0
  let x31 := host_outs.getD 3 0
  let x32 := host_outs.getD 4 0
  let args := args.set 2 (148 * steps + cycle) x28
  let args := args.set 2 (144 * steps + cycle) x29
  let args := args.set 2 (147 * steps + cycle) x30
  let args := args.set 2 (145 * steps + cycle) x31
  let args := args.set 2 (146 * steps + cycle) x32
  args

/-- The function `step_verify(ctx, host, steps, cycle, args)` of
step_verify.cpp, put together from its blocks: the gate (lines 32-44), the
host call (45-57), the memory-active block (58-264), the checks (265-364) and
the return of `x15` (366). -/
def step_verify (host : HostBridge) (steps cycle : Nat) (args : Args) : StepResult :=
  let x15 : Fp := 1
  let x16 := memActiveFlag steps cycle args
  let x27 := gateSum steps cycle args
  if x27 ≠ 0 then
    let args := afterHost host steps cycle args
    let active : Args × Option EqzSite :=
      if x16 ≠ 0 then memActiveBlock steps cycle args else (args, none)
    match active with
    | (args, some e) => ⟨args, [memCheckCall], .error e⟩
    | (args, none) =>
      match booleanity steps cycle args with
      | some e => ⟨args, [memCheckCall], .error e⟩
      | none => ⟨args, [memCheckCall], .ok x15⟩
  else
    ⟨args, [], .ok x15⟩

/-! ## CheckedStreamReader -/

/-- The class `CheckedStreamReader`: the buffer it reads and its cursor. -/
structure CheckedStreamReader where
  buffer : List Byte
  cursor : Nat
deriving DecidableEq

/-- The constructor `CheckedStreamReader(buffer)` (line 103): cursor 0. -/
def CheckedStreamReader.new (buffer : List Byte) : CheckedStreamReader :=
  ⟨buffer, 0⟩

/-- The exception of the reader. -/
inductive StreamError where
  /-- The `std::out_of_range("Read out of bounds")` of lines 107 and 125. -/
  | outOfRange
deriving DecidableEq, Repr

/-- The function `CheckedStreamReader::read_word` (lines 105-114): the reader
after the call, and the word returned or the exception thrown.  The value is
`b1 | b2 << 8 | b3 << 16 | b4 << 24` on `uint32_t`. -/
def CheckedStreamReader.read_word (r : CheckedStreamReader) :
    CheckedStreamReader × Except StreamError Word :=
  if r.cursor + 4 > r.buffer.length then (r, .error .outOfRange)
  else
    let b1 := (r.buffer.getD r.cursor 0).val
    let b2 := (r.buffer.getD (r.cursor + 1) 0).val
    let b3 := (r.buffer.getD (r.cursor + 2) 0).val
    let b4 := (r.buffer.getD (r.cursor + 3) 0).val
    (⟨r.buffer, r.cursor + 4⟩,
      .ok ⟨(((b1 ||| (b2 <<< 8)) ||| (b3 <<< 16)) ||| (b4 <<< 24)) % 4294967296,
        Nat.mod_lt _ (by decide)⟩)

/-- The function `CheckedStreamReader::read_dword` (lines 116-120): two calls
of `read_word`, the value `low | high << 32` on `uint64_t`. -/
def CheckedStreamReader.read_dword (r : CheckedStreamReader) :
    CheckedStreamReader × Except StreamError Nat :=
  match r.read_word with
  | (r1, .error e) => (r1, .error e)
  | (r1, .ok low) =>
    match r1.read_word with
    | (r2, .error e) => (r2, .error e)
    | (r2, .ok high) => (r2, .ok ((low.val ||| (high.val <<< 32)) % 18446744073709551616))

/-- Modelled from the spec: the helper `align` is not among the sources; it
rounds up to the next multiple of `sizeof(uint32_t)`. -/
def align (n : Nat) : Nat :=
  4 * ((n + 4 - 1) / 4)

/-- The function `CheckedStreamReader::read_buffer(buf, len)` (lines 122-129):
the reader after the call, and the `len` bytes that `memcpy` stored at `buf`
or the exception thrown.  The source of the `memcpy` is `buffer.data()`.  The
cursor and `len` are `size_t` values (below `2^64`): the sum `cursor + len`
wraps around at `2^64`, and so does the result of `align`, which is `2^64`
for an argument above `2^64 - 4`.  When the wrapped value passes the check
with `len` above `buffer.size()`, `memcpy` reads past the buffer, which the
source leaves undefined; the value given here is then the bytes there are. -/
def CheckedStreamReader.read_buffer (r : CheckedStreamReader) (len : Nat) :
    CheckedStreamReader × Except StreamError (List Byte) :=
  let end_cursor :=
    align ((r.cursor + len) % 18446744073709551616) % 18446744073709551616
  if end_cursor > r.buffer.length then (r, .error .outOfRange)
  else (⟨r.buffer, end_cursor⟩, .ok (r.buffer.take len))

/-- Successive calls of `read_word`, `n` of them, stopping at the first that
throws: the reader afterwards and the words read. -/
def CheckedStreamReader.read_words : Nat → CheckedStreamReader →
    CheckedStreamReader × Except StreamError (List Word)
  | 0, r => (r, .ok [])
  | n + 1, r =>
    match r.read_word with
    | (r1, .error e) => (r1, .error e)
    | (r1, .ok w) =>
      match CheckedStreamReader.read_words n r1 with
      | (r2, .error e) => (r2, .error e)
      | (r2, .ok ws) => (r2, .ok (w :: ws))

/-! ## MethodId: construction -/

/-- The function `MethodId::fromDigest` (method_id.cpp lines 62-67): `memcpy` of
the digests into the raw byte array. -/
def MethodId.fromDigest (digest : MethodDigest) : MethodId :=
  ⟨digest.flatMap ShaDigest.bytes⟩

/-- The exception of `MethodId::fromIdBytes`. -/
inductive IdError where
  /-- Line 72: "Bad number of bytes in a method id". -/
  | badNumberOfBytes
deriving DecidableEq, Repr

/-- The function `MethodId::fromIdBytes(bytes, len)` (method_id.cpp lines
69-76), the `len` bytes at `bytes` given as a list.  The constant
`kCodeDigestCount` comes from a header that is not among the sources and is a
parameter; `sizeof(result.methodId)` is `kCodeDigestCount * 32`. -/
def MethodId.fromIdBytes (kCodeDigestCount : Nat) (bytes : List Byte) :
    Except IdError MethodId :=
  if bytes.length ≠ kCodeDigestCount * 32 then .error .badNumberOfBytes
  else .ok ⟨bytes.take (kCodeDigestCount * 32)⟩

/-- The constants of risc0/zkvm/circuit/constants.h that `MethodId::fromElf`
uses; the header is not among the sources. -/
structure CodeConstants where
  kMinCycles : Nat
  kZkCycles : Nat
  kCodeDigestCount : Nat

/-- The memory image `std::map<uint32_t, uint32_t>` that `loadElf` fills: the
words written, by address. -/
abbrev MemImage := List (Word × Word)

/-- The loader `loadElf(bytes, len, maxMem, memOut)` of elf.h: the start
address and the image, or the text of the exception. -/
abbrev LoadElf := List Byte → Nat → Except String (Word × MemImage)

/-- Lines 42-53 of method_id.cpp for one level: `setupCode`, the interpolation,
the shift and the Merkle root of the code `PolyGroup` built for `cycles`. -/
abbrev CodeRoot := Nat → Word → MemImage → ShaDigest

/-- The size of the whole memory, `kMemSize = (1 << kMemBits) * 4` with
`kMemBits = 24` (memory.h). -/
def kMemSize : Nat := (1 <<< 24) * 4

/-- The loop body of `MethodId::fromElf` (lines 36-54) for level `i`. -/
def levelDigest (K : CodeConstants) (codeRoot : CodeRoot) (startAddr : Word)
    (image : MemImage) (i : Nat) : ShaDigest :=
  let cycles := K.kMinCycles * (1 <<< i)
  if cycles < image.length + 3 + K.kZkCycles then ShaDigest.zero
  else codeRoot cycles startAddr image

/-- The array `digest` of `MethodId::fromElf` when the loop of lines 35-55 has
run. -/
def levelDigests (K : CodeConstants) (codeRoot : CodeRoot) (startAddr : Word)
    (image : MemImage) : MethodDigest :=
  (List.range K.kCodeDigestCount).map (levelDigest K codeRoot startAddr image)

/-- The function `MethodId::fromElf` (method_id.cpp lines 27-57). -/
def MethodId.fromElf (K : CodeConstants) (loadElf : LoadElf) (codeRoot : CodeRoot)
    (bytes : List Byte) : Except String MethodId :=
  match loadElf bytes kMemSize with
  | .error what => .error what
  | .ok (startAddr, image) =>
    .ok (MethodId.fromDigest (levelDigests K codeRoot startAddr image))

/-- The function `methodIdBytesFromElf` (method_id.cpp lines 78-84): the raw
bytes of the method id of the ELF. -/
def methodIdBytesFromElf (K : CodeConstants) (loadElf : LoadElf) (codeRoot : CodeRoot)
    (bytes : List Byte) : Except String (List Byte) :=
  match MethodId.fromElf K loadElf codeRoot bytes with
  | .error what => .error what
  | .ok id => .ok id.methodId

/-! ## The memory map of memory.h -/

/-- The constant `k1MB`. -/
def k1MB : Nat := 0x00100000

/-- From `MEM_REGION(Stack, 0x00000000, 9 * k1MB)`: `kMemStackStart = start`. -/
def kMemStackStart : Nat := 0x00000000

/-- From `MEM_REGION(Stack, 0x00000000, 9 * k1MB)`: `kMemStackLen = len`. -/
def kMemStackLen : Nat := 9 * k1MB

/-- From `MEM_REGION(Stack, 0x00000000, 9 * k1MB)`: `kMemStackEnd = start + len`. -/
def kMemStackEnd : Nat := 0x00000000 + 9 * k1MB

/-- From `MEM_REGION(Data, 0x00900000, k1MB)`: `kMemDataStart = start`. -/
def kMemDataStart : Nat := 0x00900000

/-- From `MEM_REGION(Data, 0x00900000, k1MB)`: `kMemDataLen = len`. -/
def kMemDataLen : Nat := k1MB

/-- From `MEM_REGION(Data, 0x00900000, k1MB)`: `kMemDataEnd = start + len`. -/
def kMemDataEnd : Nat := 0x00900000 + k1MB

/-- From `MEM_REGION(Heap, 0x00a00000, 20 * k1MB)`: `kMemHeapStart = start`. -/
def kMemHeapStart : Nat := 0x00a00000

/-- From `MEM_REGION(Heap, 0x00a00000, 20 * k1MB)`: `kMemHeapLen = len`. -/
def kMemHeapLen : Nat := 20 * k1MB

/-- From `MEM_REGION(Heap, 0x00a00000, 20 * k1MB)`: `kMemHeapEnd = start + len`. -/
def kMemHeapEnd : Nat := 0x00a00000 + 20 * k1MB

/-- From `MEM_REGION(GPIO, 0x01f00000, k1MB)`: `kMemGPIOStart = start`. -/
def kMemGPIOStart : Nat := 0x01f00000

/-- From `MEM_REGION(GPIO, 0x01f00000, k1MB)`: `kMemGPIOLen = len`. -/
def kMemGPIOLen : Nat := k1MB

/-- From `MEM_REGION(GPIO, 0x01f00000, k1MB)`: `kMemGPIOEnd = start + len`. -/
def kMemGPIOEnd : Nat := 0x01f00000 + k1MB

/-- From `MEM_REGION(Prog, 0x02000000, 10 * k1MB)`: `kMemProgStart = start`. -/
def kMemProgStart : Nat := 0x02000000

/-- From `MEM_REGION(Prog, 0x02000000, 10 * k1MB)`: `kMemProgLen = len`. -/
def kMemProgLen : Nat := 10 * k1MB

/-- From `MEM_REGION(Prog, 0x02000000, 10 * k1MB)`: `kMemProgEnd = start + len`. -/
def kMemProgEnd : Nat := 0x02000000 + 10 * k1MB

/-- From `MEM_REGION(SHA, 0x02a00000, k1MB)`: `kMemSHAStart = start`. -/
def kMemSHAStart : Nat := 0x02a00000

/-- From `MEM_REGION(SHA, 0x02a00000, k1MB)`: `kMemSHALen = len`. -/
def kMemSHALen : Nat := k1MB

/-- From `MEM_REGION(SHA, 0x02a00000, k1MB)`: `kMemSHAEnd = start + len`. -/
def kMemSHAEnd : Nat := 0x02a00000 + k1MB

/-- From `MEM_REGION(WOM, 0x02b00000, 21 * k1MB)`: `kMemWOMStart = start`. -/
def kMemWOMStart : Nat := 0x02b00000

/-- From `MEM_REGION(WOM, 0x02b00000, 21 * k1MB)`: `kMemWOMLen = len`. -/
def kMemWOMLen : Nat := 21 * k1MB

/-- From `MEM_REGION(WOM, 0x02b00000, 21 * k1MB)`: `kMemWOMEnd = start + len`. -/
def kMemWOMEnd : Nat := 0x02b00000 + 21 * k1MB

/-- From `MEM_REGION(Output, 0x02b00000, 20 * k1MB)`: `kMemOutputStart = start`. -/
def kMemOutputStart : Nat := 0x02b00000

/-- From `MEM_REGION(Output, 0x02b00000, 20 * k1MB)`: `kMemOutputLen = len`. -/
def kMemOutputLen : Nat := 20 * k1MB

/-- From `MEM_REGION(Output, 0x02b00000, 20 * k1MB)`: `kMemOutputEnd = start + len`. -/
def kMemOutputEnd : Nat := 0x02b00000 + 20 * k1MB

/-- From `MEM_REGION(Commit, 0x03f00000, k1MB)`: `kMemCommitStart = start`. -/
def kMemCommitStart : Nat := 0x03f00000

/-- From `MEM_REGION(Commit, 0x03f00000, k1MB)`: `kMemCommitLen = len`. -/
def kMemCommitLen : Nat := k1MB

/-- From `MEM_REGION(Commit, 0x03f00000, k1MB)`: `kMemCommitEnd = start + len`. -/
def kMemCommitEnd : Nat := 0x03f00000 + k1MB

/-- The regions Stack, Data, Heap, Input, GPIO, Prog, SHA, WOM, in this order,
each as the pair of its start and its end. -/
def memoryMap : List (Nat × Nat) :=
  [(kMemStackStart, kMemStackEnd), (kMemDataStart, kMemDataEnd),
   (kMemHeapStart, kMemHeapEnd), (kMemInputStart, kMemInputEnd),
   (kMemGPIOStart, kMemGPIOEnd), (kMemProgStart, kMemProgEnd),
   (kMemSHAStart, kMemSHAEnd), (kMemWOMStart, kMemWOMEnd)]

/-! ## Names used in the proofs -/

/-- One round of the decomposition block: `x55 = (x52 - x53) * x3` with
`x53 = Fp(x52 & 3)`. -/
def limbStep (v : Fp) : Fp :=
  (v - Fp.ofNat (v.asUInt32 &&& (3 : Fp).asUInt32)) * (1509949441 : Fp)

/-- The value the decomposition block works on in round `k`. -/
def limbVal (v : Fp) : Nat → Fp
  | 0 => v
  | k + 1 => limbStep (limbVal v k)

/-- The value the decomposition block stores in column `150 + k`. -/
def limbDigit (v : Fp) (k : Nat) : Fp :=
  Fp.ofNat ((limbVal v k).asUInt32 &&& (3 : Fp).asUInt32)

/-- The arg-banks and the exception, if any, after lines 58-264: the
memory-active block when the flag `x16` is not zero. -/
def activePart (host : HostBridge) (steps cycle : Nat) (args : Args) :
    Args × Option EqzSite :=
  if memActiveFlag steps cycle args ≠ 0 then
    memActiveBlock steps cycle (afterHost host steps cycle args)
  else (afterHost host steps cycle args, none)

/-- A trace of two rows for the examples.  Row 1 has the memory-active flag
(code column 0) and code column 1 set; row 0 holds a memory event with address
5 (column 144), first value word 7 (column 145) and cycle 10 (column 148). -/
def exampleTrace : Args := fun b i =>
  if b = 0 ∧ (i = 0 * 2 + 1 ∨ i = 1 * 2 + 1) then 1
  else if b = 2 ∧ i = 144 * 2 + 0 then 5
  else if b = 2 ∧ i = 145 * 2 + 0 then 7
  else if b = 2 ∧ i = 148 * 2 + 0 then 10
  else 0

/-- A host bridge whose `memCheck` returns a write to address 5 at cycle 20:
the outputs are (cycle, addr, is-write, val-lo, val-hi) = (20, 5, 1, 0, 0). -/
def exampleWrite : HostBridge := fun _ =>
  [20, 5, 1, 0, 0]

/-- A host bridge whose `memCheck` returns a read of address 5 at cycle 20
with first value word 8: the outputs are (20, 5, 0, 8, 0). -/
def exampleBadRead : HostBridge := fun _ =>
  [20, 5, 0, 8, 0]

/-- The value `x52` of step_verify.cpp, lines 84-87: the cycle (column 148)
of the row minus that of the preceding row minus one. -/
def cycleDelta (steps cycle : Nat) (args : Args) : Fp :=
  let mask := maskOf steps
  let x15 : Fp := 1
  let x49 := args 2 (148 * steps + rowBack cycle 0 mask)
  let x50 := args 2 (148 * steps + rowBack cycle 1 mask)
  let x51 := x49 - x50
  let x52 := x51 - x15
  x52

/-- The value `x125` of step_verify.cpp, lines 59-60 and 176-177: the address
(column 144) of the row minus that of the preceding row minus one. -/
def addrDelta (steps cycle : Nat) (args : Args) : Fp :=
  let mask := maskOf steps
  let x15 : Fp := 1
  let x33 := args 2 (144 * steps + rowBack cycle 0 mask)
  let x34 := args 2 (144 * steps + rowBack cycle 1 mask)
  let x124 := x33 - x34
  let x125 := x124 - x15
  x125

/-- Modelled from the spec: the flag `x38` in the words of the spec,
`1 − (same_addr == 0 ? 1 : 0)`. -/
def specSameAddrFlag (same_addr : Fp) : Fp :=
  1 - (if same_addr = 0 then 1 else 0)

/-- A host bridge whose `memCheck` returns a write to address 9 at cycle 3:
the outputs are (cycle, addr, is-write, val-lo, val-hi) = (3, 9, 1, 0, 0). -/
def exampleOtherAddr : HostBridge := fun _ =>
  [3, 9, 1, 0, 0]

/-- A host bridge whose `memCheck` returns a write to address 5 at cycle 3:
the outputs are (3, 5, 1, 0, 0). -/
def exampleStale : HostBridge := fun _ =>
  [3, 5, 1, 0, 0]

/-- A trace whose cells are all zero: the gate of every row is closed. -/
def exampleIdle : Args := fun _ _ =>
  0

/-- Squaring modulo p. -/
def sqStep (c : Nat) : Nat :=
  c * c % 2013265921

/-- Squaring `k` times modulo p. -/
def sqIter : Nat → Nat → Nat
  | 0, c => c
  | k + 1, c => sqIter k (sqStep c)

/-! ## Receipt::verify: properties -/

/-- The function returns exactly when the proof system accepts the seal, the
seal has a ninth word equal to the journal length, and the journal matches the
head of the seal: inline up to 32 bytes, through its hash above. -/
theorem Receipt.verify_ok_iff (zkVerify : ZkVerify) (shaHash : ShaHash) (r : Receipt)
    (methodId : MethodId) :
    r.verify zkVerify shaHash methodId = some (.ok ()) ↔
      zkVerify methodId.asDigest r.sealWords = true ∧
      ∃ w, r.sealWords[8]? = some w ∧ r.journal.length = w.val ∧
        (if 32 < r.journal.length then
          (shaHash r.journal).bytes = (bufferBytes r.sealWords).take 32
        else (bufferBytes r.sealWords).take r.journal.length = r.journal) := by
  unfold Receipt.verify
  cases hz : zkVerify methodId.asDigest r.sealWords
  · simp
  · cases h8 : r.sealWords[8]? with
    | none => simp
    | some w =>
      by_cases hl : r.journal.length = w.val
      · by_cases h32 : 32 < r.journal.length
        · by_cases hd : (shaHash r.journal).bytes = (bufferBytes r.sealWords).take 32
          · simp [← hl, h32, hd]
          · simp [← hl, h32, hd]
        · by_cases hd : (bufferBytes r.sealWords).take r.journal.length = r.journal
          · simp [← hl, h32, hd]
          · have hd2 : ¬ r.journal = (bufferBytes r.sealWords).take r.journal.length :=
              fun h => hd h.symm
            simp [← hl, h32, hd, hd2]
      · simp [hl]

/-- The bytes of a word determine the word. -/
theorem wordBytes_injective {a b : Word} (h : wordBytes a = wordBytes b) : a = b := by
  unfold wordBytes at h
  simp only [List.cons.injEq, Fin.mk.injEq, and_true] at h
  obtain ⟨h0, h1, h2, h3⟩ := h
  have ha := a.isLt
  have hb := b.isLt
  apply Fin.ext
  omega

/-- The byte view of a word buffer determines the buffer. -/
theorem bufferBytes_injective : ∀ {xs ys : List Word},
    bufferBytes xs = bufferBytes ys → xs = ys
  | [], [], _ => rfl
  | [], y :: ys, h => by simp [bufferBytes, wordBytes] at h
  | x :: xs, [], h => by simp [bufferBytes, wordBytes] at h
  | x :: xs, y :: ys, h => by
      simp only [bufferBytes, List.flatMap_cons] at h
      have hlen : (wordBytes x).length = (wordBytes y).length := by simp [wordBytes]
      have h1 := List.append_inj h hlen
      rw [wordBytes_injective h1.1, bufferBytes_injective h1.2]

/-- The first 32 bytes of a word buffer are the bytes of its first 8 words. -/
theorem bufferBytes_take8 (ws : List Word) :
    bufferBytes (ws.take 8) = (bufferBytes ws).take 32 := by
  rcases ws with _ | ⟨w0, _ | ⟨w1, _ | ⟨w2, _ | ⟨w3, _ | ⟨w4, _ | ⟨w5, _ | ⟨w6, _ | ⟨w7, ws⟩⟩⟩⟩⟩⟩⟩⟩ <;>
    simp [bufferBytes, wordBytes]

/-- With a ninth seal word present the function either returns or throws. -/
theorem Receipt.verify_defined (zkVerify : ZkVerify) (shaHash : ShaHash) (r : Receipt)
    (methodId : MethodId) (w : Word) (h8 : r.sealWords[8]? = some w) :
    r.verify zkVerify shaHash methodId = some (.ok ()) ∨
      ∃ e, r.verify zkVerify shaHash methodId = some (.error e) := by
  unfold Receipt.verify
  simp only [h8]
  split_ifs <;> simp

/-- Every hash into 256-bit digests maps two different 33-byte journals to
the same digest, there being more such journals than digests. -/
theorem shaHash_collision (shaHash : ShaHash) :
    ∃ J J2 : List Byte, J.length = 33 ∧ J2.length = 33 ∧ J ≠ J2 ∧ shaHash J = shaHash J2 := by
  let f : (Fin 33 → Byte) → (Fin 8 → Word) := fun v i =>
    (shaHash (List.ofFn v)).words.get ⟨i.val, by rw [(shaHash (List.ofFn v)).size_eq]; exact i.isLt⟩
  have hcard : Fintype.card (Fin 8 → Word) < Fintype.card (Fin 33 → Byte) := by
    simp only [Fintype.card_fun, Fintype.card_fin]
    norm_num
  obtain ⟨x, y, hxy, hf⟩ := Fintype.exists_ne_map_eq_of_card_lt f hcard
  refine ⟨List.ofFn x, List.ofFn y, by simp, by simp, ?_, ?_⟩
  · intro h
    exact hxy (List.ofFn_injective h)
  · have hw : (shaHash (List.ofFn x)).words = (shaHash (List.ofFn y)).words := by
      apply List.ext_get
      · rw [(shaHash (List.ofFn x)).size_eq, (shaHash (List.ofFn y)).size_eq]
      · intro n h1 h2
        have h8 : n < 8 := by rw [(shaHash (List.ofFn x)).size_eq] at h1; exact h1
        exact congrFun hf ⟨n, h8⟩
    cases hx : shaHash (List.ofFn x)
    cases hy : shaHash (List.ofFn y)
    simp only [hx, hy] at hw
    subst hw
    rfl

/-- Whatever the hash, a proof system that accepts the seal made of the
digest of a colliding journal and the length 33 accepts it with two different
journals. -/
theorem journal_binding_fails_for_every_hash (shaHash : ShaHash) (id : MethodId) :
    ∃ (S : List Word) (J J2 : List Byte), J2 ≠ J ∧
      Receipt.verify (fun _ _ => true) shaHash ⟨J, S⟩ id = some (.ok ()) ∧
      Receipt.verify (fun _ _ => true) shaHash ⟨J2, S⟩ id = some (.ok ()) := by
  obtain ⟨J, J2, hJ, hJ2, hne, hsha⟩ := shaHash_collision shaHash
  have hw := (shaHash J).size_eq
  have hb : (bufferBytes (shaHash J).words).length = 32 := by
    unfold bufferBytes
    rw [List.length_flatMap]
    have : List.map (List.length ∘ wordBytes) (shaHash J).words
        = List.replicate (shaHash J).words.length 4 := by
      apply List.eq_replicate_iff.2
      constructor
      · simp
      · intro b hb
        simp only [List.mem_map, Function.comp] at hb
        obtain ⟨a, _, ha⟩ := hb
        rw [← ha]; rfl
    rw [this, hw]; rfl
  have htake : (bufferBytes ((shaHash J).words ++ [33])).take 32 = (shaHash J).bytes := by
    unfold ShaDigest.bytes
    have : bufferBytes ((shaHash J).words ++ [33])
        = bufferBytes (shaHash J).words ++ wordBytes 33 := by
      simp [bufferBytes]
    rw [this, List.take_left' hb]
  have h8 : ((shaHash J).words ++ [33])[8]? = some (33 : Word) := by
    rw [List.getElem?_append_right (by omega)]
    simp [hw]
  refine ⟨(shaHash J).words ++ [33], J, J2, fun h => hne h.symm, ?_, ?_⟩
  · rw [Receipt.verify_ok_iff]
    refine ⟨rfl, 33, h8, ?_, ?_⟩
    · simpa using hJ
    · simp only [hJ]
      rw [if_pos (by decide), htake]
  · rw [Receipt.verify_ok_iff]
    refine ⟨rfl, 33, h8, ?_, ?_⟩
    · simpa using hJ2
    · simp only [hJ2]
      rw [if_pos (by decide), htake, hsha]

/-- C2: journal-length binding.  When the ninth seal word differs from the
journal length, `Receipt::verify` never returns: it throws, and once the proof
system has accepted the seal the exception is the journal-size mismatch of
line 39, whatever the journal bytes are. -/
theorem verify_journal_length_binding (zkVerify : ZkVerify) (shaHash : ShaHash)
    (r : Receipt) (id : MethodId) (w : Word) (h8 : r.sealWords[8]? = some w)
    (hne : w.val ≠ r.journal.length) :
    (zkVerify id.asDigest r.sealWords = true →
      r.verify zkVerify shaHash id
        = some (.error (.journalSizeMismatch r.journal.length w.val))) ∧
    r.verify zkVerify shaHash id ≠ some (.ok ()) ∧
    ∃ e, r.verify zkVerify shaHash id = some (.error e) := by
  have hne2 : r.journal.length ≠ w.val := fun h => hne h.symm
  have hnot : r.verify zkVerify shaHash id ≠ some (.ok ()) := by
    intro h
    obtain ⟨_, w2, h82, hl, _⟩ := (Receipt.verify_ok_iff zkVerify shaHash r id).1 h
    rw [h8] at h82
    cases h82
    exact hne2 hl
  refine ⟨?_, hnot, ?_⟩
  · intro hz
    unfold Receipt.verify
    simp [hz, h8, hne2]
  · rcases Receipt.verify_defined zkVerify shaHash r id w h8 with h | h
    · exact absurd h hnot
    · exact h

/-- A witness of `verify_journal_length_binding`: a two-byte journal against a
seal whose ninth word is 4. -/
theorem verify_journal_length_binding_witness :
    (Receipt.verify (fun _ _ => true) (fun _ => ShaDigest.zero)
        ⟨[1, 2], [67305985, 0, 0, 0, 0, 0, 0, 0, 4]⟩ ⟨[]⟩
      = some (.error (.journalSizeMismatch 2 4))) ∧
    Receipt.verify (fun _ _ => true) (fun _ => ShaDigest.zero)
        ⟨[1, 2], [67305985, 0, 0, 0, 0, 0, 0, 0, 4]⟩ ⟨[]⟩ ≠ some (.ok ()) :=
  have h := verify_journal_length_binding (fun _ _ => true) (fun _ => ShaDigest.zero)
    ⟨[1, 2], [67305985, 0, 0, 0, 0, 0, 0, 0, 4]⟩ ⟨[]⟩ 4 (by decide) (by decide)
  ⟨h.1 rfl, h.2.1⟩

/-- C3: the inline path.  For a journal of at most 32 bytes (0 and 32
included), a seal accepted by the proof system and a ninth seal word equal to
the journal length, `Receipt::verify` returns exactly when the first
`journal.size()` bytes of the seal are the journal; otherwise it throws the
root mismatch; and the hash plays no part in the result. -/
theorem verify_inline_path (zkVerify : ZkVerify) (shaHash : ShaHash)
    (r : Receipt) (id : MethodId) (w : Word) (hn : r.journal.length ≤ 32)
    (hz : zkVerify id.asDigest r.sealWords = true) (h8 : r.sealWords[8]? = some w)
    (hw : w.val = r.journal.length) :
    (r.verify zkVerify shaHash id = some (.ok ()) ↔
      (bufferBytes r.sealWords).take r.journal.length = r.journal) ∧
    ((bufferBytes r.sealWords).take r.journal.length ≠ r.journal →
      r.verify zkVerify shaHash id = some (.error .rootMismatch)) ∧
    ∀ otherHash : ShaHash, r.verify zkVerify otherHash id = r.verify zkVerify shaHash id := by
  have h32 : ¬ 32 < r.journal.length := by omega
  refine ⟨?_, ?_, ?_⟩
  · rw [Receipt.verify_ok_iff]
    simp [hz, h8, hw, h32]
  · intro hd
    have hd2 : ¬ r.journal = (bufferBytes r.sealWords).take r.journal.length :=
      fun h => hd h.symm
    unfold Receipt.verify
    simp [hz, h8, hw, h32, hd2]
  · intro otherHash
    unfold Receipt.verify
    simp [hz, h8, hw, h32]

/-- A witness of `verify_inline_path`: the journal 1,2,3,4 inlined in the
first seal word. -/
theorem verify_inline_path_witness :
    Receipt.verify (fun _ _ => true) (fun _ => ShaDigest.zero)
      ⟨[1, 2, 3, 4], [67305985, 0, 0, 0, 0, 0, 0, 0, 4]⟩ ⟨[]⟩ = some (.ok ()) :=
  (verify_inline_path (fun _ _ => true) (fun _ => ShaDigest.zero)
    ⟨[1, 2, 3, 4], [67305985, 0, 0, 0, 0, 0, 0, 0, 4]⟩ ⟨[]⟩ 4
    (by decide) rfl (by decide) (by decide)).1.2 (by decide)

/-- C4: the hash path.  For a journal of more than 32 bytes (33 included), a
seal accepted by the proof system and a ninth seal word equal to the journal
length, `Receipt::verify` returns exactly when the 32 bytes of
`shaHash(journal)` are the first 32 bytes of the seal, which is when the
digest words are the seal words 0..7; otherwise it throws the root mismatch. -/
theorem verify_hash_path (zkVerify : ZkVerify) (shaHash : ShaHash)
    (r : Receipt) (id : MethodId) (w : Word) (hn : 32 < r.journal.length)
    (hz : zkVerify id.asDigest r.sealWords = true) (h8 : r.sealWords[8]? = some w)
    (hw : w.val = r.journal.length) :
    (r.verify zkVerify shaHash id = some (.ok ()) ↔
      (shaHash r.journal).bytes = (bufferBytes r.sealWords).take 32) ∧
    ((shaHash r.journal).bytes = (bufferBytes r.sealWords).take 32 ↔
      (shaHash r.journal).words = r.sealWords.take 8) ∧
    ((shaHash r.journal).bytes ≠ (bufferBytes r.sealWords).take 32 →
      r.verify zkVerify shaHash id = some (.error .rootMismatch)) := by
  refine ⟨?_, ?_, ?_⟩
  · rw [Receipt.verify_ok_iff]
    simp [hz, h8, hw, hn]
  · rw [← bufferBytes_take8]
    unfold ShaDigest.bytes
    exact ⟨fun h => bufferBytes_injective h, fun h => by rw [h]⟩
  · intro hd
    unfold Receipt.verify
    simp [hz, h8, hw, hn, hd]

/-- A witness of `verify_hash_path`: 33 zero bytes, a hash that is constantly
the zero digest, and a seal of eight zero words and the length 33. -/
theorem verify_hash_path_witness :
    Receipt.verify (fun _ _ => true) (fun _ => ShaDigest.zero)
      ⟨List.replicate 33 0, [0, 0, 0, 0, 0, 0, 0, 0, 33]⟩ ⟨[]⟩ = some (.ok ()) :=
  (verify_hash_path (fun _ _ => true) (fun _ => ShaDigest.zero)
    ⟨List.replicate 33 0, [0, 0, 0, 0, 0, 0, 0, 0, 33]⟩ ⟨[]⟩ 33
    (by decide) rfl (by decide) (by decide)).1.2 (by decide)

/-- C5: a seal the proof system rejects is rejected by `Receipt::verify`
with every journal, and the result of `Receipt::verify` is the same for two
method ids with the same `asDigest()`. -/
theorem verify_proof_rejection (zkVerify : ZkVerify) (shaHash : ShaHash)
    (r : Receipt) (id id2 : MethodId) (hd : id2.asDigest = id.asDigest) :
    r.verify zkVerify shaHash id2 = r.verify zkVerify shaHash id ∧
    (zkVerify id.asDigest r.sealWords = false →
      ∀ J : List Byte, Receipt.verify zkVerify shaHash ⟨J, r.sealWords⟩ id
        = some (.error .proofRejected)) := by
  constructor
  · unfold Receipt.verify
    rw [hd]
  · intro hz J
    unfold Receipt.verify
    simp [hz]

/-- A witness of `verify_proof_rejection`: a proof system that rejects
everything, and two method ids of 3 and of 2 bytes, which both hold no digest. -/
theorem verify_proof_rejection_witness :
    Receipt.verify (fun _ _ => false) (fun _ => ShaDigest.zero)
        ⟨[1, 2, 3, 4], [67305985, 0, 0, 0, 0, 0, 0, 0, 4]⟩ ⟨[7, 7]⟩
      = Receipt.verify (fun _ _ => false) (fun _ => ShaDigest.zero)
        ⟨[1, 2, 3, 4], [67305985, 0, 0, 0, 0, 0, 0, 0, 4]⟩ ⟨[1, 2, 3]⟩ ∧
    Receipt.verify (fun _ _ => false) (fun _ => ShaDigest.zero)
        ⟨[], [67305985, 0, 0, 0, 0, 0, 0, 0, 4]⟩ ⟨[1, 2, 3]⟩
      = some (.error .proofRejected) :=
  have h := verify_proof_rejection (fun _ _ => false) (fun _ => ShaDigest.zero)
    ⟨[1, 2, 3, 4], [67305985, 0, 0, 0, 0, 0, 0, 0, 4]⟩ ⟨[1, 2, 3]⟩ ⟨[7, 7]⟩ (by decide)
  ⟨h.1, h.2 rfl []⟩

/-! ## Prover::run and Prover::writeInput: properties -/

/-- Delivering callbacks that all return leaves the method id alone and
appends the committed chunks to the commit buffer. -/
theorem Prover.deliver_true : ∀ (events : List IoEvent) (p p1 : Prover),
    p.deliver events = (p1, true) →
      p1.methodId = p.methodId ∧ p1.commitBuffer = p.commitBuffer ++ commitChunks events
  | [], p, p1, h => by
      simp only [Prover.deliver, Prod.mk.injEq, and_true] at h
      subst h
      simp [commitChunks]
  | .init :: rest, p, p1, h => by
      simp only [Prover.deliver] at h
      cases hi : p.onInit with
      | none => simp [hi] at h
      | some v =>
        simp only [hi] at h
        simpa [commitChunks] using Prover.deliver_true rest p p1 h
  | .write buf :: rest, p, p1, h => by
      simp only [Prover.deliver] at h
      simpa [commitChunks, Prover.onWrite] using Prover.deliver_true rest (p.onWrite buf) p1 h
  | .commit buf :: rest, p, p1, h => by
      simp only [Prover.deliver] at h
      simpa [commitChunks, Prover.onCommit] using
        Prover.deliver_true rest (p.onCommit buf) p1 h

/-- C6: self-verification.  When `Prover::run` returns a receipt, the receipt
verifies against the method id of the prover, its journal is the commit buffer
of the prover after the run, which is the buffer before the run followed by
the chunks delivered to `onCommit` in order, and its seal is the one `prove`
returned.  A run whose self-verification does not return gives no receipt. -/
theorem run_self_verification (zkVerify : ZkVerify) (shaHash : ShaHash) (prove : Prove)
    (p : Prover) (R : Receipt)
    (h : (Prover.run zkVerify shaHash prove p).2 = some (.ok R)) :
    R.verify zkVerify shaHash p.methodId = some (.ok ()) ∧
    R.journal = (Prover.run zkVerify shaHash prove p).1.commitBuffer ∧
    R.journal = p.commitBuffer ++ commitChunks (prove p).events ∧
    (prove p).result = .ok R.sealWords := by
  unfold Prover.run at h ⊢
  dsimp only at h ⊢
  split at h
  · simp at h
  · rename_i p1 hd
    obtain ⟨hid, hcb⟩ := Prover.deliver_true _ _ _ hd
    split at h
    · simp at h
    · rename_i sealed hr
      split at h
      · simp at h
      · simp at h
      · rename_i hv
        simp only [Option.some.injEq, Except.ok.injEq] at h
        subst h
        simp only [hd, hr, hv]
        rw [← hid]
        exact ⟨hv, trivial, hcb, trivial⟩

/-- A witness of `run_self_verification`: a fresh prover whose run commits
the chunks 1,2 and 3,4 and whose seal inlines the journal 1,2,3,4. -/
theorem run_self_verification_witness :
    Receipt.verify (fun _ _ => true) (fun _ => ShaDigest.zero)
        ⟨[1, 2, 3, 4], [67305985, 0, 0, 0, 0, 0, 0, 0, 4]⟩ (Prover.new [] ⟨[]⟩).methodId
      = some (.ok ()) ∧
    ([1, 2, 3, 4] : List Byte)
      = (Prover.new [] ⟨[]⟩).commitBuffer
        ++ commitChunks [.init, .commit [1, 2], .write [9], .commit [3, 4]] :=
  have h := run_self_verification (fun _ _ => true) (fun _ => ShaDigest.zero)
    (fun _ => ⟨[.init, .commit [1, 2], .write [9], .commit [3, 4]],
      .ok [67305985, 0, 0, 0, 0, 0, 0, 0, 4]⟩)
    (Prover.new [] ⟨[]⟩) ⟨[1, 2, 3, 4], [67305985, 0, 0, 0, 0, 0, 0, 0, 4]⟩ (by decide)
  ⟨h.1, h.2.2.1⟩

/-- Or-ing a value shifted past all bits of another adds the two. -/
theorem or_shiftLeft_eq_add (a b k : Nat) (ha : a < 2 ^ k) : a ||| (b <<< k) = a + b * 2 ^ k := by
  rw [Nat.shiftLeft_eq, Nat.or_comm, Nat.mul_comm b, ← Nat.mul_add_lt_is_or ha b, Nat.add_comm]

/-- The statement `word |= b << k` adds `b * 2^k` when `word` is below `2^k`. -/
theorem orShift_val (word : Word) (b : Byte) (k : Nat) (hw : word.val < 2 ^ k) (hk : k ≤ 24) :
    (orShift word b k).val = word.val + b.val * 2 ^ k := by
  unfold orShift
  simp only
  rw [or_shiftLeft_eq_add _ _ _ hw]
  apply Nat.mod_eq_of_lt
  have hb := b.isLt
  have h1 : 2 ^ k ≤ 2 ^ 24 := Nat.pow_le_pow_right (by decide) hk
  have h2 : b.val * 2 ^ k ≤ 255 * 2 ^ 24 := Nat.mul_le_mul (by omega) h1
  omega

/-- The word packed by one round of the `while` loop of `writeInput`. -/
theorem word4_val (b0 b1 b2 b3 : Byte) :
    (orShift (orShift (orShift (orShift 0 b0 0) b1 8) b2 16) b3 24).val
      = b0.val + 256 * b1.val + 65536 * b2.val + 16777216 * b3.val := by
  have h0 : (orShift 0 b0 0).val = b0.val := by
    rw [orShift_val _ _ _ (by simp) (by decide)]; simp
  have h1 : (orShift (orShift 0 b0 0) b1 8).val = b0.val + 256 * b1.val := by
    rw [orShift_val _ _ _ (by rw [h0]; exact b0.isLt) (by decide), h0]; omega
  have h2 : (orShift (orShift (orShift 0 b0 0) b1 8) b2 16).val
      = b0.val + 256 * b1.val + 65536 * b2.val := by
    rw [orShift_val _ _ _ (by rw [h1]; have := b0.isLt; have := b1.isLt; omega) (by decide), h1]
    omega
  rw [orShift_val _ _ _
    (by rw [h2]; have := b0.isLt; have := b1.isLt; have := b2.isLt; omega) (by decide), h2]
  omega

/-- The word packed by the tail loop from one byte. -/
theorem tail1_val (b0 : Byte) : (tailLoop 0 0 [b0]).val = b0.val := by
  simp only [tailLoop]
  rw [orShift_val _ _ _ (by simp) (by decide)]; simp

/-- The word packed by the tail loop from two bytes. -/
theorem tail2_val (b0 b1 : Byte) : (tailLoop 0 0 [b0, b1]).val = b0.val + 256 * b1.val := by
  simp only [tailLoop]
  have h0 : (orShift 0 b0 (8 * 0)).val = b0.val := by
    rw [orShift_val _ _ _ (by simp) (by decide)]; simp
  rw [orShift_val _ _ _ (by rw [h0]; exact b0.isLt) (by decide), h0]; omega

/-- The word packed by the tail loop from three bytes. -/
theorem tail3_val (b0 b1 b2 : Byte) :
    (tailLoop 0 0 [b0, b1, b2]).val = b0.val + 256 * b1.val + 65536 * b2.val := by
  simp only [tailLoop]
  have h0 : (orShift 0 b0 (8 * 0)).val = b0.val := by
    rw [orShift_val _ _ _ (by simp) (by decide)]; simp
  have h1 : (orShift (orShift 0 b0 (8 * 0)) b1 (8 * (0 + 1))).val = b0.val + 256 * b1.val := by
    rw [orShift_val _ _ _ (by rw [h0]; exact b0.isLt) (by decide), h0]; omega
  rw [orShift_val _ _ _ (by rw [h1]; have := b0.isLt; have := b1.isLt; omega) (by decide), h1]
  omega

/-- Byte `j` of a little-endian sum of four bytes. -/
theorem byte_of_sum (b0 b1 b2 b3 : Nat) (h0 : b0 < 256) (h1 : b1 < 256) (h2 : b2 < 256)
    (h3 : b3 < 256) (j : Nat) (hj : j < 4) :
    (b0 + 256 * b1 + 65536 * b2 + 16777216 * b3) / 2 ^ (8 * j) % 256
      = if j = 0 then b0 else if j = 1 then b1 else if j = 2 then b2 else b3 := by
  have : j = 0 ∨ j = 1 ∨ j = 2 ∨ j = 3 := by omega
  rcases this with rfl | rfl | rfl | rfl <;> simp <;> omega

/-- The loop of `writeInput` appends `ceil(len/4)` words to the stream, and
byte `j` of the appended word `k` is input byte `4k+j`, or zero past the end. -/
theorem writeInputLoop_spec : ∀ (bytes : List Byte) (stream : List Word),
    ∃ appended : List Word, writeInputLoop stream bytes = stream ++ appended ∧
      appended.length = (bytes.length + 3) / 4 ∧
      ∀ k j, j < 4 → (appended.getD k 0).val / 2 ^ (8 * j) % 256
        = if 4 * k + j < bytes.length then (bytes.getD (4 * k + j) 0).val else 0
  | b0 :: b1 :: b2 :: b3 :: rest, stream => by
      obtain ⟨app, h1, h2, h3⟩ := writeInputLoop_spec rest
        (stream ++ [orShift (orShift (orShift (orShift 0 b0 0) b1 8) b2 16) b3 24])
      refine ⟨orShift (orShift (orShift (orShift 0 b0 0) b1 8) b2 16) b3 24 :: app, ?_, ?_, ?_⟩
      · rw [writeInputLoop, h1]; simp
      · simp only [List.length_cons, h2]; omega
      · intro k j hj
        cases k with
        | zero =>
          simp only [List.getD_cons_zero, word4_val]
          rw [byte_of_sum _ _ _ _ b0.isLt b1.isLt b2.isLt b3.isLt j hj]
          have : j = 0 ∨ j = 1 ∨ j = 2 ∨ j = 3 := by omega
          rcases this with rfl | rfl | rfl | rfl <;> simp
        | succ k =>
          simp only [List.getD_cons_succ]
          rw [h3 k j hj]
          have e : 4 * (k + 1) + j = (4 * k + j) + 1 + 1 + 1 + 1 := by omega
          rw [e]
          simp only [List.getD_cons_succ, List.length_cons]
          simp
  | [], stream => by
      refine ⟨[], by simp [writeInputLoop], by simp, ?_⟩
      intro k j hj
      simp
  | [b0], stream => by
      refine ⟨[tailLoop 0 0 [b0]], by simp [writeInputLoop], by simp, ?_⟩
      intro k j hj
      cases k with
      | zero =>
        simp only [List.getD_cons_zero, tail1_val]
        have := byte_of_sum b0.val 0 0 0 b0.isLt (by decide) (by decide) (by decide) j hj
        simp only [Nat.mul_zero, Nat.add_zero] at this
        rw [this]
        have : j = 0 ∨ j = 1 ∨ j = 2 ∨ j = 3 := by omega
        rcases this with rfl | rfl | rfl | rfl <;> simp
      | succ k =>
        have hlt : ¬ (4 * (k + 1) + j < 1) := by omega
        simp [hlt]
  | [b0, b1], stream => by
      refine ⟨[tailLoop 0 0 [b0, b1]], by simp [writeInputLoop], by simp, ?_⟩
      intro k j hj
      cases k with
      | zero =>
        simp only [List.getD_cons_zero, tail2_val]
        have := byte_of_sum b0.val b1.val 0 0 b0.isLt b1.isLt (by decide) (by decide) j hj
        simp only [Nat.mul_zero, Nat.add_zero] at this
        rw [this]
        have : j = 0 ∨ j = 1 ∨ j = 2 ∨ j = 3 := by omega
        rcases this with rfl | rfl | rfl | rfl <;> simp
      | succ k =>
        have hlt : ¬ (4 * (k + 1) + j < 2) := by omega
        simp [hlt]
  | [b0, b1, b2], stream => by
      refine ⟨[tailLoop 0 0 [b0, b1, b2]], by simp [writeInputLoop], by simp, ?_⟩
      intro k j hj
      cases k with
      | zero =>
        simp only [List.getD_cons_zero, tail3_val]
        have := byte_of_sum b0.val b1.val b2.val 0 b0.isLt b1.isLt b2.isLt (by decide) j hj
        simp only [Nat.mul_zero, Nat.add_zero] at this
        rw [this]
        have : j = 0 ∨ j = 1 ∨ j = 2 ∨ j = 3 := by omega
        rcases this with rfl | rfl | rfl | rfl <;> simp
      | succ k =>
        have hlt : ¬ (4 * (k + 1) + j < 3) := by omega
        simp [hlt]

/-- C10: `Prover::writeInput(bytes, len)` keeps the words already in the input
stream, appends exactly `ceil(len/4)` words, and byte `j` (bits `8j .. 8j+7`)
of the appended word `k` is `bytes[4k+j]` when `4k+j < len` and zero otherwise. -/
theorem writeInput_packs_little_endian (p : Prover) (bytes : List Byte) :
    ((p.writeInput bytes).inputStream.take p.inputStream.length = p.inputStream) ∧
    ((p.writeInput bytes).inputStream.length
      = p.inputStream.length + (bytes.length + 3) / 4) ∧
    ∀ k j, k < (bytes.length + 3) / 4 → j < 4 →
      ((p.writeInput bytes).inputStream.getD (p.inputStream.length + k) 0).val
          / 2 ^ (8 * j) % 256
        = if 4 * k + j < bytes.length then (bytes.getD (4 * k + j) 0).val else 0 := by
  obtain ⟨app, h1, h2, h3⟩ := writeInputLoop_spec bytes p.inputStream
  have e : (p.writeInput bytes).inputStream = p.inputStream ++ app := h1
  rw [e]
  refine ⟨by simp, by simp [h2], ?_⟩
  intro k j _ hj
  rw [← h3 k j hj]
  simp [List.getD_eq_getElem?_getD, List.getElem?_append_right]

/-- A witness of `writeInput_packs_little_endian`: five bytes written to a
stream that already holds one word; byte 0 of the second appended word (the
partial one) is the fifth input byte. -/
theorem writeInput_packs_little_endian_witness :
    ((((Prover.new [] ⟨[]⟩).writeInput [9, 9, 9, 9]).writeInput [1, 2, 3, 4, 5]).inputStream.getD
        ((((Prover.new [] ⟨[]⟩).writeInput [9, 9, 9, 9]).inputStream.length) + 1) 0).val
      / 2 ^ (8 * 0) % 256 = 5 :=
  (writeInput_packs_little_endian ((Prover.new [] ⟨[]⟩).writeInput [9, 9, 9, 9])
    [1, 2, 3, 4, 5]).2.2 1 0 (by decide) (by decide)

/-! ## The field: arithmetic facts -/

/-- Repeated squaring computes the power `a ^ (m * 2 ^ k)` modulo p. -/
theorem pow_sqIter (a : Nat) : ∀ (k m : Nat),
    a ^ (m * 2 ^ k) % 2013265921 = sqIter k (a ^ m % 2013265921)
  | 0, m => by simp [sqIter]
  | k + 1, m => by
      have h := pow_sqIter a k (m * 2)
      have e : m * 2 ^ (k + 1) = m * 2 * 2 ^ k := by ring
      have e2 : a ^ (m * 2) % 2013265921 = sqStep (a ^ m % 2013265921) := by
        unfold sqStep
        rw [pow_mul, pow_two, Nat.mul_mod]
      rw [e, h, e2, sqIter]

/-- The modulus is prime (Lucas test with the generator 31; p - 1 = 2^27 * 3 * 5). -/
theorem Fp.P_prime : Nat.Prime 2013265921 := by
  have key : ∀ m k : Nat, ((31 : ZMod 2013265921)) ^ (m * 2 ^ k) = ((sqIter k (31 ^ m % 2013265921) : Nat) : ZMod 2013265921) := by
    intro m k
    rw [← pow_sqIter, ZMod.natCast_mod]
    push_cast
    rfl
  refine lucas_primality 2013265921 (31 : ZMod 2013265921) ?_ ?_
  · have := key 15 27
    have e : (2013265921 - 1 : Nat) = 15 * 2 ^ 27 := by norm_num
    rw [e, this]
    have : sqIter 27 (31 ^ 15 % 2013265921) = 1 := by decide
    rw [this]; simp
  · intro q hq hdvd
    have e : (2013265921 - 1 : Nat) = 2 ^ 27 * (3 * 5) := by norm_num
    rw [e] at hdvd
    have hq' : q = 2 ∨ q = 3 ∨ q = 5 := by
      rcases (Nat.Prime.dvd_mul hq).1 hdvd with h | h
      · left
        exact (Nat.prime_dvd_prime_iff_eq hq Nat.prime_two).1 (hq.dvd_of_dvd_pow h)
      · rcases (Nat.Prime.dvd_mul hq).1 h with h | h
        · right; left
          exact (Nat.prime_dvd_prime_iff_eq hq Nat.prime_three).1 h
        · right; right
          exact (Nat.prime_dvd_prime_iff_eq hq Nat.prime_five).1 h
    have ne1 : ∀ c : Nat, c % 2013265921 ≠ 1 → ((c : Nat) : ZMod 2013265921) ≠ 1 := by
      intro c hc h
      have : ((c : Nat) : ZMod 2013265921) = ((1 : Nat) : ZMod 2013265921) := by simpa using h
      rw [ZMod.natCast_eq_natCast_iff'] at this
      exact hc (by simpa using this)
    rcases hq' with rfl | rfl | rfl
    · have e2 : (2013265921 - 1) / 2 = 15 * 2 ^ 26 := by norm_num
      rw [e2, key]
      exact ne1 _ (by decide)
    · have e2 : (2013265921 - 1) / 3 = 5 * 2 ^ 27 := by norm_num
      rw [e2, key]
      exact ne1 _ (by decide)
    · have e2 : (2013265921 - 1) / 5 = 3 * 2 ^ 27 := by norm_num
      rw [e2, key]
      exact ne1 _ (by decide)

/-- Two field elements with the same representative are equal. -/
theorem Fp.ext {a b : Fp} (h : a.val = b.val) : a = b := by
  cases a; cases b; simp only at h; subst h; rfl

/-- The representative is below p. -/
theorem Fp.val_lt (a : Fp) : a.val < 2013265921 :=
  a.isLt

/-- The representative of `Fp(n)`. -/
theorem Fp.val_ofNat (n : Nat) : (Fp.ofNat n).val = n % 2013265921 :=
  rfl

/-- The representative of a literal. -/
theorem Fp.val_lit (n : Nat) : (OfNat.ofNat n : Fp).val = n % 2013265921 :=
  rfl

/-- The representative of a sum. -/
theorem Fp.val_add (a b : Fp) : (a + b).val = (a.val + b.val) % 2013265921 :=
  rfl

/-- The representative of a difference. -/
theorem Fp.val_sub (a b : Fp) : (a - b).val = (a.val + 2013265921 - b.val) % 2013265921 := by
  have ha := a.isLt
  have hb := b.isLt
  have e : (a - b).val
      = (if b.val ≤ a.val then Fp.ofNat (a.val - b.val)
          else Fp.ofNat (a.val + 2013265921 - b.val)).val := rfl
  rw [e]
  unfold Fp.P at ha hb
  split_ifs with h
  · rw [Fp.ofNat]
    simp only
    unfold Fp.P
    omega
  · rfl

/-- The representative of a product. -/
theorem Fp.val_mul (a b : Fp) : (a * b).val = (a.val * b.val) % 2013265921 :=
  rfl

/-- A field element is zero exactly when its representative is. -/
theorem Fp.eq_zero_iff (a : Fp) : a = 0 ↔ a.val = 0 :=
  ⟨fun h => by rw [h]; rfl, fun h => Fp.ext (by rw [h]; rfl)⟩

/-- A difference is zero exactly when the two elements are equal. -/
theorem Fp.sub_eq_zero_iff (a b : Fp) : a - b = 0 ↔ a = b := by
  rw [Fp.eq_zero_iff, Fp.val_sub]
  have ha := a.val_lt
  have hb := b.val_lt
  constructor
  · intro h; apply Fp.ext; omega
  · intro h; rw [h]; omega

/-- `1 - a` is zero exactly when `a` is one. -/
theorem Fp.one_sub_eq_zero_iff (a : Fp) : (1 : Fp) - a = 0 ↔ a = 1 := by
  rw [Fp.sub_eq_zero_iff]
  exact eq_comm

/-- A product is zero only when a factor is: p is prime. -/
theorem Fp.mul_eq_zero (a b : Fp) (h : a * b = 0) : a = 0 ∨ b = 0 := by
  rw [Fp.eq_zero_iff, Fp.val_mul] at h
  have hd : 2013265921 ∣ a.val * b.val := Nat.dvd_of_mod_eq_zero h
  rcases (Nat.Prime.dvd_mul Fp.P_prime).1 hd with h1 | h1
  · left
    rw [Fp.eq_zero_iff]
    exact Nat.eq_zero_of_dvd_of_lt h1 a.val_lt
  · right
    rw [Fp.eq_zero_iff]
    exact Nat.eq_zero_of_dvd_of_lt h1 b.val_lt

/-- The one-bit law `b * (b - 1) = 0` forces `b` to be 0 or 1. -/
theorem oneBitPoly_eq_zero (x : Fp) (h : oneBitPoly x = 0) : x = 0 ∨ x = 1 := by
  unfold oneBitPoly at h
  rcases Fp.mul_eq_zero _ _ h with h1 | h1
  · exact Or.inl h1
  · exact Or.inr ((Fp.sub_eq_zero_iff _ _).1 h1)

/-- The two-bit law `d * (d - 1) * (d - 2) * (d - 3) = 0` forces `d` to be
one of 0, 1, 2, 3. -/
theorem twoBitPoly_eq_zero (x : Fp) (h : twoBitPoly x = 0) :
    x = 0 ∨ x = 1 ∨ x = 2 ∨ x = 3 := by
  unfold twoBitPoly at h
  rcases Fp.mul_eq_zero _ _ h with h1 | h1
  · rcases Fp.mul_eq_zero _ _ h1 with h2 | h2
    · rcases Fp.mul_eq_zero _ _ h2 with h3 | h3
      · exact Or.inl h3
      · exact Or.inr (Or.inl ((Fp.sub_eq_zero_iff _ _).1 h3))
    · exact Or.inr (Or.inr (Or.inl ((Fp.sub_eq_zero_iff _ _).1 h2)))
  · exact Or.inr (Or.inr (Or.inr ((Fp.sub_eq_zero_iff _ _).1 h1)))

/-- One round of the decomposition divides the representative by four. -/
theorem limbStep_val (v : Fp) : (limbStep v).val = v.val / 4 := by
  unfold limbStep
  rw [Fp.val_mul, Fp.val_sub, Fp.val_ofNat, Fp.val_lit]
  have h3 : (3 : Fp).asUInt32 = 2 ^ 2 - 1 := rfl
  rw [Fp.asUInt32, h3, Nat.and_pow_two_sub_one_eq_mod]
  have hv := v.val_lt
  simp only [Nat.reducePow, Nat.reduceMod]
  omega

/-- Round `k` of the decomposition works on the representative divided by `4^k`. -/
theorem limbVal_val (v : Fp) : ∀ k, (limbVal v k).val = v.val / 4 ^ k
  | 0 => by simp [limbVal]
  | k + 1 => by
      rw [limbVal, limbStep_val, limbVal_val v k, Nat.div_div_eq_div_mul, pow_succ]

/-- Column `150 + k` receives the base-4 digit `k` of the representative. -/
theorem limbDigit_val (v : Fp) (k : Nat) : (limbDigit v k).val = v.val / 4 ^ k % 4 := by
  unfold limbDigit
  have h3 : (3 : Fp).asUInt32 = 2 ^ 2 - 1 := rfl
  rw [Fp.val_ofNat, Fp.asUInt32, h3, Nat.and_pow_two_sub_one_eq_mod, limbVal_val]
  simp only [Nat.reducePow]
  omega

/-! ## The evaluator: rows, cells and the decomposition block -/

/-- The mask of a power of two. -/
theorem maskOf_pow2 (k : Nat) : maskOf (2 ^ k) = 2 ^ k - 1 := by
  unfold maskOf
  have h1 : 0 < 2 ^ k := Nat.two_pow_pos _
  rw [if_neg (by omega)]

/-- For `steps` a power of two and `cycle < steps`, the row `(cycle - 0) & mask`
is `cycle`. -/
theorem rowBack_zero (k cycle : Nat) (hc : cycle < 2 ^ k) :
    rowBack cycle 0 (maskOf (2 ^ k)) = cycle := by
  unfold rowBack
  rw [maskOf_pow2 k, Nat.and_pow_two_sub_one_eq_mod, if_pos (Nat.zero_le _), Nat.sub_zero]
  exact Nat.mod_eq_of_lt hc

/-- For `steps` a power of two below `2^64` and `cycle < steps`, the row
`(cycle - 1) & mask` is the cyclic predecessor of `cycle`. -/
theorem rowBack_one (k cycle : Nat) (hk : k < 64) (hc : cycle < 2 ^ k) :
    rowBack cycle 1 (maskOf (2 ^ k)) = if cycle = 0 then 2 ^ k - 1 else cycle - 1 := by
  unfold rowBack
  rw [maskOf_pow2 k, Nat.and_pow_two_sub_one_eq_mod]
  have h1 : 0 < 2 ^ k := Nat.two_pow_pos _
  by_cases h0 : cycle = 0
  · subst h0
    rw [if_pos rfl, if_neg (by decide)]
    have e : 0 + 2 ^ 64 - 1 = 2 ^ k * (2 ^ (64 - k) - 1) + (2 ^ k - 1) := by
      have hq : 0 < 2 ^ (64 - k) := Nat.two_pow_pos _
      have hm : 2 ^ k * 2 ^ (64 - k) = 2 ^ 64 := by
        rw [← pow_add]; congr 1; omega
      have hd : 2 ^ k * (2 ^ (64 - k) - 1) = 2 ^ k * 2 ^ (64 - k) - 2 ^ k := by
        rw [Nat.mul_sub_one]
      have h2 : 2 ^ k ≤ 2 ^ k * 2 ^ (64 - k) := Nat.le_mul_of_pos_right _ hq
      rw [hd, hm] at *
      generalize 2 ^ k = m at h1 h2 ⊢
      omega
    rw [e, Nat.mul_add_mod]
    exact Nat.mod_eq_of_lt (by omega)
  · rw [if_neg h0, if_pos (by omega)]
    exact Nat.mod_eq_of_lt (by omega)

/-- With at least two rows the preceding row is another row, and a row. -/
theorem rowBack_one_ne (k cycle : Nat) (hk : k < 64) (hc : cycle < 2 ^ k) (h2 : 2 ≤ 2 ^ k) :
    rowBack cycle 1 (maskOf (2 ^ k)) ≠ cycle ∧ rowBack cycle 1 (maskOf (2 ^ k)) < 2 ^ k := by
  rw [rowBack_one k cycle hk hc]
  split_ifs <;> omega

/-- Reading a cell after an assignment. -/
theorem Args.set_apply (args : Args) (bank idx : Nat) (v : Fp) (b i : Nat) :
    (args.set bank idx v) b i = if b = bank ∧ i = idx then v else args b i :=
  rfl

/-- The decomposition block is twelve assignments, of the digits
`limbDigit v 0 .. limbDigit v 11` to the columns 150..161 at row `cycle`. -/
theorem limbBlock_eq (steps cycle : Nat) (v : Fp) (args : Args) :
    limbBlock steps cycle v args
      = ((((((((((((args.set 2 (150 * steps + cycle) (limbDigit v 0)).set 2 (151 * steps + cycle) (limbDigit v 1)).set 2 (152 * steps + cycle) (limbDigit v 2)).set 2 (153 * steps + cycle) (limbDigit v 3)).set 2 (154 * steps + cycle) (limbDigit v 4)).set 2 (155 * steps + cycle) (limbDigit v 5)).set 2 (156 * steps + cycle) (limbDigit v 6)).set 2 (157 * steps + cycle) (limbDigit v 7)).set 2 (158 * steps + cycle) (limbDigit v 8)).set 2 (159 * steps + cycle) (limbDigit v 9)).set 2 (160 * steps + cycle) (limbDigit v 10)).set 2 (161 * steps + cycle) (limbDigit v 11)) :=
  rfl

/-- Reading a cell after the decomposition block. -/
theorem limbBlock_apply (steps cycle : Nat) (v : Fp) (args : Args) (b i : Nat) :
    limbBlock steps cycle v args b i =
      if b = 2 ∧ i = 161 * steps + cycle then limbDigit v 11 else
      if b = 2 ∧ i = 160 * steps + cycle then limbDigit v 10 else
      if b = 2 ∧ i = 159 * steps + cycle then limbDigit v 9 else
      if b = 2 ∧ i = 158 * steps + cycle then limbDigit v 8 else
      if b = 2 ∧ i = 157 * steps + cycle then limbDigit v 7 else
      if b = 2 ∧ i = 156 * steps + cycle then limbDigit v 6 else
      if b = 2 ∧ i = 155 * steps + cycle then limbDigit v 5 else
      if b = 2 ∧ i = 154 * steps + cycle then limbDigit v 4 else
      if b = 2 ∧ i = 153 * steps + cycle then limbDigit v 3 else
      if b = 2 ∧ i = 152 * steps + cycle then limbDigit v 2 else
      if b = 2 ∧ i = 151 * steps + cycle then limbDigit v 1 else
      if b = 2 ∧ i = 150 * steps + cycle then limbDigit v 0 else
      args b i :=
  rfl

/-- After the decomposition block column `150 + k` of row `cycle` holds digit `k`. -/
theorem limbBlock_cols (steps cycle : Nat) (v : Fp) (args : Args) (hs : 1 ≤ steps) :
    limbBlock steps cycle v args 2 (150 * steps + cycle) = limbDigit v 0 ∧
    limbBlock steps cycle v args 2 (151 * steps + cycle) = limbDigit v 1 ∧
    limbBlock steps cycle v args 2 (152 * steps + cycle) = limbDigit v 2 ∧
    limbBlock steps cycle v args 2 (153 * steps + cycle) = limbDigit v 3 ∧
    limbBlock steps cycle v args 2 (154 * steps + cycle) = limbDigit v 4 ∧
    limbBlock steps cycle v args 2 (155 * steps + cycle) = limbDigit v 5 ∧
    limbBlock steps cycle v args 2 (156 * steps + cycle) = limbDigit v 6 ∧
    limbBlock steps cycle v args 2 (157 * steps + cycle) = limbDigit v 7 ∧
    limbBlock steps cycle v args 2 (158 * steps + cycle) = limbDigit v 8 ∧
    limbBlock steps cycle v args 2 (159 * steps + cycle) = limbDigit v 9 ∧
    limbBlock steps cycle v args 2 (160 * steps + cycle) = limbDigit v 10 ∧
    limbBlock steps cycle v args 2 (161 * steps + cycle) = limbDigit v 11 := by
  refine ⟨?_, ?_, ?_, ?_, ?_, ?_, ?_, ?_, ?_, ?_, ?_, ?_⟩ <;>
    (rw [limbBlock_apply]
     repeat rw [if_neg (by omega)]
     rw [if_pos ⟨rfl, rfl⟩])

/-- The decomposition block leaves every cell outside the columns 150..161 of
row `cycle` in bank 2 as it was. -/
theorem limbBlock_other (steps cycle : Nat) (v : Fp) (args : Args) (b i : Nat)
    (h : b ≠ 2 ∨ ∀ col, 150 ≤ col → col ≤ 161 → i ≠ col * steps + cycle) :
    limbBlock steps cycle v args b i = args b i := by
  rw [limbBlock_apply]
  rcases h with h | h
  · simp [h]
  · have h150 := h 150 (by decide) (by decide)
    have h151 := h 151 (by decide) (by decide)
    have h152 := h 152 (by decide) (by decide)
    have h153 := h 153 (by decide) (by decide)
    have h154 := h 154 (by decide) (by decide)
    have h155 := h 155 (by decide) (by decide)
    have h156 := h 156 (by decide) (by decide)
    have h157 := h 157 (by decide) (by decide)
    have h158 := h 158 (by decide) (by decide)
    have h159 := h 159 (by decide) (by decide)
    have h160 := h 160 (by decide) (by decide)
    have h161 := h 161 (by decide) (by decide)
    simp [h150, h151, h152, h153, h154, h155, h156, h157, h158, h159, h160, h161]

/-- The weighted sum of the twelve digits is the representative modulo `2^24`. -/
theorem digits_sum (n : Nat) :
    n / 4 ^ 0 % 4 + n / 4 ^ 1 % 4 * 4 + n / 4 ^ 2 % 4 * 16 + n / 4 ^ 3 % 4 * 64
      + n / 4 ^ 4 % 4 * 256 + n / 4 ^ 5 % 4 * 1024 + n / 4 ^ 6 % 4 * 4096
      + n / 4 ^ 7 % 4 * 16384 + n / 4 ^ 8 % 4 * 65536 + n / 4 ^ 9 % 4 * 262144
      + n / 4 ^ 10 % 4 * 1048576 + n / 4 ^ 11 % 4 * 4194304 = n % 16777216 := by
  simp only [Nat.reducePow]
  omega

/-- Adding the next digit times its weight does not wrap modulo p. -/
theorem recompose_step (acc d : Fp) (w : Nat) (hacc : acc.val < w) (hd : d.val < 4)
    (hw : 4 * w ≤ 16777216) :
    (acc + d * (OfNat.ofNat w : Fp)).val = acc.val + d.val * w ∧
      (acc + d * (OfNat.ofNat w : Fp)).val < 4 * w := by
  rw [Fp.val_add, Fp.val_mul, Fp.val_lit]
  have h1 : d.val * w ≤ 3 * w := Nat.mul_le_mul_right w (by omega)
  have h2 : w % 2013265921 = w := Nat.mod_eq_of_lt (by omega)
  rw [h2]
  generalize d.val * w = m at h1 ⊢
  omega

/-- Recomposing what the decomposition block has just stored gives the
representative of the decomposed value modulo `2^24`. -/
theorem recompose_limbBlock (steps cycle : Nat) (v : Fp) (args : Args) (hs : 1 ≤ steps)
    (hcur : rowBack cycle 0 (maskOf steps) = cycle) :
    recompose steps cycle (limbBlock steps cycle v args) = Fp.ofNat (v.val % 16777216) := by
  obtain ⟨h0, h1, h2, h3, h4, h5, h6, h7, h8, h9, h10, h11⟩ :=
    limbBlock_cols steps cycle v args hs
  unfold recompose
  simp only [hcur, h0, h1, h2, h3, h4, h5, h6, h7, h8, h9, h10, h11]
  have dlt : ∀ k, (limbDigit v k).val < 4 := fun k => by
    rw [limbDigit_val]; exact Nat.mod_lt _ (by decide)
  have d0 := dlt 0
  have d1 := dlt 1
  have d2 := dlt 2
  have d3 := dlt 3
  have d4 := dlt 4
  have d5 := dlt 5
  have d6 := dlt 6
  have d7 := dlt 7
  have d8 := dlt 8
  have d9 := dlt 9
  have d10 := dlt 10
  have d11 := dlt 11
  have s1 := recompose_step (limbDigit v 0) (limbDigit v 1) 4 (by exact d0) (by exact d1) (by decide)
  have s2 := recompose_step (limbDigit v 0 + limbDigit v 1 * 4) (limbDigit v 2) 16 (by exact s1.2) (by exact d2) (by decide)
  have s3 := recompose_step (limbDigit v 0 + limbDigit v 1 * 4 + limbDigit v 2 * 16) (limbDigit v 3) 64 (by exact s2.2) (by exact d3) (by decide)
  have s4 := recompose_step (limbDigit v 0 + limbDigit v 1 * 4 + limbDigit v 2 * 16 + limbDigit v 3 * 64) (limbDigit v 4) 256 (by exact s3.2) (by exact d4) (by decide)
  have s5 := recompose_step (limbDigit v 0 + limbDigit v 1 * 4 + limbDigit v 2 * 16 + limbDigit v 3 * 64 + limbDigit v 4 * 256) (limbDigit v 5) 1024 (by exact s4.2) (by exact d5) (by decide)
  have s6 := recompose_step (limbDigit v 0 + limbDigit v 1 * 4 + limbDigit v 2 * 16 + limbDigit v 3 * 64 + limbDigit v 4 * 256 + limbDigit v 5 * 1024) (limbDigit v 6) 4096 (by exact s5.2) (by exact d6) (by decide)
  have s7 := recompose_step (limbDigit v 0 + limbDigit v 1 * 4 + limbDigit v 2 * 16 + limbDigit v 3 * 64 + limbDigit v 4 * 256 + limbDigit v 5 * 1024 + limbDigit v 6 * 4096) (limbDigit v 7) 16384 (by exact s6.2) (by exact d7) (by decide)
  have s8 := recompose_step (limbDigit v 0 + limbDigit v 1 * 4 + limbDigit v 2 * 16 + limbDigit v 3 * 64 + limbDigit v 4 * 256 + limbDigit v 5 * 1024 + limbDigit v 6 * 4096 + limbDigit v 7 * 16384) (limbDigit v 8) 65536 (by exact s7.2) (by exact d8) (by decide)
  have s9 := recompose_step (limbDigit v 0 + limbDigit v 1 * 4 + limbDigit v 2 * 16 + limbDigit v 3 * 64 + limbDigit v 4 * 256 + limbDigit v 5 * 1024 + limbDigit v 6 * 4096 + limbDigit v 7 * 16384 + limbDigit v 8 * 65536) (limbDigit v 9) 262144 (by exact s8.2) (by exact d9) (by decide)
  have s10 := recompose_step (limbDigit v 0 + limbDigit v 1 * 4 + limbDigit v 2 * 16 + limbDigit v 3 * 64 + limbDigit v 4 * 256 + limbDigit v 5 * 1024 + limbDigit v 6 * 4096 + limbDigit v 7 * 16384 + limbDigit v 8 * 65536 + limbDigit v 9 * 262144) (limbDigit v 10) 1048576 (by exact s9.2) (by exact d10) (by decide)
  have s11 := recompose_step (limbDigit v 0 + limbDigit v 1 * 4 + limbDigit v 2 * 16 + limbDigit v 3 * 64 + limbDigit v 4 * 256 + limbDigit v 5 * 1024 + limbDigit v 6 * 4096 + limbDigit v 7 * 16384 + limbDigit v 8 * 65536 + limbDigit v 9 * 262144 + limbDigit v 10 * 1048576) (limbDigit v 11) 4194304 (by exact s10.2) (by exact d11) (by decide)
  apply Fp.ext
  rw [s11.1, s10.1, s9.1, s8.1, s7.1, s6.1, s5.1, s4.1, s3.1, s2.1, s1.1]
  simp only [limbDigit_val, Fp.val_ofNat]
  rw [digits_sum]
  omega

/-- The recomposition check `eqz((v - recomposition) * 2013265801)` passes
exactly when the representative of `v` is below `2^24`. -/
theorem limb_check_iff (v : Fp) :
    (v - Fp.ofNat (v.val % 16777216)) * (2013265801 : Fp) = 0 ↔ v.val < 16777216 := by
  rw [Fp.eq_zero_iff, Fp.val_mul, Fp.val_sub, Fp.val_ofNat, Fp.val_lit]
  have hv := v.val_lt
  simp only [Nat.reduceMod]
  omega

/-! ## The evaluator: the memory-active block -/

/-- Closed computations in the field used by the address flag. -/
theorem Fp.flag_facts :
    (1 : Fp) - ((1 : Fp) - 1) = 1 ∧ (1 : Fp) - ((1 : Fp) - 0) = 0 ∧ (1 : Fp) ≠ 0 ∧
      (1 : Fp) - 1 = 0 ∧ (1 : Fp) - 0 ≠ 0 := by
  decide

/-- The address flag is 1 when the two addresses are equal and 0 otherwise. -/
theorem sameAddrFlag_eq (a b : Fp) : sameAddrFlag a b = if a = b then 1 else 0 := by
  obtain ⟨f1, f2, _, _, _⟩ := Fp.flag_facts
  unfold sameAddrFlag
  by_cases h : a = b
  · have h0 : a - b = 0 := (Fp.sub_eq_zero_iff _ _).2 h
    rw [if_pos h]
    simp only [h0, if_true]
    exact f1
  · have h0 : ¬ (a - b = 0) := fun e => h ((Fp.sub_eq_zero_iff _ _).1 e)
    rw [if_neg h]
    simp only [h0, if_false]
    exact f2

/-- The read check in terms of the cells it compares. -/
theorem readCheck_eq (steps cycle : Nat) (args : Args)
    (hcur : rowBack cycle 0 (maskOf steps) = cycle) :
    readCheck steps cycle args =
      if args 2 (147 * steps + cycle) = 1 then none
      else if args 2 (145 * steps + cycle)
          ≠ args 2 (145 * steps + rowBack cycle 1 (maskOf steps)) then
        some .memCheckCpp43
      else if args 2 (146 * steps + cycle)
          ≠ args 2 (146 * steps + rowBack cycle 1 (maskOf steps)) then
        some .memCheckCpp44
      else none := by
  unfold readCheck
  simp only [hcur, ne_eq, Fp.one_sub_eq_zero_iff]
  simp only [Fp.sub_eq_zero_iff]
  by_cases h1 : args 2 (147 * steps + cycle) = 1
  · rw [if_neg (not_not.2 h1), if_pos h1]
  · rw [if_pos h1, if_neg h1]

/-- The same-address branch when the read check throws. -/
theorem sameAddrBranch_read (steps cycle : Nat) (x : Fp) (args : Args) (e : EqzSite)
    (h : readCheck steps cycle args = some e) :
    sameAddrBranch steps cycle x x args = (args, some e) := by
  have h0 : x - x = 0 := (Fp.sub_eq_zero_iff _ _).2 rfl
  unfold sameAddrBranch
  simp only [h0, ne_eq, not_true_eq_false, if_false, h]

/-- The same-address branch when the read check passes: the cycle delta minus
one is decomposed, and the branch throws at mem_check.cpp:46 unless the
representative of that value is below `2^24`. -/
theorem sameAddrBranch_limb (steps cycle : Nat) (x : Fp) (args : Args) (hs : 1 ≤ steps)
    (hcur : rowBack cycle 0 (maskOf steps) = cycle)
    (h : readCheck steps cycle args = none) :
    sameAddrBranch steps cycle x x args =
      (limbBlock steps cycle
          (args 2 (148 * steps + cycle)
            - args 2 (148 * steps + rowBack cycle 1 (maskOf steps)) - 1) args,
        if (args 2 (148 * steps + cycle)
            - args 2 (148 * steps + rowBack cycle 1 (maskOf steps)) - 1).val < 16777216
        then none else some .memCheckCpp46) := by
  have h0 : x - x = 0 := (Fp.sub_eq_zero_iff _ _).2 rfl
  unfold sameAddrBranch
  simp only [h0, ne_eq, not_true_eq_false, if_false, h, hcur,
    recompose_limbBlock steps cycle _ args hs hcur, limb_check_iff]
  split_ifs <;> rfl

/-- The different-address branch: the address delta minus one is decomposed,
and the branch throws at mem_check.cpp:48 unless the representative of that
value is below `2^24`. -/
theorem diffAddrBranch_eq (steps cycle : Nat) (x y : Fp) (args : Args) (hs : 1 ≤ steps)
    (hcur : rowBack cycle 0 (maskOf steps) = cycle) :
    diffAddrBranch steps cycle x y args =
      (limbBlock steps cycle (x - y - 1) args,
        if (x - y - 1).val < 16777216 then none else some .memCheckCpp48) := by
  unfold diffAddrBranch
  simp only [ne_eq, recompose_limbBlock steps cycle _ args hs hcur, limb_check_iff]
  split_ifs <;> rfl

/-- The memory-active block when the row has the address of the preceding
row: column 149 receives 1 and only the same-address branch runs. -/
theorem memActiveBlock_same (steps cycle : Nat) (args : Args)
    (hcur : rowBack cycle 0 (maskOf steps) = cycle)
    (h : args 2 (144 * steps + cycle)
      = args 2 (144 * steps + rowBack cycle 1 (maskOf steps))) :
    memActiveBlock steps cycle args =
      sameAddrBranch steps cycle (args 2 (144 * steps + cycle))
        (args 2 (144 * steps + cycle)) (args.set 2 (149 * steps + cycle) 1) := by
  obtain ⟨_, _, f3, f4, _⟩ := Fp.flag_facts
  unfold memActiveBlock
  simp only [hcur, sameAddrFlag_eq, ← h, if_true, Args.set_apply, and_self, ne_eq, f3,
    not_false_eq_true, f4, not_true_eq_false, if_false]
  rcases sameAddrBranch steps cycle (args 2 (144 * steps + cycle))
    (args 2 (144 * steps + cycle)) (args.set 2 (149 * steps + cycle) 1) with ⟨a, _ | e⟩ <;> rfl

/-- The memory-active block when the address differs from that of the
preceding row: column 149 receives 0 and only the different-address branch
runs. -/
theorem memActiveBlock_diff (steps cycle : Nat) (args : Args)
    (hcur : rowBack cycle 0 (maskOf steps) = cycle)
    (h : args 2 (144 * steps + cycle)
      ≠ args 2 (144 * steps + rowBack cycle 1 (maskOf steps))) :
    memActiveBlock steps cycle args =
      diffAddrBranch steps cycle (args 2 (144 * steps + cycle))
        (args 2 (144 * steps + rowBack cycle 1 (maskOf steps)))
        (args.set 2 (149 * steps + cycle) 0) := by
  obtain ⟨_, _, _, _, f5⟩ := Fp.flag_facts
  unfold memActiveBlock
  simp only [hcur, sameAddrFlag_eq, h, if_false, Args.set_apply, and_self, ne_eq,
    not_true_eq_false, if_true, f5, not_false_eq_true]

/-- Reading the cells of row `cycle` that the host outputs went to. -/
theorem afterHost_cur (host : HostBridge) (steps cycle : Nat) (args : Args) (hs : 1 ≤ steps) :
    afterHost host steps cycle args 2 (148 * steps + cycle) = (host memCheckCall).getD 0 0 ∧
    afterHost host steps cycle args 2 (144 * steps + cycle) = (host memCheckCall).getD 1 0 ∧
    afterHost host steps cycle args 2 (147 * steps + cycle) = (host memCheckCall).getD 2 0 ∧
    afterHost host steps cycle args 2 (145 * steps + cycle) = (host memCheckCall).getD 3 0 ∧
    afterHost host steps cycle args 2 (146 * steps + cycle) = (host memCheckCall).getD 4 0 := by
  unfold afterHost
  simp only [Args.set_apply, true_and]
  refine ⟨?_, ?_, ?_, ?_, ?_⟩
  · rw [if_neg (by omega), if_neg (by omega), if_neg (by omega), if_neg (by omega), if_pos trivial]
  · rw [if_neg (by omega), if_neg (by omega), if_neg (by omega), if_pos trivial]
  · rw [if_neg (by omega), if_neg (by omega), if_pos trivial]
  · rw [if_neg (by omega), if_pos trivial]
  · rw [if_pos trivial]

/-- The host outputs go to bank 2, columns 144..148, row `cycle`; every other
cell is as before. -/
theorem afterHost_other (host : HostBridge) (steps cycle : Nat) (args : Args) (b i : Nat)
    (h : b ≠ 2 ∨ ∀ col, 144 ≤ col → col ≤ 148 → i ≠ col * steps + cycle) :
    afterHost host steps cycle args b i = args b i := by
  unfold afterHost
  simp only [Args.set_apply]
  rcases h with h | h
  · simp [h]
  · have h144 := h 144 (by decide) (by decide)
    have h145 := h 145 (by decide) (by decide)
    have h146 := h 146 (by decide) (by decide)
    have h147 := h 147 (by decide) (by decide)
    have h148 := h 148 (by decide) (by decide)
    simp [h144, h145, h146, h147, h148]

/-- The same-address branch writes nothing, or runs one decomposition block. -/
theorem sameAddrBranch_fst (steps cycle : Nat) (x y : Fp) (args : Args) :
    (sameAddrBranch steps cycle x y args).1 = args ∨
      ∃ v, (sameAddrBranch steps cycle x y args).1 = limbBlock steps cycle v args := by
  unfold sameAddrBranch
  dsimp only
  split
  · exact Or.inl rfl
  · split
    · exact Or.inl rfl
    · split
      · exact Or.inr ⟨_, rfl⟩
      · exact Or.inr ⟨_, rfl⟩

/-- The different-address branch runs one decomposition block. -/
theorem diffAddrBranch_fst (steps cycle : Nat) (x y : Fp) (args : Args) :
    (diffAddrBranch steps cycle x y args).1 = limbBlock steps cycle (x - y - 1) args := by
  unfold diffAddrBranch
  simp only
  split_ifs <;> rfl

/-- The memory-active block writes only to bank 2, columns 149..161, row
`cycle`; every other cell is as before. -/
theorem memActiveBlock_other (steps cycle : Nat) (args : Args) (b i : Nat)
    (h : b ≠ 2 ∨ ∀ col, 149 ≤ col → col ≤ 161 → i ≠ col * steps + cycle) :
    (memActiveBlock steps cycle args).1 b i = args b i := by
  have hL : ∀ v (X : Args), limbBlock steps cycle v X b i = X b i := by
    intro v X
    apply limbBlock_other
    rcases h with h | h
    · exact Or.inl h
    · exact Or.inr (fun col h1 h2 => h col (by omega) h2)
  have hA : ∀ x (X : Args), (X.set 2 (149 * steps + cycle) x) b i = X b i := by
    intro x X
    rw [Args.set_apply]
    rcases h with h | h
    · rw [if_neg (fun hh => h hh.1)]
    · rw [if_neg (fun hh => h 149 (by decide) (by decide) hh.2)]
  have hS : ∀ x y (X : Args), (sameAddrBranch steps cycle x y X).1 b i = X b i := by
    intro x y X
    rcases sameAddrBranch_fst steps cycle x y X with e | ⟨v, e⟩
    · rw [e]
    · rw [e, hL]
  have hD : ∀ x y (X : Args), (diffAddrBranch steps cycle x y X).1 b i = X b i := by
    intro x y X
    rw [diffAddrBranch_fst, hL]
  have hF : ∀ (c : Prop) [Decidable c] (x y z : Fp),
      ((if c then sameAddrBranch steps cycle x y (args.set 2 (149 * steps + cycle) z)
        else (args.set 2 (149 * steps + cycle) z, none)).1) b i = args b i := by
    intro c _ x y z
    by_cases hc : c
    · rw [if_pos hc, hS, hA]
    · rw [if_neg hc]
      exact hA _ _
  unfold memActiveBlock
  dsimp only
  split
  · rename_i a e heq
    have h1 := congrArg (fun p : Args × Option EqzSite => p.1 b i) heq
    dsimp only at h1
    show a b i = args b i
    rw [← h1]
    exact hF _ _ _ _
  · rename_i a heq
    have h1 := congrArg (fun p : Args × Option EqzSite => p.1 b i) heq
    dsimp only at h1
    have h2 : a b i = args b i := by
      rw [← h1]
      exact hF _ _ _ _
    split
    · rw [hD, h2]
    · exact h2

/-! ## The evaluator: the whole step -/

/-- With the gate closed `step_verify` does nothing and returns 1. -/
theorem step_verify_closed (host : HostBridge) (steps cycle : Nat) (args : Args)
    (hg : gateSum steps cycle args = 0) :
    (step_verify host steps cycle args).args = args ∧
    (step_verify host steps cycle args).hostCalls = [] ∧
    (step_verify host steps cycle args).outcome = .ok 1 := by
  unfold step_verify
  dsimp only
  rw [if_neg (not_not.2 hg)]
  exact ⟨rfl, rfl, rfl⟩

/-- With the gate open `step_verify` calls the host once, leaves the banks as
the memory-active part left them, and returns 1 exactly when neither that part
nor the booleanity checks throw. -/
theorem step_verify_open (host : HostBridge) (steps cycle : Nat) (args : Args)
    (hg : gateSum steps cycle args ≠ 0) :
    (step_verify host steps cycle args).args = (activePart host steps cycle args).1 ∧
    (step_verify host steps cycle args).hostCalls = [memCheckCall] ∧
    (∀ v, (step_verify host steps cycle args).outcome = .ok v ↔
      (v = 1 ∧ (activePart host steps cycle args).2 = none ∧
        booleanity steps cycle (activePart host steps cycle args).1 = none)) ∧
    (∀ e, (step_verify host steps cycle args).outcome = .error e ↔
      ((activePart host steps cycle args).2 = some e ∨
        ((activePart host steps cycle args).2 = none ∧
          booleanity steps cycle (activePart host steps cycle args).1 = some e))) := by
  have hdef : step_verify host steps cycle args =
      match activePart host steps cycle args with
      | (a, some e) => ⟨a, [memCheckCall], .error e⟩
      | (a, none) =>
        match booleanity steps cycle a with
        | some e => ⟨a, [memCheckCall], .error e⟩
        | none => ⟨a, [memCheckCall], .ok 1⟩ := by
    unfold step_verify activePart
    dsimp only
    rw [if_pos hg]
  rw [hdef]
  rcases activePart host steps cycle args with ⟨a, _ | e⟩
  · dsimp only
    cases booleanity steps cycle a with
    | none =>
      refine ⟨rfl, rfl, ?_, ?_⟩
      · intro v
        constructor
        · intro h
          simp only [Except.ok.injEq] at h
          exact ⟨h.symm, rfl, rfl⟩
        · intro h
          rw [h.1]
      · intro e
        simp
    | some e2 =>
      refine ⟨rfl, rfl, ?_, ?_⟩
      · intro v
        simp
      · intro e
        simp
  · dsimp only
    refine ⟨rfl, rfl, ?_, ?_⟩
    · intro v
      simp
    · intro e2
      simp

/-- A check that throws leaves no way to end without an exception. -/
theorem ite_some_none {c : Prop} [Decidable c] {e : EqzSite} {r : Option EqzSite}
    (h : (if c then some e else r) = none) : ¬ c ∧ r = none := by
  by_cases hc : c
  · rw [if_pos hc] at h
    cases h
  · rw [if_neg hc] at h
    exact ⟨hc, h⟩

/-- When no booleanity check throws, every checked polynomial is zero. -/
theorem booleanity_none (steps cycle : Nat) (args : Args)
    (h : booleanity steps cycle args = none) :
    oneBitPoly (args 2 (149 * steps + rowBack cycle 0 (maskOf steps))) = 0 ∧
      twoBitPoly (args 2 (150 * steps + rowBack cycle 0 (maskOf steps))) = 0 ∧
      twoBitPoly (args 2 (151 * steps + rowBack cycle 0 (maskOf steps))) = 0 ∧
      twoBitPoly (args 2 (152 * steps + rowBack cycle 0 (maskOf steps))) = 0 ∧
      twoBitPoly (args 2 (153 * steps + rowBack cycle 0 (maskOf steps))) = 0 ∧
      twoBitPoly (args 2 (154 * steps + rowBack cycle 0 (maskOf steps))) = 0 ∧
      twoBitPoly (args 2 (155 * steps + rowBack cycle 0 (maskOf steps))) = 0 ∧
      twoBitPoly (args 2 (156 * steps + rowBack cycle 0 (maskOf steps))) = 0 ∧
      twoBitPoly (args 2 (157 * steps + rowBack cycle 0 (maskOf steps))) = 0 ∧
      twoBitPoly (args 2 (158 * steps + rowBack cycle 0 (maskOf steps))) = 0 ∧
      twoBitPoly (args 2 (159 * steps + rowBack cycle 0 (maskOf steps))) = 0 ∧
      twoBitPoly (args 2 (160 * steps + rowBack cycle 0 (maskOf steps))) = 0 ∧
      twoBitPoly (args 2 (161 * steps + rowBack cycle 0 (maskOf steps))) = 0 := by
  unfold booleanity at h
  obtain ⟨h0, h⟩ := ite_some_none h
  obtain ⟨h1, h⟩ := ite_some_none h
  obtain ⟨h2, h⟩ := ite_some_none h
  obtain ⟨h3, h⟩ := ite_some_none h
  obtain ⟨h4, h⟩ := ite_some_none h
  obtain ⟨h5, h⟩ := ite_some_none h
  obtain ⟨h6, h⟩ := ite_some_none h
  obtain ⟨h7, h⟩ := ite_some_none h
  obtain ⟨h8, h⟩ := ite_some_none h
  obtain ⟨h9, h⟩ := ite_some_none h
  obtain ⟨h10, h⟩ := ite_some_none h
  obtain ⟨h11, h⟩ := ite_some_none h
  obtain ⟨h12, h⟩ := ite_some_none h
  exact ⟨not_not.1 h0, not_not.1 h1, not_not.1 h2, not_not.1 h3, not_not.1 h4, not_not.1 h5, not_not.1 h6, not_not.1 h7, not_not.1 h8, not_not.1 h9, not_not.1 h10, not_not.1 h11, not_not.1 h12⟩

/-- A branch that throws unless its condition holds ends without an
exception only when the condition holds. -/
theorem ite_none_some {c : Prop} [Decidable c] {e : EqzSite}
    (h : (if c then none else some e) = none) : c := by
  by_cases hc : c
  · exact hc
  · rw [if_neg hc] at h
    cases h

/-- A cell of a column below 149 is none of the cells of the columns from 149
on at row `cycle`. -/
theorem low_cell_ne (steps cycle r j col : Nat) (hr : r < steps) (hj : j < 149)
    (hcol : 149 ≤ col) : j * steps + r ≠ col * steps + cycle := by
  have h1 : 149 * steps ≤ col * steps := Nat.mul_le_mul_right steps hcol
  have h2 : (j + 1) * steps ≤ 149 * steps := Nat.mul_le_mul_right steps (by omega)
  rw [Nat.succ_mul] at h2
  generalize j * steps = a at h2 ⊢
  generalize col * steps = b at h1 ⊢
  omega

/-- C9: booleanity laws.  For `steps` a power of two, `cycle < steps` and an
open gate, when `step_verify` returns, column 149 of row `cycle` holds 0 or 1
and each of the columns 150..161 of row `cycle` holds one of 0, 1, 2, 3, be
the memory-active flag set or not. -/
theorem booleanity_laws (host : HostBridge) (k steps cycle : Nat) (args : Args) (v : Fp)
    (hsteps : steps = 2 ^ k) (hc : cycle < steps)
    (hg : gateSum steps cycle args ≠ 0)
    (hret : (step_verify host steps cycle args).outcome = .ok v) :
    ((step_verify host steps cycle args).args 2 (149 * steps + cycle) = 0 ∨
      (step_verify host steps cycle args).args 2 (149 * steps + cycle) = 1) ∧
    ∀ col, 150 ≤ col → col ≤ 161 →
      ((step_verify host steps cycle args).args 2 (col * steps + cycle) = 0 ∨
        (step_verify host steps cycle args).args 2 (col * steps + cycle) = 1 ∨
        (step_verify host steps cycle args).args 2 (col * steps + cycle) = 2 ∨
        (step_verify host steps cycle args).args 2 (col * steps + cycle) = 3) := by
  subst hsteps
  have hcur := rowBack_zero k cycle hc
  obtain ⟨hargs, _, hok, _⟩ := step_verify_open host (2 ^ k) cycle args hg
  obtain ⟨_, _, hb⟩ := (hok v).1 hret
  rw [← hargs] at hb
  have hz := booleanity_none _ _ _ hb
  rw [hcur] at hz
  obtain ⟨z149, z150, z151, z152, z153, z154, z155, z156, z157, z158, z159, z160, z161⟩ := hz
  refine ⟨oneBitPoly_eq_zero _ z149, ?_⟩
  intro col h1 h2
  interval_cases col
  · exact twoBitPoly_eq_zero _ z150
  · exact twoBitPoly_eq_zero _ z151
  · exact twoBitPoly_eq_zero _ z152
  · exact twoBitPoly_eq_zero _ z153
  · exact twoBitPoly_eq_zero _ z154
  · exact twoBitPoly_eq_zero _ z155
  · exact twoBitPoly_eq_zero _ z156
  · exact twoBitPoly_eq_zero _ z157
  · exact twoBitPoly_eq_zero _ z158
  · exact twoBitPoly_eq_zero _ z159
  · exact twoBitPoly_eq_zero _ z160
  · exact twoBitPoly_eq_zero _ z161

/-- With the gate open and the memory-active flag set, the cells of the
columns below 149 are after `step_verify` what the host call left there. -/
theorem step_verify_low_cells (host : HostBridge) (steps cycle : Nat) (args : Args)
    (hg : gateSum steps cycle args ≠ 0) (j r : Nat) (hj : j < 149) (hr : r < steps) :
    (step_verify host steps cycle args).args 2 (j * steps + r)
      = afterHost host steps cycle args 2 (j * steps + r) := by
  obtain ⟨hargs, _, _, _⟩ := step_verify_open host steps cycle args hg
  rw [hargs]
  unfold activePart
  split
  · apply memActiveBlock_other
    right
    intro col h1 _
    exact low_cell_ne steps cycle r j col hr hj h1
  · rfl

/-- An event whose cycle (or address) minus the preceding one minus one has a
representative below `2^24` comes strictly later (or higher), both values
being below `2^24`. -/
theorem delta_lt (a b : Fp) (ha : a.val < 16777216) (hb : b.val < 16777216)
    (h : (a - b - 1).val < 16777216) : b.val < a.val := by
  have e1 : (1 : Fp).val = 1 := rfl
  have hab := (a - b).val_lt
  rw [Fp.val_sub, e1] at h
  rw [Fp.val_sub] at h hab
  omega

/-- C7: memory ordering.  For `steps` a power of two with `steps >= 2`,
`cycle < steps`, an open gate and the memory-active flag set: if `step_verify`
returns and the address (column 144) and cycle (column 148) of row `cycle` and
of the preceding row `(cycle - 1) & (steps - 1)` are below `2^24`, then either
the addresses are equal and the cycle is greater than the preceding one, or
the address is greater than the preceding one. -/
theorem memory_order (host : HostBridge) (k steps cycle : Nat) (args : Args) (v : Fp)
    (hk : k < 64) (hsteps : steps = 2 ^ k) (h2 : 2 ≤ steps) (hc : cycle < steps)
    (hg : gateSum steps cycle args ≠ 0) (ha : memActiveFlag steps cycle args ≠ 0)
    (hret : (step_verify host steps cycle args).outcome = .ok v)
    (haddr : ((step_verify host steps cycle args).args 2
      (144 * steps + cycle)).val < 16777216)
    (haddrPrev : ((step_verify host steps cycle args).args 2
      (144 * steps + rowBack cycle 1 (maskOf steps))).val < 16777216)
    (hcyc : ((step_verify host steps cycle args).args 2
      (148 * steps + cycle)).val < 16777216)
    (hcycPrev : ((step_verify host steps cycle args).args 2
      (148 * steps + rowBack cycle 1 (maskOf steps))).val < 16777216) :
    ((step_verify host steps cycle args).args 2 (144 * steps + cycle)
        = (step_verify host steps cycle args).args 2
          (144 * steps + rowBack cycle 1 (maskOf steps)) ∧
      ((step_verify host steps cycle args).args 2
          (148 * steps + rowBack cycle 1 (maskOf steps))).val
        < ((step_verify host steps cycle args).args 2 (148 * steps + cycle)).val) ∨
    ((step_verify host steps cycle args).args 2
        (144 * steps + rowBack cycle 1 (maskOf steps))).val
      < ((step_verify host steps cycle args).args 2 (144 * steps + cycle)).val := by
  subst hsteps
  have hs : 1 ≤ 2 ^ k := by omega
  have hcur := rowBack_zero k cycle hc
  obtain ⟨hpne, hplt⟩ := rowBack_one_ne k cycle hk hc h2
  obtain ⟨_, _, hok, _⟩ := step_verify_open host (2 ^ k) cycle args hg
  obtain ⟨_, hnone, _⟩ := (hok v).1 hret
  have hact : activePart host (2 ^ k) cycle args
      = memActiveBlock (2 ^ k) cycle (afterHost host (2 ^ k) cycle args) := by
    unfold activePart
    rw [if_pos ha]
  rw [hact] at hnone
  rw [step_verify_low_cells host _ cycle args hg 144 cycle (by decide) hc] at haddr ⊢
  rw [step_verify_low_cells host _ cycle args hg 144 _ (by decide) hplt] at haddrPrev ⊢
  rw [step_verify_low_cells host _ cycle args hg 148 cycle (by decide) hc] at hcyc ⊢
  rw [step_verify_low_cells host _ cycle args hg 148 _ (by decide) hplt] at hcycPrev ⊢
  generalize afterHost host (2 ^ k) cycle args = A at *
  by_cases hsame : A 2 (144 * 2 ^ k + cycle)
      = A 2 (144 * 2 ^ k + rowBack cycle 1 (maskOf (2 ^ k)))
  · left
    refine ⟨hsame, ?_⟩
    rw [memActiveBlock_same _ _ _ hcur hsame] at hnone
    have e147 : ∀ r, r < 2 ^ k → (A.set 2 (149 * 2 ^ k + cycle) 1) 2 (148 * 2 ^ k + r)
        = A 2 (148 * 2 ^ k + r) := by
      intro r hr
      rw [Args.set_apply, if_neg (by omega)]
    cases hrc : readCheck (2 ^ k) cycle (A.set 2 (149 * 2 ^ k + cycle) 1) with
    | some e =>
      rw [sameAddrBranch_read _ _ _ _ e hrc] at hnone
      cases hnone
    | none =>
      rw [sameAddrBranch_limb _ _ _ _ hs hcur hrc] at hnone
      have hv := ite_none_some hnone
      rw [e147 cycle hc, e147 _ hplt] at hv
      exact delta_lt _ _ hcyc hcycPrev hv
  · right
    rw [memActiveBlock_diff _ _ _ hcur hsame, diffAddrBranch_eq _ _ _ _ _ hs hcur] at hnone
    have hv := ite_none_some hnone
    exact delta_lt _ _ haddr haddrPrev hv

/-- C8: read consistency.  For `steps` a power of two with `steps >= 2`,
`cycle < steps`, an open gate and the memory-active flag set: when `memCheck`
returns an event with the address of the preceding row (column 144), an
is-write value other than 1, and a value word that differs from column 145 or
146 of the preceding row, `step_verify` throws, at mem_check.cpp:43 when the
first word differs and at mem_check.cpp:44 otherwise. -/
theorem read_consistency (host : HostBridge) (k steps cycle : Nat) (args : Args)
    (hk : k < 64) (hsteps : steps = 2 ^ k) (h2 : 2 ≤ steps) (hc : cycle < steps)
    (hg : gateSum steps cycle args ≠ 0) (ha : memActiveFlag steps cycle args ≠ 0)
    (haddr : (host memCheckCall).getD 1 0
      = args 2 (144 * steps + rowBack cycle 1 (maskOf steps)))
    (hread : (host memCheckCall).getD 2 0 ≠ 1)
    (hval : (host memCheckCall).getD 3 0
        ≠ args 2 (145 * steps + rowBack cycle 1 (maskOf steps)) ∨
      (host memCheckCall).getD 4 0
        ≠ args 2 (146 * steps + rowBack cycle 1 (maskOf steps))) :
    (step_verify host steps cycle args).outcome
      = .error (if (host memCheckCall).getD 3 0
          ≠ args 2 (145 * steps + rowBack cycle 1 (maskOf steps))
        then .memCheckCpp43 else .memCheckCpp44) := by
  subst hsteps
  have hs : 1 ≤ 2 ^ k := by omega
  have hcur := rowBack_zero k cycle hc
  obtain ⟨hpne, hplt⟩ := rowBack_one_ne k cycle hk hc h2
  obtain ⟨_, _, _, herr⟩ := step_verify_open host (2 ^ k) cycle args hg
  apply (herr _).2
  left
  have hact : activePart host (2 ^ k) cycle args
      = memActiveBlock (2 ^ k) cycle (afterHost host (2 ^ k) cycle args) := by
    unfold activePart
    rw [if_pos ha]
  rw [hact]
  obtain ⟨_, c144, c147, c145, c146⟩ := afterHost_cur host (2 ^ k) cycle args hs
  have hp : ∀ j, 144 ≤ j → j ≤ 148 →
      afterHost host (2 ^ k) cycle args 2 (j * 2 ^ k + rowBack cycle 1 (maskOf (2 ^ k)))
        = args 2 (j * 2 ^ k + rowBack cycle 1 (maskOf (2 ^ k))) := by
    intro j hj1 hj2
    apply afterHost_other
    right
    intro col h1 h2
    generalize rowBack cycle 1 (maskOf (2 ^ k)) = prev at hpne hplt ⊢
    generalize 2 ^ k = s at hc hplt hs ⊢
    interval_cases j <;> interval_cases col <;> omega
  have p144 := hp 144 (by decide) (by decide)
  have p145 := hp 145 (by decide) (by decide)
  have p146 := hp 146 (by decide) (by decide)
  generalize afterHost host (2 ^ k) cycle args = A at *
  have hsame : A 2 (144 * 2 ^ k + cycle)
      = A 2 (144 * 2 ^ k + rowBack cycle 1 (maskOf (2 ^ k))) := by
    rw [c144, p144, haddr]
  rw [memActiveBlock_same _ _ _ hcur hsame]
  have hset : ∀ j r, j < 149 → r < 2 ^ k →
      (A.set 2 (149 * 2 ^ k + cycle) 1) 2 (j * 2 ^ k + r) = A 2 (j * 2 ^ k + r) := by
    intro j r hj hr
    rw [Args.set_apply, if_neg (fun hh => low_cell_ne _ cycle r j 149 hr hj (by decide) hh.2)]
  have hrc : readCheck (2 ^ k) cycle (A.set 2 (149 * 2 ^ k + cycle) 1)
      = some (if (host memCheckCall).getD 3 0
          ≠ args 2 (145 * 2 ^ k + rowBack cycle 1 (maskOf (2 ^ k)))
        then .memCheckCpp43 else .memCheckCpp44) := by
    rw [readCheck_eq _ _ _ hcur, hset 147 cycle (by decide) hc, hset 145 cycle (by decide) hc,
      hset 145 _ (by decide) hplt, hset 146 cycle (by decide) hc, hset 146 _ (by decide) hplt,
      c147, c145, c146, p145, p146, if_neg hread]
    by_cases h3 : (host memCheckCall).getD 3 0
        = args 2 (145 * 2 ^ k + rowBack cycle 1 (maskOf (2 ^ k)))
    · have h4 : (host memCheckCall).getD 4 0
          ≠ args 2 (146 * 2 ^ k + rowBack cycle 1 (maskOf (2 ^ k))) := by
        rcases hval with h | h
        · exact absurd h3 h
        · exact h
      rw [if_neg (not_not.2 h3), if_pos h4, if_neg (not_not.2 h3)]
    · rw [if_pos h3, if_pos h3]
  rw [sameAddrBranch_read _ _ _ _ _ hrc]

/-- A witness of `booleanity_laws`: the example trace with the write event. -/
theorem booleanity_laws_witness :
    (step_verify exampleWrite 2 1 exampleTrace).args 2 (149 * 2 + 1) = 0 ∨
      (step_verify exampleWrite 2 1 exampleTrace).args 2 (149 * 2 + 1) = 1 :=
  (booleanity_laws exampleWrite 1 2 1 exampleTrace 1 (by decide) (by decide) (by decide)
    (by decide)).1

/-- A witness of `memory_order`: the example trace with the write event; the
address 5 is that of row 0 and the cycle 20 comes after the cycle 10. -/
theorem memory_order_witness :
    ((step_verify exampleWrite 2 1 exampleTrace).args 2 (144 * 2 + 1)
        = (step_verify exampleWrite 2 1 exampleTrace).args 2
          (144 * 2 + rowBack 1 1 (maskOf 2)) ∧
      ((step_verify exampleWrite 2 1 exampleTrace).args 2
          (148 * 2 + rowBack 1 1 (maskOf 2))).val
        < ((step_verify exampleWrite 2 1 exampleTrace).args 2 (148 * 2 + 1)).val) ∨
    ((step_verify exampleWrite 2 1 exampleTrace).args 2
        (144 * 2 + rowBack 1 1 (maskOf 2))).val
      < ((step_verify exampleWrite 2 1 exampleTrace).args 2 (144 * 2 + 1)).val :=
  memory_order exampleWrite 1 2 1 exampleTrace 1 (by decide) (by decide) (by decide)
    (by decide) (by decide) (by decide) (by decide) (by decide) (by decide) (by decide)
    (by decide)

/-- A witness of `read_consistency`: the example trace with the read event,
whose first value word 8 is not the 7 of row 0. -/
theorem read_consistency_witness :
    (step_verify exampleBadRead 2 1 exampleTrace).outcome = .error .memCheckCpp43 :=
  read_consistency exampleBadRead 1 2 1 exampleTrace (by decide) (by decide) (by decide)
    (by decide) (by decide) (by decide) (by decide) (by decide) (Or.inl (by decide))

/-! ## CheckedStreamReader: properties -/

/-- The value `b1 | b2 << 8 | b3 << 16 | b4 << 24` of four bytes. -/
theorem or_bytes_val (b1 b2 b3 b4 : Nat) (h1 : b1 < 256) (h2 : b2 < 256) (h3 : b3 < 256)
    (h4 : b4 < 256) :
    (((b1 ||| (b2 <<< 8)) ||| (b3 <<< 16)) ||| (b4 <<< 24)) % 4294967296
      = b1 + 256 * b2 + 65536 * b3 + 16777216 * b4 := by
  have e1 : b1 ||| (b2 <<< 8) = b1 + b2 * 2 ^ 8 := or_shiftLeft_eq_add _ _ _ (by omega)
  have e2 : (b1 + b2 * 2 ^ 8) ||| (b3 <<< 16) = b1 + b2 * 2 ^ 8 + b3 * 2 ^ 16 :=
    or_shiftLeft_eq_add _ _ _ (by omega)
  have e3 : (b1 + b2 * 2 ^ 8 + b3 * 2 ^ 16) ||| (b4 <<< 24)
      = b1 + b2 * 2 ^ 8 + b3 * 2 ^ 16 + b4 * 2 ^ 24 :=
    or_shiftLeft_eq_add _ _ _ (by omega)
  rw [e1, e2, e3]
  omega

/-- A `read_word` with fewer than four bytes left throws and keeps the cursor. -/
theorem read_word_err (r : CheckedStreamReader) (h : ¬ r.cursor + 4 ≤ r.buffer.length) :
    r.read_word = (r, .error .outOfRange) := by
  unfold CheckedStreamReader.read_word
  rw [if_pos (by omega)]

/-- A `read_word` with four bytes left returns their little-endian value and
advances the cursor by four. -/
theorem read_word_ok (r : CheckedStreamReader) (h : r.cursor + 4 ≤ r.buffer.length) :
    ∃ w : Word, r.read_word = (⟨r.buffer, r.cursor + 4⟩, .ok w) ∧
      w.val = (r.buffer.getD r.cursor 0).val + 2 ^ 8 * (r.buffer.getD (r.cursor + 1) 0).val
        + 2 ^ 16 * (r.buffer.getD (r.cursor + 2) 0).val
        + 2 ^ 24 * (r.buffer.getD (r.cursor + 3) 0).val := by
  unfold CheckedStreamReader.read_word
  rw [if_neg (by omega)]
  refine ⟨_, rfl, ?_⟩
  exact or_bytes_val _ _ _ _ (Fin.isLt _) (Fin.isLt _) (Fin.isLt _) (Fin.isLt _)

/-- C11: `read_word` with cursor `c` on buffer `B`.  If `c + 4 <= |B|` it
returns `B[c] + 2^8 B[c+1] + 2^16 B[c+2] + 2^24 B[c+3]` and moves the cursor
to `c + 4`; otherwise, as at `c = |B| - 3`, it throws out-of-range and the
cursor stays at `c`. -/
theorem read_word_spec (r : CheckedStreamReader) :
    (r.cursor + 4 ≤ r.buffer.length →
      ∃ w : Word, r.read_word = (⟨r.buffer, r.cursor + 4⟩, .ok w) ∧
        w.val = (r.buffer.getD r.cursor 0).val + 2 ^ 8 * (r.buffer.getD (r.cursor + 1) 0).val
          + 2 ^ 16 * (r.buffer.getD (r.cursor + 2) 0).val
          + 2 ^ 24 * (r.buffer.getD (r.cursor + 3) 0).val) ∧
    (¬ r.cursor + 4 ≤ r.buffer.length → r.read_word = (r, .error .outOfRange)) ∧
    (r.cursor + 3 = r.buffer.length → r.read_word = (r, .error .outOfRange)) :=
  ⟨read_word_ok r, read_word_err r, fun h => read_word_err r (by omega)⟩

/-- A witness of `read_word_spec`: on seven bytes the word at cursor 0 is read
and the read at cursor 4, three bytes before the end, throws. -/
theorem read_word_spec_witness :
    (∃ w : Word, (CheckedStreamReader.mk [1, 2, 3, 4, 5, 6, 7] 0).read_word
        = (⟨[1, 2, 3, 4, 5, 6, 7], 0 + 4⟩, .ok w) ∧
      w.val = ((([1, 2, 3, 4, 5, 6, 7] : List Byte).getD 0 0).val
        + 2 ^ 8 * (([1, 2, 3, 4, 5, 6, 7] : List Byte).getD (0 + 1) 0).val
        + 2 ^ 16 * (([1, 2, 3, 4, 5, 6, 7] : List Byte).getD (0 + 2) 0).val
        + 2 ^ 24 * (([1, 2, 3, 4, 5, 6, 7] : List Byte).getD (0 + 3) 0).val)) ∧
    (CheckedStreamReader.mk [1, 2, 3, 4, 5, 6, 7] 4).read_word
      = (⟨[1, 2, 3, 4, 5, 6, 7], 4⟩, .error .outOfRange) :=
  ⟨(read_word_spec ⟨[1, 2, 3, 4, 5, 6, 7], 0⟩).1 (by decide),
    (read_word_spec ⟨[1, 2, 3, 4, 5, 6, 7], 4⟩).2.2 (by decide)⟩

/-- The loop of `writeInput` on a stream is the stream followed by what the
loop appends to the empty stream. -/
theorem writeInputLoop_append : ∀ (bytes : List Byte) (stream : List Word),
    writeInputLoop stream bytes = stream ++ writeInputLoop [] bytes
  | b0 :: b1 :: b2 :: b3 :: rest, stream => by
      rw [writeInputLoop, writeInputLoop, writeInputLoop_append rest (stream ++ _),
        writeInputLoop_append rest ([] ++ _)]
      simp
  | [], stream => by simp [writeInputLoop]
  | [b0], stream => by simp [writeInputLoop]
  | [b0, b1], stream => by simp [writeInputLoop]
  | [b0, b1, b2], stream => by simp [writeInputLoop]

/-- Reading `n` words from a buffer position followed by `4n` bytes gives the
words that `writeInput` packs from these bytes. -/
theorem read_words_append : ∀ (n : Nat) (pre b : List Byte), b.length = 4 * n →
    CheckedStreamReader.read_words n ⟨pre ++ b, pre.length⟩
      = (⟨pre ++ b, pre.length + 4 * n⟩, .ok (writeInputLoop [] b))
  | 0, pre, b, h => by
      have hb : b = [] := List.length_eq_zero.1 (by omega)
      subst hb
      simp [CheckedStreamReader.read_words, writeInputLoop]
  | n + 1, pre, b, h => by
      match b, h with
      | b0 :: b1 :: b2 :: b3 :: rest, h =>
        have hrest : rest.length = 4 * n := by
          simp only [List.length_cons] at h
          omega
        have ih := read_words_append n (pre ++ [b0, b1, b2, b3]) rest hrest
        have e1 : pre ++ [b0, b1, b2, b3] ++ rest = pre ++ b0 :: b1 :: b2 :: b3 :: rest := by
          simp
        have e2 : (pre ++ [b0, b1, b2, b3]).length = pre.length + 4 := by simp
        rw [e1, e2] at ih
        have hw : (CheckedStreamReader.mk (pre ++ b0 :: b1 :: b2 :: b3 :: rest)
              pre.length).read_word
            = (⟨pre ++ b0 :: b1 :: b2 :: b3 :: rest, pre.length + 4⟩,
              .ok (orShift (orShift (orShift (orShift 0 b0 0) b1 8) b2 16) b3 24)) := by
          obtain ⟨w, hw1, hw2⟩ := read_word_ok
            ⟨pre ++ b0 :: b1 :: b2 :: b3 :: rest, pre.length⟩ (by simp)
          rw [hw1]
          have hv : w = orShift (orShift (orShift (orShift 0 b0 0) b1 8) b2 16) b3 24 := by
            apply Fin.ext
            rw [hw2, word4_val]
            simp only [List.getD_eq_getElem?_getD]
            rw [List.getElem?_append_right (by omega), List.getElem?_append_right (by omega),
              List.getElem?_append_right (by omega), List.getElem?_append_right (by omega)]
            simp
          rw [hv]
        rw [CheckedStreamReader.read_words, hw]
        simp only
        rw [ih, writeInputLoop, writeInputLoop_append rest ([] ++ _)]
        have e3 : pre.length + 4 + 4 * n = pre.length + 4 * (n + 1) := by omega
        rw [e3]
        simp

/-- C12: word-stream round trip.  For a buffer `b` of `4n` bytes, `n`
successive calls of `read_word` on `CheckedStreamReader(b)` succeed and return
the `n` words that `Prover::writeInput(b, 4n)` appends to the input stream;
the cursor is then `4n` and one more `read_word` throws out-of-range. -/
theorem read_word_inverts_writeInput (p : Prover) (b : List Byte) (n : Nat)
    (hlen : b.length = 4 * n) :
    (CheckedStreamReader.new b).read_words n
      = (⟨b, 4 * n⟩, .ok ((p.writeInput b).inputStream.drop p.inputStream.length)) ∧
    ((p.writeInput b).inputStream.drop p.inputStream.length).length = n ∧
    (CheckedStreamReader.mk b (4 * n)).read_word = (⟨b, 4 * n⟩, .error .outOfRange) := by
  have hw : (p.writeInput b).inputStream = p.inputStream ++ writeInputLoop [] b :=
    writeInputLoop_append b p.inputStream
  have hdrop : (p.writeInput b).inputStream.drop p.inputStream.length
      = writeInputLoop [] b := by
    rw [hw]
    simp
  rw [hdrop]
  refine ⟨?_, ?_, ?_⟩
  · have h := read_words_append n [] b hlen
    simpa [CheckedStreamReader.new] using h
  · obtain ⟨app, h1, h2, _⟩ := writeInputLoop_spec b []
    rw [h1, List.nil_append, h2, hlen]
    omega
  · exact read_word_err ⟨b, 4 * n⟩ (by simp only; omega)

/-- A witness of `read_word_inverts_writeInput`: eight bytes, two words. -/
theorem read_word_inverts_writeInput_witness :
    (CheckedStreamReader.new [1, 2, 3, 4, 5, 6, 7, 8]).read_words 2
      = (⟨[1, 2, 3, 4, 5, 6, 7, 8], 4 * 2⟩,
        .ok (((Prover.new [] ⟨[]⟩).writeInput [1, 2, 3, 4, 5, 6, 7, 8]).inputStream.drop
          (Prover.new [] ⟨[]⟩).inputStream.length)) :=
  (read_word_inverts_writeInput (Prover.new [] ⟨[]⟩) [1, 2, 3, 4, 5, 6, 7, 8] 2
    (by decide)).1

/-- C13 fails on the code: `read_buffer` copies from the start of the buffer,
not from the cursor.  On the buffer 1..8 with the cursor at 4, a read of four
bytes returns 1,2,3,4 where the bytes at the cursor are 5,6,7,8. -/
theorem read_buffer_ignores_cursor :
    (CheckedStreamReader.mk [1, 2, 3, 4, 5, 6, 7, 8] 4).read_buffer 4
      = (⟨[1, 2, 3, 4, 5, 6, 7, 8], 8⟩, .ok [1, 2, 3, 4]) ∧
    ([1, 2, 3, 4] : List Byte) ≠ (([1, 2, 3, 4, 5, 6, 7, 8] : List Byte).drop 4).take 4 := by
  decide

/-- Whatever the cursor, a `read_buffer` that returns has copied the first
`len` bytes of the buffer. -/
theorem read_buffer_copies_buffer_start (r r2 : CheckedStreamReader) (len : Nat)
    (dst : List Byte) (h : r.read_buffer len = (r2, .ok dst)) :
    dst = r.buffer.take len := by
  unfold CheckedStreamReader.read_buffer at h
  dsimp only at h
  split at h
  · cases h
  · cases h
    rfl

/-- The helper `align` gives the least multiple of 4 at or above its argument. -/
theorem align_spec (n : Nat) : n ≤ align n ∧ align n < n + 4 ∧ align n % 4 = 0 := by
  unfold align
  omega

/-- While `cursor + len + 3` is below `2^64`, neither the sum nor `align`
wraps around on `size_t`. -/
theorem read_buffer_end_cursor (c len : Nat) (h : c + len + 3 < 2 ^ 64) :
    align ((c + len) % 18446744073709551616) % 18446744073709551616 = align (c + len) := by
  have h1 : (c + len) % 18446744073709551616 = c + len := by
    apply Nat.mod_eq_of_lt
    simp only [Nat.reducePow] at h
    omega
  have h2 := (align_spec (c + len)).2.1
  rw [h1]
  apply Nat.mod_eq_of_lt
  simp only [Nat.reducePow] at h
  omega

/-- C14: `read_buffer(dst, len)` with cursor `c`, for `size_t` values whose
sum does not wrap around (`c + len + 3 < 2^64`, as for every `len` that is
the size of an object at `dst`), succeeds exactly when `align(c + len)`, the
next multiple of 4 at or above `c + len`, is at most `|B|`, and then sets the
cursor to it; otherwise it throws out-of-range and the cursor stays.  A read
whose data bytes are all present still throws when the padding up to the
multiple of 4 is missing. -/
theorem read_buffer_bounds (r : CheckedStreamReader) (len : Nat)
    (hsize : r.cursor + len + 3 < 2 ^ 64) :
    (align (r.cursor + len) ≤ r.buffer.length →
      ∃ dst, r.read_buffer len = (⟨r.buffer, align (r.cursor + len)⟩, .ok dst)) ∧
    (¬ align (r.cursor + len) ≤ r.buffer.length →
      r.read_buffer len = (r, .error .outOfRange)) ∧
    (r.cursor + len ≤ align (r.cursor + len) ∧ align (r.cursor + len) < r.cursor + len + 4 ∧
      align (r.cursor + len) % 4 = 0) ∧
    (r.cursor + len ≤ r.buffer.length → r.buffer.length < align (r.cursor + len) →
      r.read_buffer len = (r, .error .outOfRange)) := by
  have herr : ¬ align (r.cursor + len) ≤ r.buffer.length →
      r.read_buffer len = (r, .error .outOfRange) := by
    intro h
    unfold CheckedStreamReader.read_buffer
    dsimp only
    rw [read_buffer_end_cursor _ _ hsize, if_pos (by omega)]
  refine ⟨?_, herr, align_spec _, ?_⟩
  · intro h
    unfold CheckedStreamReader.read_buffer
    dsimp only
    rw [read_buffer_end_cursor _ _ hsize, if_neg (by omega)]
    exact ⟨_, rfl⟩
  · intro _ h2
    exact herr (by omega)

/-- A witness of `read_buffer_bounds`: on six bytes a read of five bytes at the
cursor 0 throws (the padding to 8 is missing), a read of four returns. -/
theorem read_buffer_bounds_witness :
    (∃ dst, (CheckedStreamReader.mk [1, 2, 3, 4, 5, 6] 0).read_buffer 4
      = (⟨[1, 2, 3, 4, 5, 6], align (0 + 4)⟩, .ok dst)) ∧
    (CheckedStreamReader.mk [1, 2, 3, 4, 5, 6] 0).read_buffer 5
      = (⟨[1, 2, 3, 4, 5, 6], 0⟩, .error .outOfRange) :=
  ⟨(read_buffer_bounds ⟨[1, 2, 3, 4, 5, 6], 0⟩ 4 (by decide)).1 (by decide),
    (read_buffer_bounds ⟨[1, 2, 3, 4, 5, 6], 0⟩ 5 (by decide)).2.2.2 (by decide) (by decide)⟩

/-! ## Prover::Impl::onInit: properties -/

/-- The loop of `onInit` returns, with word `i` stored at `addr + 4 i`, as long
as the last address it reaches is at most `kMemInputEnd`. -/
theorem onInitLoop_some : ∀ (ws : List Word) (addr : Nat),
    addr + 4 * ws.length ≤ kMemInputEnd + 4 →
    ∃ stores, onInitLoop addr ws = some stores ∧ stores.length = ws.length ∧
      ∀ i, i < ws.length → stores.getD i (0, 0) = (addr + 4 * i, ws.getD i 0)
  | [], addr, _ => ⟨[], rfl, rfl, fun i hi => absurd hi (Nat.not_lt_zero i)⟩
  | w :: rest, addr, h => by
      have hend : kMemInputEnd = 32505856 := by decide
      simp only [List.length_cons] at h
      obtain ⟨st, h1, h2, h3⟩ := onInitLoop_some rest (addr + 4) (by omega)
      refine ⟨(addr, w) :: st, ?_, by simp [h2], ?_⟩
      · rw [onInitLoop, if_neg (by omega), if_pos (by omega), h1]
        rfl
      · intro i hi
        cases i with
        | zero => simp
        | succ j =>
          simp only [List.length_cons] at hi
          simp only [List.getD_cons_succ]
          rw [h3 j (by omega)]
          congr 1
          omega

/-- The loop of `onInit` throws once the stream reaches past `kMemInputEnd`. -/
theorem onInitLoop_none : ∀ (ws : List Word) (addr : Nat), addr ≤ kMemInputEnd + 4 →
    kMemInputEnd + 4 < addr + 4 * ws.length → onInitLoop addr ws = none
  | [], addr, h1, h2 => by
      simp only [List.length_nil] at h2
      omega
  | w :: rest, addr, h1, h2 => by
      have hend : kMemInputEnd = 32505856 := by decide
      simp only [List.length_cons] at h2
      by_cases hgt : addr > kMemInputEnd
      · rw [onInitLoop, if_pos hgt]
      · rw [onInitLoop, if_neg hgt, if_pos (by omega),
          onInitLoop_none rest (addr + 4) (by omega) (by omega)]
        rfl

/-- The handler `onInit` throws exactly for streams of more than 262145
words, one word more than the Input region holds. -/
theorem onInit_none_iff (p : Prover) : p.onInit = none ↔ 262145 < p.inputStream.length := by
  have hstart : kMemInputStart = 31457280 := by decide
  have hend : kMemInputEnd = 32505856 := by decide
  unfold Prover.onInit
  constructor
  · intro h
    by_contra hle
    obtain ⟨st, h1, _, _⟩ := onInitLoop_some p.inputStream kMemInputStart (by omega)
    rw [h1] at h
    cases h
  · intro h
    exact onInitLoop_none _ _ (by omega) (by omega)

/-- C15 fails on the code: a staged stream of 262145 words, one more than
the Input region holds, is accepted by `onInit`, and its last word is stored
at `kMemInputEnd`, the first address after the region. -/
theorem onInit_accepts_one_word_too_many :
    kMemInputLen / 4 = 262144 ∧
    ∃ stores, Prover.onInit ⟨[], ⟨[]⟩, [], [], List.replicate 262145 0⟩ = some stores ∧
      stores.getD 262144 (0, 0) = (kMemInputEnd, 0) := by
  refine ⟨by decide, ?_⟩
  have hstart : kMemInputStart = 31457280 := by decide
  have hend : kMemInputEnd = 32505856 := by decide
  obtain ⟨st, h1, _, h3⟩ := onInitLoop_some (List.replicate 262145 (0 : Word)) kMemInputStart
    (by rw [List.length_replicate]; omega)
  refine ⟨st, h1, ?_⟩
  rw [h3 262144 (by rw [List.length_replicate]; omega)]
  rw [List.getD_eq_getElem?_getD, List.getElem?_replicate]
  simp only [hstart, hend]
  rfl

/-! ## MethodId: properties -/

/-- A buffer of `n` words has `4n` bytes. -/
theorem bufferBytes_length : ∀ ws : List Word, (bufferBytes ws).length = 4 * ws.length
  | [] => rfl
  | w :: ws => by
      have ih := bufferBytes_length ws
      simp only [bufferBytes, List.flatMap_cons, List.length_append, List.length_cons] at ih ⊢
      rw [ih]
      simp only [wordBytes, List.length_cons, List.length_nil]
      omega

/-- A digest has 32 bytes. -/
theorem ShaDigest.bytes_length (d : ShaDigest) : d.bytes.length = 32 := by
  unfold ShaDigest.bytes
  rw [bufferBytes_length, d.size_eq]

/-- The raw bytes of `fromDigest` have 32 bytes per digest. -/
theorem fromDigest_length : ∀ ds : MethodDigest,
    (MethodId.fromDigest ds).methodId.length = ds.length * 32
  | [] => rfl
  | d :: ds => by
      have ih := fromDigest_length ds
      simp only [MethodId.fromDigest, List.flatMap_cons, List.length_append,
        List.length_cons] at ih ⊢
      rw [ih, ShaDigest.bytes_length]
      omega

/-- The array `digest` of `fromElf` has `kCodeDigestCount` entries. -/
theorem levelDigests_length (K : CodeConstants) (codeRoot : CodeRoot) (startAddr : Word)
    (image : MemImage) : (levelDigests K codeRoot startAddr image).length = K.kCodeDigestCount := by
  simp [levelDigests]

/-- A byte count other than `kCodeDigestCount * 32` is refused. -/
theorem fromIdBytes_bad (kCodeDigestCount : Nat) (bytes : List Byte)
    (h : bytes.length ≠ kCodeDigestCount * 32) :
    MethodId.fromIdBytes kCodeDigestCount bytes = .error .badNumberOfBytes := by
  unfold MethodId.fromIdBytes
  rw [if_pos h]

/-- With `kCodeDigestCount * 32` bytes the method id of these bytes is returned. -/
theorem fromIdBytes_ok (kCodeDigestCount : Nat) (bytes : List Byte)
    (h : bytes.length = kCodeDigestCount * 32) :
    MethodId.fromIdBytes kCodeDigestCount bytes = .ok ⟨bytes⟩ := by
  unfold MethodId.fromIdBytes
  rw [if_neg (not_not.2 h), ← h, List.take_length]

/-- C17: `MethodId::fromIdBytes(bytes, len)` throws exactly when `len` is not
`kCodeDigestCount * 32`, and for that length it returns the method id whose
bytes are the input bytes. -/
theorem fromIdBytes_length_check (kCodeDigestCount : Nat) (bytes : List Byte) :
    ((∃ e, MethodId.fromIdBytes kCodeDigestCount bytes = .error e) ↔
      bytes.length ≠ kCodeDigestCount * 32) ∧
    (bytes.length ≠ kCodeDigestCount * 32 →
      MethodId.fromIdBytes kCodeDigestCount bytes = .error .badNumberOfBytes) ∧
    (bytes.length = kCodeDigestCount * 32 →
      MethodId.fromIdBytes kCodeDigestCount bytes = .ok ⟨bytes⟩) := by
  refine ⟨⟨?_, fun h => ⟨_, fromIdBytes_bad _ _ h⟩⟩, fromIdBytes_bad _ _, fromIdBytes_ok _ _⟩
  rintro ⟨e, he⟩ heq
  rw [fromIdBytes_ok _ _ heq] at he
  cases he

/-- A witness of `fromIdBytes_length_check`: with one digest, 32 bytes are
accepted and 31 bytes are refused. -/
theorem fromIdBytes_length_check_witness :
    MethodId.fromIdBytes 1 (List.replicate 32 7) = .ok ⟨List.replicate 32 7⟩ ∧
    MethodId.fromIdBytes 1 (List.replicate 31 7) = .error .badNumberOfBytes :=
  ⟨(fromIdBytes_length_check 1 (List.replicate 32 7)).2.2 (by decide),
    (fromIdBytes_length_check 1 (List.replicate 31 7)).2.1 (by decide)⟩

/-- C16: method-id byte round trip.  `fromIdBytes` on the raw bytes of a
method id (of `kCodeDigestCount * 32` bytes) returns that method id, and
`fromIdBytes(methodIdBytesFromElf(E))` is `fromElf(E)` whenever `fromElf`
returns. -/
theorem methodId_bytes_roundtrip (K : CodeConstants) (loadElf : LoadElf)
    (codeRoot : CodeRoot) :
    (∀ id : MethodId, id.methodId.length = K.kCodeDigestCount * 32 →
      MethodId.fromIdBytes K.kCodeDigestCount id.methodId = .ok id) ∧
    (∀ (E : List Byte) (id : MethodId), MethodId.fromElf K loadElf codeRoot E = .ok id →
      methodIdBytesFromElf K loadElf codeRoot E = .ok id.methodId ∧
      MethodId.fromIdBytes K.kCodeDigestCount id.methodId = .ok id) := by
  have h1 : ∀ id : MethodId, id.methodId.length = K.kCodeDigestCount * 32 →
      MethodId.fromIdBytes K.kCodeDigestCount id.methodId = .ok id :=
    fun id hid => fromIdBytes_ok K.kCodeDigestCount id.methodId hid
  refine ⟨h1, ?_⟩
  intro E id hE
  refine ⟨?_, ?_⟩
  · unfold methodIdBytesFromElf
    rw [hE]
  · apply h1
    unfold MethodId.fromElf at hE
    split at hE
    · cases hE
    · cases hE
      rw [fromDigest_length, levelDigests_length]

/-- A witness of `methodId_bytes_roundtrip`: one digest of 32 bytes `7`. -/
theorem methodId_bytes_roundtrip_witness :
    MethodId.fromIdBytes 1 (List.replicate 32 7) = .ok ⟨List.replicate 32 7⟩ :=
  (methodId_bytes_roundtrip ⟨1, 0, 1⟩ (fun _ _ => .error "") (fun _ _ _ => ShaDigest.zero)).1
    ⟨List.replicate 32 7⟩ (by decide)

/-- The word of the four bytes of a word is that word. -/
theorem bytesToWords_wordBytes (w : Word) (rest : List Byte) :
    bytesToWords (wordBytes w ++ rest) = w :: bytesToWords rest := by
  have hw := w.isLt
  simp only [wordBytes, List.cons_append, List.nil_append, bytesToWords, List.cons.injEq]
  refine ⟨?_, rfl⟩
  apply Fin.ext
  simp only [bytesToWord]
  omega

/-- The words of the bytes of a word buffer are that buffer. -/
theorem bytesToWords_bufferBytes : ∀ (ws : List Word) (rest : List Byte),
    bytesToWords (bufferBytes ws ++ rest) = ws ++ bytesToWords rest
  | [], rest => rfl
  | w :: ws, rest => by
      have ih := bytesToWords_bufferBytes ws rest
      simp only [bufferBytes, List.flatMap_cons, List.append_assoc] at ih ⊢
      rw [bytesToWords_wordBytes, ih]
      rfl

/-- The digests of the words of a digest followed by more words. -/
theorem wordsToDigests_words (d : ShaDigest) (rest : List Word) :
    wordsToDigests (d.words ++ rest) = d :: wordsToDigests rest := by
  rcases d with ⟨ws, hws⟩
  rcases ws with _ | ⟨w0, _ | ⟨w1, _ | ⟨w2, _ | ⟨w3, _ | ⟨w4, _ | ⟨w5, _ | ⟨w6, _ | ⟨w7, ws⟩⟩⟩⟩⟩⟩⟩⟩ <;>
    simp only [List.length_cons, List.length_nil] at hws <;> try omega
  have hnil : ws = [] := List.length_eq_zero.1 (by omega)
  subst hnil
  rfl

/-- The function `asDigest` gives back the digests that `fromDigest` stored. -/
theorem asDigest_fromDigest : ∀ ds : MethodDigest, (MethodId.fromDigest ds).asDigest = ds
  | [] => rfl
  | d :: ds => by
      have ih := asDigest_fromDigest ds
      simp only [MethodId.asDigest, MethodId.fromDigest, List.flatMap_cons] at ih ⊢
      rw [ShaDigest.bytes, bytesToWords_bufferBytes, wordsToDigests_words, ih]

/-- Entry `i` of the array `digest` of `fromElf`. -/
theorem levelDigests_getD (K : CodeConstants) (codeRoot : CodeRoot) (startAddr : Word)
    (image : MemImage) (i : Nat) (hi : i < K.kCodeDigestCount) :
    (levelDigests K codeRoot startAddr image).getD i ShaDigest.zero
      = levelDigest K codeRoot startAddr image i := by
  unfold levelDigests
  rw [List.getD_eq_getElem?_getD, List.getElem?_map, List.getElem?_range hi]
  rfl

/-- C18: the level rule of `MethodId::fromElf`.  When the loader returns
`(startAddr, image)`, `fromElf` returns a method id whose digest `i`, for every
level `i < kCodeDigestCount` with `cycles = kMinCycles * 2^i`, is
`ShaDigest::zero()` when `cycles < image.size + 3 + kZkCycles` and the root of
the code group built for `cycles` otherwise (equality included); two ELFs that
load to the same start address and image have the same method id. -/
theorem fromElf_level_rule (K : CodeConstants) (loadElf : LoadElf) (codeRoot : CodeRoot)
    (E : List Byte) (startAddr : Word) (image : MemImage)
    (hload : loadElf E kMemSize = .ok (startAddr, image)) :
    ∃ id : MethodId, MethodId.fromElf K loadElf codeRoot E = .ok id ∧
      id.asDigest.length = K.kCodeDigestCount ∧
      (∀ i, i < K.kCodeDigestCount →
        (K.kMinCycles * 2 ^ i < image.length + 3 + K.kZkCycles →
          id.asDigest.getD i ShaDigest.zero = ShaDigest.zero) ∧
        (image.length + 3 + K.kZkCycles ≤ K.kMinCycles * 2 ^ i →
          id.asDigest.getD i ShaDigest.zero
            = codeRoot (K.kMinCycles * 2 ^ i) startAddr image)) ∧
      (∀ E2 : List Byte, loadElf E2 kMemSize = loadElf E kMemSize →
        MethodId.fromElf K loadElf codeRoot E2 = .ok id) := by
  have hE : ∀ E2 : List Byte, loadElf E2 kMemSize = loadElf E kMemSize →
      MethodId.fromElf K loadElf codeRoot E2
        = .ok (MethodId.fromDigest (levelDigests K codeRoot startAddr image)) := by
    intro E2 h2
    unfold MethodId.fromElf
    rw [h2, hload]
  refine ⟨_, hE E rfl, ?_, ?_, hE⟩
  · rw [asDigest_fromDigest, levelDigests_length]
  · intro i hi
    rw [asDigest_fromDigest, levelDigests_getD K codeRoot startAddr image i hi]
    unfold levelDigest
    simp only [Nat.shiftLeft_eq, Nat.one_mul]
    constructor
    · intro h
      rw [if_pos h]
    · intro h
      rw [if_neg (by omega)]

/-- A witness of `fromElf_level_rule`: a loader that returns an image of one
word, `kMinCycles = 4`, `kZkCycles = 2` and two levels; level 0 has 4 cycles,
fewer than 1 + 3 + 2. -/
theorem fromElf_level_rule_witness :
    ∃ id : MethodId,
      MethodId.fromElf ⟨4, 2, 2⟩ (fun _ _ => .ok (0, [(0, 0)])) (fun _ _ _ => ShaDigest.zero) []
        = .ok id ∧ id.asDigest.length = 2 :=
  (fromElf_level_rule ⟨4, 2, 2⟩ (fun _ _ => .ok (0, [(0, 0)])) (fun _ _ _ => ShaDigest.zero)
    [] 0 [(0, 0)] rfl).imp (fun _ h => ⟨h.1, h.2.1⟩)

/-! ## The memory map: properties -/

/-- C19: the memory map is a partition.  `kMemSize` is `0x04000000`; the
regions Stack, Data, Heap, Input, GPIO, Prog, SHA, WOM start at 0, each ends
where the next starts, and the last ends at `kMemSize`, so every address below
`kMemSize` lies in one of them and no address lies in two; Output followed by
Commit covers WOM. -/
theorem memory_map_partition :
    kMemSize = 0x04000000 ∧
    kMemStackStart = 0 ∧ kMemStackEnd = kMemDataStart ∧ kMemDataEnd = kMemHeapStart ∧
    kMemHeapEnd = kMemInputStart ∧ kMemInputEnd = kMemGPIOStart ∧
    kMemGPIOEnd = kMemProgStart ∧ kMemProgEnd = kMemSHAStart ∧ kMemSHAEnd = kMemWOMStart ∧
    kMemWOMEnd = kMemSize ∧
    (∀ addr, addr < kMemSize ↔ ∃ r ∈ memoryMap, r.1 ≤ addr ∧ addr < r.2) ∧
    memoryMap.Pairwise (fun r1 r2 => ∀ addr, ¬ ((r1.1 ≤ addr ∧ addr < r1.2) ∧
      (r2.1 ≤ addr ∧ addr < r2.2))) ∧
    kMemOutputStart = kMemWOMStart ∧ kMemOutputEnd = kMemCommitStart ∧
    kMemCommitEnd = kMemWOMEnd := by
  refine ⟨by decide, by decide, by decide, by decide, by decide, by decide, by decide,
    by decide, by decide, by decide, ?_, ?_, by decide, by decide, by decide⟩
  · intro addr
    simp only [memoryMap, List.mem_cons, List.mem_singleton, exists_eq_or_imp, exists_eq_left,
      List.not_mem_nil, false_and, exists_false, or_false]
    simp only [kMemSize, kMemStackStart, kMemStackEnd, kMemDataStart, kMemDataEnd,
      kMemHeapStart, kMemHeapEnd, kMemInputStart, kMemInputEnd, kMemInputLen, kMemGPIOStart,
      kMemGPIOEnd, kMemProgStart, kMemProgEnd, kMemSHAStart, kMemSHAEnd, kMemWOMStart,
      kMemWOMEnd, k1MB, Nat.shiftLeft_eq]
    omega
  · have hsorted : memoryMap.Pairwise (fun r1 r2 => r1.2 ≤ r2.1) := by decide
    exact hsorted.imp (fun h addr => by omega)

/-- C20, as stated, fails: the Output region is not 1 MiB long. -/
theorem output_region_is_not_one_mib : kMemOutputLen ≠ 0x00100000 := by
  decide

/-- C20, amended: the Input and Commit regions are 1 MiB long, and the
Output region is 20 MiB long. -/
theorem port_region_lengths :
    kMemInputLen = 0x00100000 ∧ kMemCommitLen = 0x00100000 ∧
    kMemOutputLen = 20 * 0x00100000 ∧ kMemOutputLen = 0x01400000 := by
  decide

/-! ## The evaluator: gate, host outputs and write frame -/

/-- For `steps` a power of two and `cycle < steps` the gate is the sum of the
code columns 1..6 at row `cycle`. -/
theorem gateSum_pow2 (k cycle : Nat) (args : Args) (hc : cycle < 2 ^ k) :
    gateSum (2 ^ k) cycle args
      = args 0 (1 * 2 ^ k + cycle) + args 0 (2 * 2 ^ k + cycle) + args 0 (3 * 2 ^ k + cycle)
        + args 0 (4 * 2 ^ k + cycle) + args 0 (5 * 2 ^ k + cycle)
        + args 0 (6 * 2 ^ k + cycle) := by
  have hcur := rowBack_zero k cycle hc
  unfold gateSum
  simp only [hcur]

/-- C24: gate skip.  Whatever `steps`, `cycle` and the trace: when the gate,
the sum in Fp of the code columns 1..6 at row `(cycle - 0) & mask`, is zero,
`step_verify` calls no host function, leaves every cell of every arg-bank as
it was and returns 1 without throwing; whenever `step_verify` returns, the
value is 1; and for `steps` a power of two and `cycle < steps` the row of the
gate is row `cycle`. -/
theorem gate_skip (host : HostBridge) (steps cycle : Nat) (args : Args) :
    (gateSum steps cycle args = 0 →
      (step_verify host steps cycle args).hostCalls = [] ∧
      (step_verify host steps cycle args).args = args ∧
      (step_verify host steps cycle args).outcome = .ok 1) ∧
    (∀ v, (step_verify host steps cycle args).outcome = .ok v → v = 1) ∧
    (∀ k, steps = 2 ^ k → cycle < steps →
      gateSum steps cycle args
        = args 0 (1 * steps + cycle) + args 0 (2 * steps + cycle)
          + args 0 (3 * steps + cycle) + args 0 (4 * steps + cycle)
          + args 0 (5 * steps + cycle) + args 0 (6 * steps + cycle)) := by
  refine ⟨?_, ?_, ?_⟩
  · intro hg
    obtain ⟨h1, h2, h3⟩ := step_verify_closed host steps cycle args hg
    exact ⟨h2, h1, h3⟩
  · intro v hv
    by_cases hg : gateSum steps cycle args = 0
    · rw [(step_verify_closed host steps cycle args hg).2.2] at hv
      cases hv
      rfl
    · obtain ⟨_, _, hok, _⟩ := step_verify_open host steps cycle args hg
      exact ((hok v).1 hv).1
  · intro k hk hc
    subst hk
    exact gateSum_pow2 k cycle args hc

/-- A witness of `gate_skip`: row 1 of the all-zero trace of two rows. -/
theorem gate_skip_witness :
    (step_verify exampleWrite 2 1 exampleIdle).hostCalls = [] ∧
      (step_verify exampleWrite 2 1 exampleIdle).args = exampleIdle ∧
      (step_verify exampleWrite 2 1 exampleIdle).outcome = .ok 1 :=
  (gate_skip exampleWrite 2 1 exampleIdle).1 (by decide)

/-- C25: memCheck column placement.  For a row `cycle < steps` whose gate is
not zero, `step_verify` makes one host call, of name "memCheck" with no inputs
and five outputs `o0 .. o4`, and afterwards row `cycle` of bank 2 holds `o1`
in column 144 (the address), `o3` and `o4` in columns 145 and 146 (the value
words), `o2` in column 147 (the is-write flag) and `o0` in column 148 (the
cycle).  For `steps` a power of two these are the cells from which the address
delta, the cycle delta and the read check are taken. -/
theorem memCheck_placement (host : HostBridge) (steps cycle : Nat) (args : Args)
    (hc : cycle < steps) (hg : gateSum steps cycle args ≠ 0) :
    (step_verify host steps cycle args).hostCalls = [⟨"memCheck", "", [], 5⟩] ∧
    (step_verify host steps cycle args).args 2 (144 * steps + cycle)
      = (host ⟨"memCheck", "", [], 5⟩).getD 1 0 ∧
    (step_verify host steps cycle args).args 2 (145 * steps + cycle)
      = (host ⟨"memCheck", "", [], 5⟩).getD 3 0 ∧
    (step_verify host steps cycle args).args 2 (146 * steps + cycle)
      = (host ⟨"memCheck", "", [], 5⟩).getD 4 0 ∧
    (step_verify host steps cycle args).args 2 (147 * steps + cycle)
      = (host ⟨"memCheck", "", [], 5⟩).getD 2 0 ∧
    (step_verify host steps cycle args).args 2 (148 * steps + cycle)
      = (host ⟨"memCheck", "", [], 5⟩).getD 0 0 ∧
    (∀ k, steps = 2 ^ k →
      addrDelta steps cycle (step_verify host steps cycle args).args
        = (host ⟨"memCheck", "", [], 5⟩).getD 1 0
          - (step_verify host steps cycle args).args 2
            (144 * steps + rowBack cycle 1 (maskOf steps)) - 1 ∧
      cycleDelta steps cycle (step_verify host steps cycle args).args
        = (host ⟨"memCheck", "", [], 5⟩).getD 0 0
          - (step_verify host steps cycle args).args 2
            (148 * steps + rowBack cycle 1 (maskOf steps)) - 1 ∧
      readCheck steps cycle (step_verify host steps cycle args).args
        = if (host ⟨"memCheck", "", [], 5⟩).getD 2 0 = 1 then none
          else if (host ⟨"memCheck", "", [], 5⟩).getD 3 0
              ≠ (step_verify host steps cycle args).args 2
                (145 * steps + rowBack cycle 1 (maskOf steps)) then
            some .memCheckCpp43
          else if (host ⟨"memCheck", "", [], 5⟩).getD 4 0
              ≠ (step_verify host steps cycle args).args 2
                (146 * steps + rowBack cycle 1 (maskOf steps)) then
            some .memCheckCpp44
          else none) := by
  have hs : 1 ≤ steps := by omega
  obtain ⟨_, hcalls, _, _⟩ := step_verify_open host steps cycle args hg
  obtain ⟨h148, h144, h147, h145, h146⟩ := afterHost_cur host steps cycle args hs
  rw [← step_verify_low_cells host steps cycle args hg 148 cycle (by decide) hc] at h148
  rw [← step_verify_low_cells host steps cycle args hg 144 cycle (by decide) hc] at h144
  rw [← step_verify_low_cells host steps cycle args hg 147 cycle (by decide) hc] at h147
  rw [← step_verify_low_cells host steps cycle args hg 145 cycle (by decide) hc] at h145
  rw [← step_verify_low_cells host steps cycle args hg 146 cycle (by decide) hc] at h146
  refine ⟨hcalls, h144, h145, h146, h147, h148, ?_⟩
  intro k hk
  subst hk
  have hcur := rowBack_zero k cycle hc
  refine ⟨?_, ?_, ?_⟩
  · unfold addrDelta
    simp only [hcur, h144]
    rfl
  · unfold cycleDelta
    simp only [hcur, h148]
    rfl
  · rw [readCheck_eq _ _ _ hcur, h147, h145, h146]
    rfl

/-- A witness of `memCheck_placement`: the example trace with the write event
(20, 5, 1, 0, 0). -/
theorem memCheck_placement_witness :
    (step_verify exampleWrite 2 1 exampleTrace).hostCalls = [⟨"memCheck", "", [], 5⟩] ∧
      (step_verify exampleWrite 2 1 exampleTrace).args 2 (144 * 2 + 1) = 5 ∧
      (step_verify exampleWrite 2 1 exampleTrace).args 2 (147 * 2 + 1) = 1 ∧
      (step_verify exampleWrite 2 1 exampleTrace).args 2 (148 * 2 + 1) = 20 :=
  have h := memCheck_placement exampleWrite 2 1 exampleTrace (by decide) (by decide)
  ⟨h.1, h.2.1, h.2.2.2.2.1, h.2.2.2.2.2.1⟩

/-- Two cells of a trace of `steps` rows are the same cell only when they have
the same column and the same row. -/
theorem cell_inj (steps c1 r1 c2 r2 : Nat) (h1 : r1 < steps) (h2 : r2 < steps)
    (h : c1 * steps + r1 = c2 * steps + r2) : c1 = c2 ∧ r1 = r2 := by
  have hs : 0 < steps := by omega
  have hd1 : (c1 * steps + r1) / steps = c1 := by
    rw [Nat.add_comm, Nat.add_mul_div_right _ _ hs, Nat.div_eq_of_lt h1, Nat.zero_add]
  have hd2 : (c2 * steps + r2) / steps = c2 := by
    rw [Nat.add_comm, Nat.add_mul_div_right _ _ hs, Nat.div_eq_of_lt h2, Nat.zero_add]
  have hc : c1 = c2 := by rw [← hd1, ← hd2, h]
  subst hc
  exact ⟨rfl, Nat.add_left_cancel h⟩

/-- Every cell outside bank 2, columns 144..161, row `cycle` is after
`step_verify` what it was before. -/
theorem step_verify_other (host : HostBridge) (steps cycle : Nat) (args : Args) (b i : Nat)
    (h : b ≠ 2 ∨ ∀ col, 144 ≤ col → col ≤ 161 → i ≠ col * steps + cycle) :
    (step_verify host steps cycle args).args b i = args b i := by
  by_cases hg : gateSum steps cycle args = 0
  · rw [(step_verify_closed host steps cycle args hg).1]
  · obtain ⟨hargs, _, _, _⟩ := step_verify_open host steps cycle args hg
    have hhost : afterHost host steps cycle args b i = args b i := by
      apply afterHost_other
      rcases h with h | h
      · exact Or.inl h
      · exact Or.inr (fun col h1 h2 => h col h1 (by omega))
    rw [hargs]
    unfold activePart
    split
    · rw [memActiveBlock_other, hhost]
      rcases h with h | h
      · exact Or.inl h
      · exact Or.inr (fun col h1 h2 => h col (by omega) h2)
    · exact hhost

/-- C27: write frame of the evaluator.  Whatever the host bridge returns and
whether `step_verify` returns or throws, a cell that is not in bank 2, columns
144..161, row `cycle` holds afterwards what it held before: the banks 0 and 1
are unchanged, and for `cycle < steps` (as for `steps` a power of two) so is
every cell of bank 2 in another column or another row. -/
theorem write_frame (host : HostBridge) (steps cycle : Nat) (args : Args) :
    (∀ b i, b ≠ 2 → (step_verify host steps cycle args).args b i = args b i) ∧
    (∀ i, (∀ col, 144 ≤ col → col ≤ 161 → i ≠ col * steps + cycle) →
      (step_verify host steps cycle args).args 2 i = args 2 i) ∧
    (cycle < steps → ∀ col row, row < steps → (col < 144 ∨ 161 < col ∨ row ≠ cycle) →
      (step_verify host steps cycle args).args 2 (col * steps + row)
        = args 2 (col * steps + row)) := by
  refine ⟨?_, ?_, ?_⟩
  · intro b i hb
    exact step_verify_other host steps cycle args b i (Or.inl hb)
  · intro i hi
    exact step_verify_other host steps cycle args 2 i (Or.inr hi)
  · intro hc col row hrow hcell
    apply step_verify_other
    right
    intro col2 h1 h2 heq
    obtain ⟨e1, e2⟩ := cell_inj steps col row col2 cycle hrow hc heq
    omega

/-- A witness of `write_frame`: the example trace with the read event that
throws at mem_check.cpp:43; the address 5 of row 0 is still in its cell. -/
theorem write_frame_witness :
    (step_verify exampleBadRead 2 1 exampleTrace).args 2 (144 * 2 + 0)
      = exampleTrace 2 (144 * 2 + 0) :=
  (write_frame exampleBadRead 2 1 exampleTrace).2.2 (by decide) 144 0 (by decide)
    (by decide)

/-! ## CheckedStreamReader::read_dword: properties -/

/-- C26: `read_dword` is two `read_word` calls, the first giving the low
half.  With eight bytes left both calls return, the value is
`low + 2^32 * high` and the cursor moves by 8; with fewer than four bytes left
it throws with the cursor where it was; with at least four but fewer than
eight bytes left it throws with the cursor moved by 4, the first word being
consumed. -/
theorem read_dword_spec (r : CheckedStreamReader) :
    (r.cursor + 8 ≤ r.buffer.length →
      ∃ low high : Word,
        r.read_word = (⟨r.buffer, r.cursor + 4⟩, .ok low) ∧
        (CheckedStreamReader.mk r.buffer (r.cursor + 4)).read_word
          = (⟨r.buffer, r.cursor + 8⟩, .ok high) ∧
        r.read_dword = (⟨r.buffer, r.cursor + 8⟩, .ok (low.val + 2 ^ 32 * high.val))) ∧
    (r.buffer.length < r.cursor + 4 → r.read_dword = (r, .error .outOfRange)) ∧
    (r.cursor + 4 ≤ r.buffer.length → r.buffer.length < r.cursor + 8 →
      r.read_word.1 = ⟨r.buffer, r.cursor + 4⟩ ∧
      r.read_dword = (⟨r.buffer, r.cursor + 4⟩, .error .outOfRange)) := by
  refine ⟨?_, ?_, ?_⟩
  · intro h
    obtain ⟨low, hl, _⟩ := read_word_ok r (by omega)
    obtain ⟨high, hh, _⟩ := read_word_ok ⟨r.buffer, r.cursor + 4⟩ (by show r.cursor + 4 + 4 ≤ r.buffer.length; omega)
    refine ⟨low, high, hl, hh, ?_⟩
    unfold CheckedStreamReader.read_dword
    rw [hl]
    dsimp only
    rw [hh]
    dsimp only
    have hlow : low.val < 2 ^ 32 := low.isLt
    have hhigh : high.val < 4294967296 := high.isLt
    rw [or_shiftLeft_eq_add _ _ 32 hlow]
    have e : (low.val + high.val * 2 ^ 32) % 18446744073709551616
        = low.val + 2 ^ 32 * high.val := by
      simp only [Nat.reducePow] at hlow ⊢
      omega
    rw [e]
  · intro h
    unfold CheckedStreamReader.read_dword
    rw [read_word_err r (by omega)]
  · intro h4 h8
    obtain ⟨low, hl, _⟩ := read_word_ok r h4
    refine ⟨by rw [hl], ?_⟩
    unfold CheckedStreamReader.read_dword
    rw [hl]
    dsimp only
    rw [read_word_err ⟨r.buffer, r.cursor + 4⟩ (by show ¬ r.cursor + 4 + 4 ≤ r.buffer.length; omega)]

/-- A witness of `read_dword_spec`: the eight bytes 1..8 give the value
`0x0807060504030201`. -/
theorem read_dword_spec_witness :
    ∃ low high : Word,
      (CheckedStreamReader.new [1, 2, 3, 4, 5, 6, 7, 8]).read_word
        = (⟨[1, 2, 3, 4, 5, 6, 7, 8], 0 + 4⟩, .ok low) ∧
      (CheckedStreamReader.mk [1, 2, 3, 4, 5, 6, 7, 8] (0 + 4)).read_word
        = (⟨[1, 2, 3, 4, 5, 6, 7, 8], 0 + 8⟩, .ok high) ∧
      (CheckedStreamReader.new [1, 2, 3, 4, 5, 6, 7, 8]).read_dword
        = (⟨[1, 2, 3, 4, 5, 6, 7, 8], 0 + 8⟩, .ok (low.val + 2 ^ 32 * high.val)) :=
  (read_dword_spec (CheckedStreamReader.new [1, 2, 3, 4, 5, 6, 7, 8])).1 (by decide)

/-! ## The evaluator: the decomposition block and its range check -/

/-- After the decomposition block column `150 + j` of row `cycle` holds digit
`j`, for each of the twelve digits. -/
theorem limbBlock_col (steps cycle : Nat) (v : Fp) (args : Args) (hs : 1 ≤ steps)
    (j : Nat) (hj : j < 12) :
    limbBlock steps cycle v args 2 ((150 + j) * steps + cycle) = limbDigit v j := by
  obtain ⟨c0, c1, c2, c3, c4, c5, c6, c7, c8, c9, c10, c11⟩ :=
    limbBlock_cols steps cycle v args hs
  interval_cases j
  · exact c0
  · exact c1
  · exact c2
  · exact c3
  · exact c4
  · exact c5
  · exact c6
  · exact c7
  · exact c8
  · exact c9
  · exact c10
  · exact c11

/-- C23: limb range check.  For `steps` a power of two and `cycle < steps`,
the decomposition block on a value `v` with representative `n` stores
`floor(n / 4^j) mod 4` in column `150 + j` of row `cycle` for `j = 0 .. 11`
(the constant 1509949441 is the inverse of 4 modulo p), the recomposition of
these cells with the weights `4^0 .. 4^11` is `n mod 2^24`, and the check
`eqz((v - recomposition) * 2013265801)` passes exactly when `n < 2^24`.  The
block on the address delta throws at mem_check.cpp:48 and the block on the
cycle delta at mem_check.cpp:46 exactly when the check does not pass. -/
theorem limb_range_check (k steps cycle : Nat) (v : Fp) (args : Args)
    (hsteps : steps = 2 ^ k) (hc : cycle < steps) :
    (∀ j, j < 12 →
      (limbBlock steps cycle v args 2 ((150 + j) * steps + cycle)).asUInt32
        = v.asUInt32 / 4 ^ j % 4) ∧
    (4 : Fp) * (1509949441 : Fp) = 1 ∧
    (recompose steps cycle (limbBlock steps cycle v args)).asUInt32
      = v.asUInt32 % 2 ^ 24 ∧
    ((v - recompose steps cycle (limbBlock steps cycle v args)) * (2013265801 : Fp) = 0
      ↔ v.asUInt32 < 2 ^ 24) ∧
    (∀ x y : Fp, v = x - y - 1 →
      diffAddrBranch steps cycle x y args
        = (limbBlock steps cycle v args,
            if v.asUInt32 < 2 ^ 24 then none else some .memCheckCpp48)) ∧
    (∀ x : Fp, readCheck steps cycle args = none →
      v = args 2 (148 * steps + cycle)
        - args 2 (148 * steps + rowBack cycle 1 (maskOf steps)) - 1 →
      sameAddrBranch steps cycle x x args
        = (limbBlock steps cycle v args,
            if v.asUInt32 < 2 ^ 24 then none else some .memCheckCpp46)) := by
  subst hsteps
  have hs : 1 ≤ 2 ^ k := by omega
  have hcur := rowBack_zero k cycle hc
  have hrec := recompose_limbBlock (2 ^ k) cycle v args hs hcur
  refine ⟨?_, by decide, ?_, ?_, ?_, ?_⟩
  · intro j hj
    rw [limbBlock_col _ _ _ _ hs j hj]
    exact limbDigit_val v j
  · rw [hrec]
    show v.val % 16777216 % 2013265921 = v.val % 2 ^ 24
    simp only [Nat.reducePow]
    omega
  · rw [hrec]
    exact limb_check_iff v
  · intro x y hv
    subst hv
    exact diffAddrBranch_eq _ _ _ _ _ hs hcur
  · intro x hrc hv
    subst hv
    exact sameAddrBranch_limb _ _ _ _ hs hcur hrc

/-- A witness of `limb_range_check`: the value 27 = 3 + 2 * 4 + 1 * 16 in row
1 of the example trace; column 151 receives the digit 2. -/
theorem limb_range_check_witness :
    (limbBlock 2 1 27 exampleTrace 2 ((150 + 1) * 2 + 1)).asUInt32
      = (27 : Fp).asUInt32 / 4 ^ 1 % 4 :=
  (limb_range_check 1 2 1 27 exampleTrace (by decide) (by decide)).1 1 (by decide)

/-! ## The evaluator: a row with the memory-active flag set -/

/-- The row `(cycle - j) & mask` is a row of the trace. -/
theorem rowBack_lt (steps cycle j : Nat) (hs : 1 ≤ steps) :
    rowBack cycle j (maskOf steps) < steps := by
  have hm : maskOf steps = steps - 1 := by
    unfold maskOf
    rw [if_neg (by omega)]
  unfold rowBack
  rw [hm]
  have h := @Nat.and_le_right (if j ≤ cycle then cycle - j else cycle + 2 ^ 64 - j) (steps - 1)
  omega

/-- A digit of the decomposition block is one of 0, 1, 2, 3. -/
theorem limbDigit_cases (v : Fp) (j : Nat) :
    limbDigit v j = 0 ∨ limbDigit v j = 1 ∨ limbDigit v j = 2 ∨ limbDigit v j = 3 := by
  have h := limbDigit_val v j
  have hlt : (limbDigit v j).val < 4 := by
    rw [h]
    exact Nat.mod_lt _ (by decide)
  generalize limbDigit v j = d at hlt
  have h0 : (0 : Fp).val = 0 := rfl
  have h1 : (1 : Fp).val = 1 := rfl
  have h2 : (2 : Fp).val = 2 := rfl
  have h3 : (3 : Fp).val = 3 := rfl
  have hd : d.val = 0 ∨ d.val = 1 ∨ d.val = 2 ∨ d.val = 3 := by omega
  rcases hd with e | e | e | e
  · exact Or.inl (Fp.ext (by rw [e, h0]))
  · exact Or.inr (Or.inl (Fp.ext (by rw [e, h1])))
  · exact Or.inr (Or.inr (Or.inl (Fp.ext (by rw [e, h2]))))
  · exact Or.inr (Or.inr (Or.inr (Fp.ext (by rw [e, h3]))))

/-- A digit of the decomposition block satisfies the two-bit law. -/
theorem twoBitPoly_limbDigit (v : Fp) (j : Nat) : twoBitPoly (limbDigit v j) = 0 := by
  rcases limbDigit_cases v j with e | e | e | e <;> rw [e] <;> decide

/-- A check that does not throw hands over to the checks after it. -/
theorem ite_pass {c : Prop} [Decidable c] {e : EqzSite} {r : Option EqzSite}
    (hc : ¬ c) (hr : r = none) : (if c then some e else r) = none := by
  rw [if_neg hc, hr]

/-- When every checked polynomial is zero, no booleanity check throws. -/
theorem booleanity_pass (steps cycle : Nat) (args : Args)
    (h149 : oneBitPoly (args 2 (149 * steps + rowBack cycle 0 (maskOf steps))) = 0)
    (h : ∀ col, 150 ≤ col → col ≤ 161 →
      twoBitPoly (args 2 (col * steps + rowBack cycle 0 (maskOf steps))) = 0) :
    booleanity steps cycle args = none := by
  unfold booleanity
  refine ite_pass (not_not.2 h149) ?_
  refine ite_pass (not_not.2 (h 150 (by decide) (by decide))) ?_
  refine ite_pass (not_not.2 (h 151 (by decide) (by decide))) ?_
  refine ite_pass (not_not.2 (h 152 (by decide) (by decide))) ?_
  refine ite_pass (not_not.2 (h 153 (by decide) (by decide))) ?_
  refine ite_pass (not_not.2 (h 154 (by decide) (by decide))) ?_
  refine ite_pass (not_not.2 (h 155 (by decide) (by decide))) ?_
  refine ite_pass (not_not.2 (h 156 (by decide) (by decide))) ?_
  refine ite_pass (not_not.2 (h 157 (by decide) (by decide))) ?_
  refine ite_pass (not_not.2 (h 158 (by decide) (by decide))) ?_
  refine ite_pass (not_not.2 (h 159 (by decide) (by decide))) ?_
  refine ite_pass (not_not.2 (h 160 (by decide) (by decide))) ?_
  exact ite_pass (not_not.2 (h 161 (by decide) (by decide))) rfl

/-- The cell of column 149 at row `cycle` is none of the cells the
decomposition block writes. -/
theorem flag_cell_ne (steps cycle col : Nat) (hs : 1 ≤ steps) (h1 : 150 ≤ col) :
    149 * steps + cycle ≠ col * steps + cycle := by
  have h := Nat.mul_le_mul_right steps h1
  omega

/-- After a decomposition block on banks whose column 149 holds 0 or 1 at row
`cycle`, no booleanity check throws. -/
theorem booleanity_limbBlock (steps cycle : Nat) (v : Fp) (args : Args) (hs : 1 ≤ steps)
    (hcur : rowBack cycle 0 (maskOf steps) = cycle)
    (hflag : args 2 (149 * steps + cycle) = 0 ∨ args 2 (149 * steps + cycle) = 1) :
    booleanity steps cycle (limbBlock steps cycle v args) = none := by
  apply booleanity_pass
  · rw [hcur, limbBlock_other steps cycle v args 2 _
      (Or.inr (fun col h1 _ => flag_cell_ne steps cycle col hs h1))]
    rcases hflag with e | e <;> rw [e] <;> decide
  · intro col h1 h2
    rw [hcur]
    obtain ⟨j, rfl⟩ : ∃ j, col = 150 + j := ⟨col - 150, by omega⟩
    rw [limbBlock_col steps cycle v args hs j (by omega)]
    exact twoBitPoly_limbDigit v j

/-- The read check throws at mem_check.cpp:43 or at mem_check.cpp:44 only. -/
theorem readCheck_site (steps cycle : Nat) (args : Args) (e : EqzSite)
    (h : readCheck steps cycle args = some e) :
    e = .memCheckCpp43 ∨ e = .memCheckCpp44 := by
  unfold readCheck at h
  dsimp only at h
  split at h
  · split at h
    · left
      cases h
      rfl
    · split at h
      · right
        cases h
        rfl
      · cases h
  · cases h

/-- The memory-active part of a row with the flag set is the memory-active
block on the banks the host call left. -/
theorem activePart_active (host : HostBridge) (steps cycle : Nat) (args : Args)
    (ha : memActiveFlag steps cycle args ≠ 0) :
    activePart host steps cycle args
      = memActiveBlock steps cycle (afterHost host steps cycle args) := by
  unfold activePart
  rw [if_pos ha]

/-- A row with the address of the preceding row whose read check throws:
column 149 has received 1, no decomposition block has run, and `step_verify`
throws at the site of the read check. -/
theorem step_verify_same_read (host : HostBridge) (steps cycle : Nat) (args : Args)
    (e : EqzSite)
    (hcur : rowBack cycle 0 (maskOf steps) = cycle)
    (hg : gateSum steps cycle args ≠ 0) (ha : memActiveFlag steps cycle args ≠ 0)
    (hsame : afterHost host steps cycle args 2 (144 * steps + cycle)
      = afterHost host steps cycle args 2 (144 * steps + rowBack cycle 1 (maskOf steps)))
    (hrc : readCheck steps cycle
      ((afterHost host steps cycle args).set 2 (149 * steps + cycle) 1) = some e) :
    (step_verify host steps cycle args).args
        = (afterHost host steps cycle args).set 2 (149 * steps + cycle) 1 ∧
      (step_verify host steps cycle args).outcome = .error e := by
  obtain ⟨hargs, _, _, herr⟩ := step_verify_open host steps cycle args hg
  have hact : activePart host steps cycle args
      = ((afterHost host steps cycle args).set 2 (149 * steps + cycle) 1, some e) := by
    rw [activePart_active host steps cycle args ha, memActiveBlock_same _ _ _ hcur hsame,
      sameAddrBranch_read _ _ _ _ e hrc]
  rw [hact] at hargs herr
  exact ⟨hargs, (herr e).2 (Or.inl rfl)⟩

/-- A row with the address of the preceding row whose read check passes:
column 149 has received 1, the decomposition block has run on the cycle delta
minus one, and `step_verify` returns 1 when the representative of that value is
below `2^24` and throws at mem_check.cpp:46 otherwise. -/
theorem step_verify_same_limb (host : HostBridge) (steps cycle : Nat) (args : Args)
    (hs : 1 ≤ steps) (hcur : rowBack cycle 0 (maskOf steps) = cycle)
    (hg : gateSum steps cycle args ≠ 0) (ha : memActiveFlag steps cycle args ≠ 0)
    (hsame : afterHost host steps cycle args 2 (144 * steps + cycle)
      = afterHost host steps cycle args 2 (144 * steps + rowBack cycle 1 (maskOf steps)))
    (hrc : readCheck steps cycle
      ((afterHost host steps cycle args).set 2 (149 * steps + cycle) 1) = none) :
    (step_verify host steps cycle args).args
        = limbBlock steps cycle
          (afterHost host steps cycle args 2 (148 * steps + cycle)
            - afterHost host steps cycle args 2
              (148 * steps + rowBack cycle 1 (maskOf steps)) - 1)
          ((afterHost host steps cycle args).set 2 (149 * steps + cycle) 1) ∧
      (step_verify host steps cycle args).outcome
        = if (afterHost host steps cycle args 2 (148 * steps + cycle)
            - afterHost host steps cycle args 2
              (148 * steps + rowBack cycle 1 (maskOf steps)) - 1).val < 16777216
          then .ok 1 else .error .memCheckCpp46 := by
  obtain ⟨hargs, _, hok, herr⟩ := step_verify_open host steps cycle args hg
  have hplt := rowBack_lt steps cycle 1 hs
  have hact := activePart_active host steps cycle args ha
  rw [memActiveBlock_same _ _ _ hcur hsame, sameAddrBranch_limb _ _ _ _ hs hcur hrc,
    Args.set_apply, if_neg (by omega), Args.set_apply, if_neg (by omega)] at hact
  rw [hact] at hargs hok herr
  refine ⟨hargs, ?_⟩
  split
  · rename_i hv
    refine (hok 1).2 ⟨rfl, ?_, ?_⟩
    · exact if_pos hv
    · apply booleanity_limbBlock _ _ _ _ hs hcur
      right
      rw [Args.set_apply, if_pos ⟨rfl, rfl⟩]
  · rename_i hv
    exact (herr _).2 (Or.inl (if_neg hv))

/-- A row whose address differs from that of the preceding row: column 149
has received 0, the decomposition block has run on the address delta minus
one, and `step_verify` returns 1 when the representative of that value is below
`2^24` and throws at mem_check.cpp:48 otherwise. -/
theorem step_verify_diff (host : HostBridge) (steps cycle : Nat) (args : Args)
    (hs : 1 ≤ steps) (hcur : rowBack cycle 0 (maskOf steps) = cycle)
    (hg : gateSum steps cycle args ≠ 0) (ha : memActiveFlag steps cycle args ≠ 0)
    (hdiff : afterHost host steps cycle args 2 (144 * steps + cycle)
      ≠ afterHost host steps cycle args 2 (144 * steps + rowBack cycle 1 (maskOf steps))) :
    (step_verify host steps cycle args).args
        = limbBlock steps cycle
          (afterHost host steps cycle args 2 (144 * steps + cycle)
            - afterHost host steps cycle args 2
              (144 * steps + rowBack cycle 1 (maskOf steps)) - 1)
          ((afterHost host steps cycle args).set 2 (149 * steps + cycle) 0) ∧
      (step_verify host steps cycle args).outcome
        = if (afterHost host steps cycle args 2 (144 * steps + cycle)
            - afterHost host steps cycle args 2
              (144 * steps + rowBack cycle 1 (maskOf steps)) - 1).val < 16777216
          then .ok 1 else .error .memCheckCpp48 := by
  obtain ⟨hargs, _, hok, herr⟩ := step_verify_open host steps cycle args hg
  have hact := activePart_active host steps cycle args ha
  rw [memActiveBlock_diff _ _ _ hcur hdiff, diffAddrBranch_eq _ _ _ _ _ hs hcur] at hact
  rw [hact] at hargs hok herr
  refine ⟨hargs, ?_⟩
  split
  · rename_i hv
    refine (hok 1).2 ⟨rfl, ?_, ?_⟩
    · exact if_pos hv
    · apply booleanity_limbBlock _ _ _ _ hs hcur
      left
      rw [Args.set_apply, if_pos ⟨rfl, rfl⟩]
  · rename_i hv
    exact (herr _).2 (Or.inl (if_neg hv))

/-- The read check looks at columns below 149 only. -/
theorem readCheck_congr (steps cycle : Nat) (A B : Args) (hs : 1 ≤ steps)
    (h : ∀ j r, j < 149 → r < steps → A 2 (j * steps + r) = B 2 (j * steps + r)) :
    readCheck steps cycle A = readCheck steps cycle B := by
  have h0 := rowBack_lt steps cycle 0 hs
  have h1 := rowBack_lt steps cycle 1 hs
  have e1 := h 147 _ (by decide) h0
  have e2 := h 145 _ (by decide) h0
  have e3 := h 145 _ (by decide) h1
  have e4 := h 146 _ (by decide) h0
  have e5 := h 146 _ (by decide) h1
  unfold readCheck
  simp only [e1, e2, e3, e4, e5]

/-- Writing column 149 of row `cycle` leaves the columns below 149 as they
were. -/
theorem set_flag_low (steps cycle : Nat) (A : Args) (x : Fp) (j r : Nat) (hj : j < 149)
    (hr : r < steps) :
    (A.set 2 (149 * steps + cycle) x) 2 (j * steps + r) = A 2 (j * steps + r) := by
  rw [Args.set_apply, if_neg]
  intro h
  exact low_cell_ne steps cycle r j 149 hr hj (by decide) h.2

/-- On a row with the memory-active flag set, column 149 of row `cycle` holds
afterwards 1 when the address the host returned is that of the preceding row,
and 0 otherwise. -/
theorem step_verify_flag (host : HostBridge) (steps cycle : Nat) (args : Args)
    (hs : 1 ≤ steps) (hcur : rowBack cycle 0 (maskOf steps) = cycle)
    (hg : gateSum steps cycle args ≠ 0) (ha : memActiveFlag steps cycle args ≠ 0) :
    (step_verify host steps cycle args).args 2 (149 * steps + cycle)
      = if afterHost host steps cycle args 2 (144 * steps + cycle)
          = afterHost host steps cycle args 2 (144 * steps + rowBack cycle 1 (maskOf steps))
        then 1 else 0 := by
  have hkeep : ∀ (v : Fp) (B : Args), limbBlock steps cycle v B 2 (149 * steps + cycle)
      = B 2 (149 * steps + cycle) := fun v B =>
    limbBlock_other steps cycle v B 2 _
      (Or.inr (fun col h1 _ => flag_cell_ne steps cycle col hs h1))
  split
  · rename_i hsame
    cases hrc : readCheck steps cycle
        ((afterHost host steps cycle args).set 2 (149 * steps + cycle) 1) with
    | some e =>
      rw [(step_verify_same_read host steps cycle args e hcur hg ha hsame hrc).1,
        Args.set_apply, if_pos ⟨rfl, rfl⟩]
    | none =>
      rw [(step_verify_same_limb host steps cycle args hs hcur hg ha hsame hrc).1, hkeep,
        Args.set_apply, if_pos ⟨rfl, rfl⟩]
  · rename_i hdiff
    rw [(step_verify_diff host steps cycle args hs hcur hg ha hdiff).1, hkeep,
      Args.set_apply, if_pos ⟨rfl, rfl⟩]

/-! ## The evaluator: the same-address flag and the decomposed value -/

/-- C21, as stated, fails.  In row 1 of the example trace with the write to
address 5, the address of row 0, `same_addr` is 0 and column 149 receives 1,
where the claimed value `1 - (same_addr == 0 ? 1 : 0)` is 0; with the write to
address 9, `same_addr` is not 0 and column 149 receives 0, where the claimed
value is 1. -/
theorem same_addr_flag_is_one_on_equal_addresses :
    gateSum 2 1 exampleTrace ≠ 0 ∧ memActiveFlag 2 1 exampleTrace ≠ 0 ∧
    (step_verify exampleWrite 2 1 exampleTrace).args 2 (144 * 2 + 1)
      - (step_verify exampleWrite 2 1 exampleTrace).args 2 (144 * 2 + 0) = 0 ∧
    (step_verify exampleWrite 2 1 exampleTrace).args 2 (149 * 2 + 1) = 1 ∧
    specSameAddrFlag ((step_verify exampleWrite 2 1 exampleTrace).args 2 (144 * 2 + 1)
      - (step_verify exampleWrite 2 1 exampleTrace).args 2 (144 * 2 + 0)) = 0 ∧
    (step_verify exampleOtherAddr 2 1 exampleTrace).args 2 (144 * 2 + 1)
      - (step_verify exampleOtherAddr 2 1 exampleTrace).args 2 (144 * 2 + 0) ≠ 0 ∧
    (step_verify exampleOtherAddr 2 1 exampleTrace).args 2 (149 * 2 + 1) = 0 ∧
    specSameAddrFlag ((step_verify exampleOtherAddr 2 1 exampleTrace).args 2 (144 * 2 + 1)
      - (step_verify exampleOtherAddr 2 1 exampleTrace).args 2 (144 * 2 + 0)) = 1 := by
  decide

/-- C21, amended: for `steps` a power of two, `cycle < steps`, an open gate
and the memory-active flag set, the value `step_verify` stores in column 149
of row `cycle` is `(same_addr == 0 ? 1 : 0)`, which is `x38 = 1 - (1 - x36)`,
where `same_addr` is column 144 of row `cycle` minus column 144 of the
preceding row: column 149 is 1 when the address of the event equals that of
the preceding event and 0 when it differs. -/
theorem same_addr_flag_column (host : HostBridge) (k steps cycle : Nat) (args : Args)
    (hsteps : steps = 2 ^ k) (hc : cycle < steps)
    (hg : gateSum steps cycle args ≠ 0) (ha : memActiveFlag steps cycle args ≠ 0) :
    (step_verify host steps cycle args).args 2 (149 * steps + cycle)
      = (if (step_verify host steps cycle args).args 2 (144 * steps + cycle)
          - (step_verify host steps cycle args).args 2
            (144 * steps + rowBack cycle 1 (maskOf steps)) = 0 then 1 else 0) ∧
    ((step_verify host steps cycle args).args 2 (144 * steps + cycle)
        = (step_verify host steps cycle args).args 2
          (144 * steps + rowBack cycle 1 (maskOf steps)) →
      (step_verify host steps cycle args).args 2 (149 * steps + cycle) = 1) ∧
    ((step_verify host steps cycle args).args 2 (144 * steps + cycle)
        ≠ (step_verify host steps cycle args).args 2
          (144 * steps + rowBack cycle 1 (maskOf steps)) →
      (step_verify host steps cycle args).args 2 (149 * steps + cycle) = 0) := by
  subst hsteps
  have hs : 1 ≤ 2 ^ k := by omega
  have hcur := rowBack_zero k cycle hc
  have hplt := rowBack_lt (2 ^ k) cycle 1 hs
  have hflag := step_verify_flag host (2 ^ k) cycle args hs hcur hg ha
  rw [← step_verify_low_cells host _ cycle args hg 144 cycle (by decide) hc,
    ← step_verify_low_cells host _ cycle args hg 144 _ (by decide) hplt] at hflag
  refine ⟨?_, ?_, ?_⟩
  · rw [hflag]
    by_cases h : (step_verify host (2 ^ k) cycle args).args 2 (144 * 2 ^ k + cycle)
        = (step_verify host (2 ^ k) cycle args).args 2
          (144 * 2 ^ k + rowBack cycle 1 (maskOf (2 ^ k)))
    · rw [if_pos h, if_pos ((Fp.sub_eq_zero_iff _ _).2 h)]
    · rw [if_neg h, if_neg (fun h0 => h ((Fp.sub_eq_zero_iff _ _).1 h0))]
  · intro h
    rw [hflag, if_pos h]
  · intro h
    rw [hflag, if_neg h]

/-- A witness of `same_addr_flag_column`: the example trace with the write to
address 5, the address of row 0. -/
theorem same_addr_flag_column_witness :
    (step_verify exampleWrite 2 1 exampleTrace).args 2 (149 * 2 + 1)
      = (if (step_verify exampleWrite 2 1 exampleTrace).args 2 (144 * 2 + 1)
          - (step_verify exampleWrite 2 1 exampleTrace).args 2
            (144 * 2 + rowBack 1 1 (maskOf 2)) = 0 then 1 else 0) :=
  (same_addr_flag_column exampleWrite 1 2 1 exampleTrace (by decide) (by decide) (by decide)
    (by decide)).1

/-- C22, as stated, fails.  In row 1 of the example trace, whose preceding
row holds address 5 and cycle 10: with the write to address 9 at cycle 3 the
address differs, the cycle delta `3 - 10 - 1` has no representative below
`2^24`, and yet `step_verify` returns, column 150 holding the digit 3 of the
address delta `9 - 5 - 1` and not the digit 1 of the cycle delta; with the
write to address 5 at cycle 3 the address is the same, `same_addr` is 0, the
event is no read, and yet `step_verify` throws, at mem_check.cpp:46. -/
theorem different_address_decomposes_address_delta :
    gateSum 2 1 exampleTrace ≠ 0 ∧ memActiveFlag 2 1 exampleTrace ≠ 0 ∧
    (step_verify exampleOtherAddr 2 1 exampleTrace).args 2 (144 * 2 + 1)
      ≠ (step_verify exampleOtherAddr 2 1 exampleTrace).args 2 (144 * 2 + 0) ∧
    (step_verify exampleOtherAddr 2 1 exampleTrace).outcome = .ok 1 ∧
    ¬ (cycleDelta 2 1 (step_verify exampleOtherAddr 2 1 exampleTrace).args).asUInt32
      < 2 ^ 24 ∧
    (step_verify exampleOtherAddr 2 1 exampleTrace).args 2 (150 * 2 + 1) = 3 ∧
    (addrDelta 2 1 (step_verify exampleOtherAddr 2 1 exampleTrace).args).asUInt32 % 4 = 3 ∧
    (cycleDelta 2 1 (step_verify exampleOtherAddr 2 1 exampleTrace).args).asUInt32 % 4 = 1 ∧
    (step_verify exampleStale 2 1 exampleTrace).args 2 (144 * 2 + 1)
      = (step_verify exampleStale 2 1 exampleTrace).args 2 (144 * 2 + 0) ∧
    readCheck 2 1 (step_verify exampleStale 2 1 exampleTrace).args = none ∧
    (step_verify exampleStale 2 1 exampleTrace).outcome = .error .memCheckCpp46 := by
  decide

/-- C22, amended: for `steps` a power of two, `cycle < steps`, an open gate
and the memory-active flag set.  When the address (column 144) of row `cycle`
differs from that of the preceding row, the value decomposed into the columns
150..161 and checked against the recomposition is the address delta
`addr_now - addr_prev - 1`: `step_verify` returns 1 when its representative is
below `2^24` and throws at mem_check.cpp:48 otherwise.  When the addresses are
equal, the read check applies (a throw at mem_check.cpp:43 or :44), and when it
passes the value decomposed and checked is the cycle delta
`cycle_now - cycle_prev - 1` of the columns 148: `step_verify` returns 1 when
its representative is below `2^24` and throws at mem_check.cpp:46 otherwise. -/
theorem limb_decomposition_branch (host : HostBridge) (k steps cycle : Nat) (args : Args)
    (hsteps : steps = 2 ^ k) (hc : cycle < steps)
    (hg : gateSum steps cycle args ≠ 0) (ha : memActiveFlag steps cycle args ≠ 0) :
    ((step_verify host steps cycle args).args 2 (144 * steps + cycle)
        ≠ (step_verify host steps cycle args).args 2
          (144 * steps + rowBack cycle 1 (maskOf steps)) →
      (∀ j, j < 12 →
        ((step_verify host steps cycle args).args 2 ((150 + j) * steps + cycle)).asUInt32
          = (addrDelta steps cycle (step_verify host steps cycle args).args).asUInt32
            / 4 ^ j % 4) ∧
      (step_verify host steps cycle args).outcome
        = if (addrDelta steps cycle (step_verify host steps cycle args).args).asUInt32
            < 2 ^ 24
          then .ok 1 else .error .memCheckCpp48) ∧
    ((step_verify host steps cycle args).args 2 (144 * steps + cycle)
        = (step_verify host steps cycle args).args 2
          (144 * steps + rowBack cycle 1 (maskOf steps)) →
      (∀ e, readCheck steps cycle (step_verify host steps cycle args).args = some e →
        (step_verify host steps cycle args).outcome = .error e ∧
          (e = .memCheckCpp43 ∨ e = .memCheckCpp44)) ∧
      (readCheck steps cycle (step_verify host steps cycle args).args = none →
        (∀ j, j < 12 →
          ((step_verify host steps cycle args).args 2 ((150 + j) * steps + cycle)).asUInt32
            = (cycleDelta steps cycle (step_verify host steps cycle args).args).asUInt32
              / 4 ^ j % 4) ∧
        (step_verify host steps cycle args).outcome
          = if (cycleDelta steps cycle (step_verify host steps cycle args).args).asUInt32
              < 2 ^ 24
            then .ok 1 else .error .memCheckCpp46)) := by
  subst hsteps
  have hs : 1 ≤ 2 ^ k := by omega
  have hcur := rowBack_zero k cycle hc
  have hplt := rowBack_lt (2 ^ k) cycle 1 hs
  have hlow := step_verify_low_cells host (2 ^ k) cycle args hg
  have hA : addrDelta (2 ^ k) cycle (step_verify host (2 ^ k) cycle args).args
      = afterHost host (2 ^ k) cycle args 2 (144 * 2 ^ k + cycle)
        - afterHost host (2 ^ k) cycle args 2
          (144 * 2 ^ k + rowBack cycle 1 (maskOf (2 ^ k))) - 1 := by
    unfold addrDelta
    simp only [hcur, hlow 144 cycle (by decide) hc, hlow 144 _ (by decide) hplt]
  have hC : cycleDelta (2 ^ k) cycle (step_verify host (2 ^ k) cycle args).args
      = afterHost host (2 ^ k) cycle args 2 (148 * 2 ^ k + cycle)
        - afterHost host (2 ^ k) cycle args 2
          (148 * 2 ^ k + rowBack cycle 1 (maskOf (2 ^ k))) - 1 := by
    unfold cycleDelta
    simp only [hcur, hlow 148 cycle (by decide) hc, hlow 148 _ (by decide) hplt]
  have hR : readCheck (2 ^ k) cycle (step_verify host (2 ^ k) cycle args).args
      = readCheck (2 ^ k) cycle
        ((afterHost host (2 ^ k) cycle args).set 2 (149 * 2 ^ k + cycle) 1) := by
    apply readCheck_congr _ _ _ _ hs
    intro j r hj hr
    rw [hlow j r hj hr, set_flag_low _ _ _ _ j r hj hr]
  rw [hA, hC, hR, hlow 144 cycle (by decide) hc, hlow 144 _ (by decide) hplt]
  refine ⟨?_, ?_⟩
  · intro hdiff
    obtain ⟨h1, h2⟩ := step_verify_diff host (2 ^ k) cycle args hs hcur hg ha hdiff
    refine ⟨?_, h2⟩
    intro j hj
    rw [h1, limbBlock_col _ _ _ _ hs j hj]
    exact limbDigit_val _ j
  · intro hsame
    refine ⟨?_, ?_⟩
    · intro e he
      exact ⟨(step_verify_same_read host (2 ^ k) cycle args e hcur hg ha hsame he).2,
        readCheck_site _ _ _ e he⟩
    · intro hn
      obtain ⟨h1, h2⟩ := step_verify_same_limb host (2 ^ k) cycle args hs hcur hg ha hsame hn
      refine ⟨?_, h2⟩
      intro j hj
      rw [h1, limbBlock_col _ _ _ _ hs j hj]
      exact limbDigit_val _ j

/-- A witness of `limb_decomposition_branch`: the example trace with the
write to address 9; the digits are those of the address delta. -/
theorem limb_decomposition_branch_witness :
    (∀ j, j < 12 →
      ((step_verify exampleOtherAddr 2 1 exampleTrace).args 2 ((150 + j) * 2 + 1)).asUInt32
        = (addrDelta 2 1 (step_verify exampleOtherAddr 2 1 exampleTrace).args).asUInt32
          / 4 ^ j % 4) ∧
    (step_verify exampleOtherAddr 2 1 exampleTrace).outcome
      = if (addrDelta 2 1 (step_verify exampleOtherAddr 2 1 exampleTrace).args).asUInt32
          < 2 ^ 24
        then .ok 1 else .error .memCheckCpp48 :=
  (limb_decomposition_branch exampleOtherAddr 1 2 1 exampleTrace (by decide) (by decide)
    (by decide) (by decide)).1 (by decide)

/-! ## The evaluator: checks that cannot fail -/

/-- C28: unreachable obligations.  For `steps` a power of two, `cycle < steps`,
an open gate and the memory-active flag set: column 149 of row `cycle` is
written with 0 or 1, and when it is not 0 then `same_addr` is 0, so the check
of mem_check.cpp:41 passes; unless the read check throws (mem_check.cpp:43 or
:44), one decomposition block runs on top of that write, the columns 150..161
of row `cycle` hold values among 0, 1, 2, 3 and all thirteen checks of
mem_check.h:28 pass.  So `step_verify` throws neither at mem_check.cpp:41 nor
at mem_check.h:28: it throws at mem_check.cpp:43, :44, :46 or :48 only. -/
theorem unreachable_obligations (host : HostBridge) (k steps cycle : Nat) (args : Args)
    (hsteps : steps = 2 ^ k) (hc : cycle < steps)
    (hg : gateSum steps cycle args ≠ 0) (ha : memActiveFlag steps cycle args ≠ 0) :
    ((step_verify host steps cycle args).args 2 (149 * steps + cycle) = 0 ∨
      (step_verify host steps cycle args).args 2 (149 * steps + cycle) = 1) ∧
    ((step_verify host steps cycle args).args 2 (149 * steps + cycle) ≠ 0 →
      (step_verify host steps cycle args).args 2 (144 * steps + cycle)
        - (step_verify host steps cycle args).args 2
          (144 * steps + rowBack cycle 1 (maskOf steps)) = 0) ∧
    (((step_verify host steps cycle args).outcome = .error .memCheckCpp43 ∨
        (step_verify host steps cycle args).outcome = .error .memCheckCpp44) ∨
      ((∃ v, (step_verify host steps cycle args).args
          = limbBlock steps cycle v ((afterHost host steps cycle args).set 2
              (149 * steps + cycle)
              ((step_verify host steps cycle args).args 2 (149 * steps + cycle)))) ∧
        (∀ col, 150 ≤ col → col ≤ 161 →
          ((step_verify host steps cycle args).args 2 (col * steps + cycle)).asUInt32 < 4) ∧
        booleanity steps cycle (step_verify host steps cycle args).args = none)) ∧
    (step_verify host steps cycle args).outcome ≠ .error .memCheckCpp41 ∧
    (step_verify host steps cycle args).outcome ≠ .error .memCheckH28 ∧
    (∀ e, (step_verify host steps cycle args).outcome = .error e →
      e = .memCheckCpp43 ∨ e = .memCheckCpp44 ∨ e = .memCheckCpp46 ∨ e = .memCheckCpp48) := by
  subst hsteps
  have hs : 1 ≤ 2 ^ k := by omega
  have hcur := rowBack_zero k cycle hc
  have hplt := rowBack_lt (2 ^ k) cycle 1 hs
  have hlow := step_verify_low_cells host (2 ^ k) cycle args hg
  have hflag := step_verify_flag host (2 ^ k) cycle args hs hcur hg ha
  have hdigits : ∀ (v : Fp) (B : Args) (col : Nat), 150 ≤ col → col ≤ 161 →
      (limbBlock (2 ^ k) cycle v B 2 (col * 2 ^ k + cycle)).asUInt32 < 4 := by
    intro v B col h1 h2
    obtain ⟨j, rfl⟩ : ∃ j, col = 150 + j := ⟨col - 150, by omega⟩
    rw [limbBlock_col _ _ _ _ hs j (by omega)]
    show (limbDigit v j).val < 4
    rw [limbDigit_val]
    exact Nat.mod_lt _ (by decide)
  have hsites : ∀ e, (step_verify host (2 ^ k) cycle args).outcome = .error e →
      e = .memCheckCpp43 ∨ e = .memCheckCpp44 ∨ e = .memCheckCpp46 ∨ e = .memCheckCpp48 := by
    intro e he
    by_cases hsame : afterHost host (2 ^ k) cycle args 2 (144 * 2 ^ k + cycle)
        = afterHost host (2 ^ k) cycle args 2
          (144 * 2 ^ k + rowBack cycle 1 (maskOf (2 ^ k)))
    · cases hrc : readCheck (2 ^ k) cycle
          ((afterHost host (2 ^ k) cycle args).set 2 (149 * 2 ^ k + cycle) 1) with
      | some e1 =>
        rw [(step_verify_same_read host _ cycle args e1 hcur hg ha hsame hrc).2] at he
        cases he
        rcases readCheck_site _ _ _ _ hrc with h | h
        · exact Or.inl h
        · exact Or.inr (Or.inl h)
      | none =>
        rw [(step_verify_same_limb host _ cycle args hs hcur hg ha hsame hrc).2] at he
        split at he
        · cases he
        · cases he
          exact Or.inr (Or.inr (Or.inl rfl))
    · rw [(step_verify_diff host _ cycle args hs hcur hg ha hsame).2] at he
      split at he
      · cases he
      · cases he
        exact Or.inr (Or.inr (Or.inr rfl))
  refine ⟨?_, ?_, ?_, ?_, ?_, hsites⟩
  · rw [hflag]
    split
    · exact Or.inr rfl
    · exact Or.inl rfl
  · intro hne
    rw [hflag] at hne
    rw [hlow 144 cycle (by decide) hc, hlow 144 _ (by decide) hplt, Fp.sub_eq_zero_iff]
    by_contra hdiff
    rw [if_neg hdiff] at hne
    exact hne rfl
  · by_cases hsame : afterHost host (2 ^ k) cycle args 2 (144 * 2 ^ k + cycle)
        = afterHost host (2 ^ k) cycle args 2
          (144 * 2 ^ k + rowBack cycle 1 (maskOf (2 ^ k)))
    · rw [hflag, if_pos hsame]
      cases hrc : readCheck (2 ^ k) cycle
          ((afterHost host (2 ^ k) cycle args).set 2 (149 * 2 ^ k + cycle) 1) with
      | some e1 =>
        left
        rw [(step_verify_same_read host _ cycle args e1 hcur hg ha hsame hrc).2]
        rcases readCheck_site _ _ _ _ hrc with h | h
        · exact Or.inl (by rw [h])
        · exact Or.inr (by rw [h])
      | none =>
        right
        obtain ⟨h1, _⟩ := step_verify_same_limb host _ cycle args hs hcur hg ha hsame hrc
        rw [h1]
        refine ⟨⟨_, rfl⟩, fun col c1 c2 => hdigits _ _ col c1 c2, ?_⟩
        apply booleanity_limbBlock _ _ _ _ hs hcur
        right
        rw [Args.set_apply, if_pos ⟨rfl, rfl⟩]
    · right
      rw [hflag, if_neg hsame]
      obtain ⟨h1, _⟩ := step_verify_diff host _ cycle args hs hcur hg ha hsame
      rw [h1]
      refine ⟨⟨_, rfl⟩, fun col c1 c2 => hdigits _ _ col c1 c2, ?_⟩
      apply booleanity_limbBlock _ _ _ _ hs hcur
      left
      rw [Args.set_apply, if_pos ⟨rfl, rfl⟩]
  · intro he
    rcases hsites _ he with h | h | h | h <;> cases h
  · intro he
    rcases hsites _ he with h | h | h | h <;> cases h

/-- A witness of `unreachable_obligations`: the example trace with the read
event, which throws at mem_check.cpp:43. -/
theorem unreachable_obligations_witness :
    (step_verify exampleBadRead 2 1 exampleTrace).outcome ≠ .error .memCheckCpp41 ∧
      (step_verify exampleBadRead 2 1 exampleTrace).outcome ≠ .error .memCheckH28 :=
  have h := unreachable_obligations exampleBadRead 1 2 1 exampleTrace (by decide) (by decide)
    (by decide) (by decide)
  ⟨h.2.2.2.1, h.2.2.2.2.1⟩

end risc0
